import Mathlib

/-!
# The copy-in core of cpio (`src/copyin.c`)

A shallow embedding of the header decoder and of the extraction dispatcher of
`copyin.c`, followed by theorems about it.

Conventions of the embedding.

* A byte is a `Nat` (its value as an `unsigned char`); a C string or buffer is
  a `List Nat`.
* The archive is the list of the bytes that have not been consumed yet
  (`Globals.tape`).  A fatal exit (`error (PAXEXIT_FAILURE, ...)`) is `none`.
* Everything the program reports or asks of the outside world is appended to
  `Globals.log`, in program order.
* `uintmax_t` has 64 bits, `int` has 32 bits, and the host stores the low byte of a
  16-bit word first.
* The headers `extern.h` and `cpiohdr.h` and the files `util.c` and `tar.c` are not part
  of the sources; what the embedding needs of them is modelled from the specification
  or taken as a parameter (`Extern`).
-/

set_option autoImplicit false

namespace Cpio

/-! ## Data model -/

/-- Modelled from the spec: the `enum archive_format` of extern.h, which is not part of the
sources, with the names that copyin.c uses. -/
inductive archive_format where
  | arf_unknown
  | arf_binary
  | arf_oldascii
  | arf_newascii
  | arf_crcascii
  | arf_tar
  | arf_ustar
  | arf_hpoldascii
  | arf_hpbinary
  deriving DecidableEq, Repr

open archive_format

/-- Modelled from the spec: the record descriptor `struct cpio_file_stat` of cpiohdr.h,
which is not part of the sources, with the members that copyin.c uses.  An unsigned
member holds the decoded number, which fits it: a header field has at most 11 digits,
and a member of 32 bits is decoded from at most 8 hexadecimal digits, from 6 octal
digits or from one 16-bit word.  The members `c_mtime` (`time_t`) and `c_filesize`
(`off_t`) are signed. -/
structure cpio_file_stat where
  c_magic : Nat
  c_ino : Nat
  c_mode : Nat
  c_uid : Nat
  c_gid : Nat
  c_nlink : Nat
  c_mtime : Int
  c_filesize : Int
  c_dev_maj : Nat
  c_dev_min : Nat
  c_rdev_maj : Nat
  c_rdev_min : Nat
  c_namesize : Nat
  c_chksum : Nat
  /-- The bytes of the name buffer, the NUL included. -/
  c_name : List Nat
  /-- The member `c_tar_linkname`; `none` is `NULL`. -/
  c_tar_linkname : Option (List Nat)
  deriving DecidableEq, Repr

/-- Modelled from the spec: the initializer `CPIO_FILE_STAT_INITIALIZER` of cpiohdr.h, which
is not part of the sources: every member zero. -/
def CPIO_FILE_STAT_INITIALIZER : cpio_file_stat :=
  { c_magic := 0, c_ino := 0, c_mode := 0, c_uid := 0, c_gid := 0, c_nlink := 0,
    c_mtime := 0, c_filesize := 0, c_dev_maj := 0, c_dev_min := 0, c_rdev_maj := 0,
    c_rdev_min := 0, c_namesize := 0, c_chksum := 0, c_name := [], c_tar_linkname := none }

/-- What `lstat` and `fstat` give of a file: the members of `struct stat` that copyin.c
reads. -/
structure file_stat where
  st_mode : Nat
  st_mtime : Int
  st_dev : Nat
  st_ino : Nat
  deriving DecidableEq, Repr

/-- The calls of the operating system, of the C library and of util.c that copyin.c makes
on the file system, with their arguments. -/
inductive Call where
  /-- The call `lstat (name, &st)`. -/
  | lstat (name : List Nat)
  /-- The call `fstat (fd, &st)`. -/
  | fstat (fd : Int)
  /-- The call `rmdir (name)`. -/
  | rmdir (name : List Nat)
  /-- The call `unlink (name)`. -/
  | unlink (name : List Nat)
  /-- The call `open (name, O_WRONLY | O_CREAT | O_EXCL, 0)`. -/
  | open_excl (name : List Nat)
  /-- The call `mknod (name, mode, makedev (maj, min))`. -/
  | mknod (name : List Nat) (mode maj min : Nat)
  /-- The call `chown (name, uid, gid)`. -/
  | chown (name : List Nat) (uid gid : Nat)
  /-- The call `lchown (name, uid, gid)`. -/
  | lchown (name : List Nat) (uid gid : Nat)
  /-- The call `chmod (name, mode)`. -/
  | chmod (name : List Nat) (mode : Nat)
  /-- The call `set_file_times (-1, name, mtime, mtime, flag)`; `nofollow` says that the
  flag is `AT_SYMLINK_NOFOLLOW`. -/
  | set_file_times (name : List Nat) (mtime : Int) (nofollow : Bool)
  /-- The call `UMASKED_SYMLINK (source, target, mode)`, which creates the symbolic link
  `target` with contents `source`. -/
  | symlink (source target : List Nat) (mode : Nat)
  /-- The call `cpio_create_dir (file_hdr, existing_dir)` of util.c, with the name and the
  mode of the header. -/
  | cpio_create_dir (name : List Nat) (mode : Nat) (existing_dir : Bool)
  deriving DecidableEq, Repr

/-- What the program reports or does to the outside world, one constructor per
call site family.  The numeric and string arguments are those of the call. -/
inductive Event where
  /-- The call `warn_junk_bytes (n)`. -/
  | junk_bytes (n : Nat)
  /-- The report "Malformed number" of `from_ascii`, with the field. -/
  | malformed_number (field : List Nat)
  /-- The report "Archive value ... is out of range" of `from_ascii`, with the field. -/
  | out_of_range (field : List Nat)
  /-- The report "malformed header: file name of zero length". -/
  | name_zero_length
  /-- The report "malformed header: file name is not nul-terminated". -/
  | name_not_nul_terminated
  /-- The report "warning: archive header has reverse byte-order". -/
  | reverse_byte_order
  /-- The call `link_to_maj_min_ino (name, maj, min, ino)` and its result. -/
  | link_to_maj_min_ino (name : List Nat) (maj min ino : Nat) (res : Int)
  /-- The call `link_to_name (link_name, link_target)` and its result. -/
  | link_to_name (link_name link_target : List Nat) (res : Int)
  /-- The report "cannot link %s to %s". -/
  | cannot_link (a b : List Nat)
  /-- The call `open (name, O_CREAT | O_WRONLY | O_BINARY, 0600)` and its result. -/
  | open_file (name : List Nat) (fd : Int)
  /-- The call `create_all_directories (name)`. -/
  | create_all_directories (name : List Nat)
  /-- The call `open_error (name)`. -/
  | open_error (name : List Nat)
  /-- The report "cannot swap halfwords of %s: odd number of halfwords". -/
  | cannot_swap_halfwords (name : List Nat)
  /-- The report "cannot swap bytes of %s: odd number of bytes". -/
  | cannot_swap_bytes (name : List Nat)
  /-- The call `copy_files_tape_to_disk (in_des, out_des, n)` with the bytes it copies. -/
  | copy_files_tape_to_disk (out_des : Int) (bytes : List Nat)
  /-- The call `disk_empty_output_buffer (out_des, true)`. -/
  | disk_empty_output_buffer (out_des : Int)
  /-- The report "%s: checksum error (0x%x, should be 0x%x)". -/
  | checksum_error (name : List Nat) (crc chksum : Nat)
  /-- The call `set_perms (fd, file_hdr)`. -/
  | set_perms (fd : Int) (name : List Nat)
  /-- The call `close (fd)` and its result. -/
  | close_file (fd : Int) (res : Int)
  /-- The call `close_error (name)`. -/
  | close_error (name : List Nat)
  /-- A call on the file system and its `int` result. -/
  | call (c : Call) (res : Int)
  /-- A call of `lstat` or `fstat` and what it gives; `none` when it fails. -/
  | call_stat (c : Call) (res : Option file_stat)
  /-- The report "%s: stored filename length is out of range". -/
  | filename_out_of_range (name : List Nat)
  /-- The output `printf ("%s%c", name, name_end)` of `list_file`. -/
  | print_name (name : List Nat) (name_end : Nat)
  /-- The call `long_format (file_hdr, link_name)`, with the name of the header. -/
  | long_format (name : List Nat) (link_name : Option (List Nat))
  /-- The output `fprintf (stderr, "%s\n", name)` under `verbose_flag`. -/
  | print_verbose (name : List Nat)
  /-- The output `fputc ('.', stderr)` under `dot_flag`. -/
  | print_dot
  /-- The output `fputc ('\n', stderr)` after the main loop. -/
  | print_newline
  /-- The prompt `fprintf (tty_out, "rename %s -> ", name)`. -/
  | rename_prompt (name : List Nat)
  /-- The report "%s not created: newer or same age version exists". -/
  | newer_exists (name : List Nat)
  /-- The report "cannot remove current %s". -/
  | cannot_remove (name : List Nat)
  /-- The report "%s: unknown file type". -/
  | unknown_file_type (name : List Nat)
  /-- The call `mknod_error (name)`. -/
  | mknod_error (name : List Nat)
  /-- The call `chown_error_details (name, uid, gid)`. -/
  | chown_error (name : List Nat) (uid gid : Nat)
  /-- The call `chmod_error_details (name, mode)`. -/
  | chmod_error (name : List Nat) (mode : Nat)
  /-- The call `symlink_error (source, target)`. -/
  | symlink_error (source target : List Nat)
  /-- The call `stat_error (name)`. -/
  | stat_error (name : List Nat)
  /-- The call `unlink_error (name)`. -/
  | unlink_error (name : List Nat)
  /-- The call `apply_delayed_set_stat ()` of util.c. -/
  | apply_delayed_set_stat
  /-- The final count of blocks written to `stderr`. -/
  | blocks_message
  deriving DecidableEq, Repr

/-- The record `dynamic_string` of dstring.h; `ds_string` holds the contents of the
allocated storage, `ds_size` bytes, and is empty for `NULL`. -/
structure dynamic_string where
  ds_size : Nat
  ds_idx : Nat
  ds_string : List Nat
  deriving DecidableEq, Repr

/-- The record `struct delayed_link`. -/
structure delayed_link where
  dev : Nat
  ino : Nat
  mode : Nat
  uid : Nat
  gid : Nat
  mtime : Int
  source : List Nat
  target : List Nat
  deriving DecidableEq, Repr

/-! ## Numeric codec: `from_ascii` -/

/-- The table `codetab` of `from_ascii`: the characters `0123456789ABCDEF`. -/
def codetab : List Nat :=
  [48, 49, 50, 51, 52, 53, 54, 55, 56, 57, 65, 66, 67, 68, 69, 70]

/-- The function `toupper` of C, in the C locale. -/
def toupper (c : Nat) : Nat :=
  if 97 ≤ c ∧ c ≤ 122 then c - 32 else c

/-- Offset of the first occurrence of `c` in the C string `s`, counting from `i`;
as in C, the terminating NUL is part of the string. -/
def strchr_from (i : Nat) : List Nat → Nat → Option Nat
  | [], c => if c = 0 then some i else none
  | x :: xs, c => if x = c then some i else strchr_from (i + 1) xs c

/-- The function `strchr (s, c)` of C, as the offset `p - s` of the result, `none` for
`NULL`. -/
def strchr (s : List Nat) (c : Nat) : Option Nat :=
  strchr_from 0 s c

/-- Conversion of a `uintmax_t` to `int` (reduction modulo `2^32`, two's complement). -/
def uintmax_to_int (n : Nat) : Int :=
  if n % 2 ^ 32 < 2 ^ 31 then ((n % 2 ^ 32 : Nat) : Int) else ((n % 2 ^ 32 : Nat) : Int) - 2 ^ 32

/-- Conversion of an `int` to `uintmax_t` (reduction modulo `2^64`). -/
def int_to_uintmax (i : Int) : Nat :=
  (i % (2 ^ 64 : Int)).toNat

/-- The `while (1)` loop of `from_ascii`, entered with `buf` at a byte that is
inside the field and not NUL.  Returns `value`, `overflow` and whether the
"Malformed number" diagnostic was issued. -/
def from_ascii_loop (logbase : Nat) : List Nat → Nat → Int → Nat × Int × Bool
  | [], value, overflow => (value, overflow, false)
  | c :: rest, value, overflow =>
    match strchr codetab (toupper c) with
    | none => (value, overflow, true)
    | some d =>
      if (d >>> logbase) > 1 then (value, overflow, true)
      else
        let value1 := (value + d) % 2 ^ 64
        match rest with
        | [] => (value1, overflow, false)
        | c1 :: _ =>
          if c1 = 0 then (value1, overflow, false)
          else
            let overflow1 := uintmax_to_int
              (int_to_uintmax overflow |||
                (value1 ^^^ (((value1 <<< logbase) % 2 ^ 64) >>> logbase)))
            from_ascii_loop logbase rest ((value1 <<< logbase) % 2 ^ 64) overflow1

/-- The function `from_ascii (where, digs, logbase)`: the value returned and the
diagnostics issued, in order. -/
def from_ascii (where_ : List Nat) (digs : Nat) (logbase : Nat) : Nat × List Event :=
  let field := where_.take digs
  let buf := field.dropWhile (fun c => c = 32)
  match buf with
  | [] => (0, [])
  | c :: _ =>
    if c = 0 then (0, [])
    else
      let r := from_ascii_loop logbase buf 0 0
      (r.1,
        (if r.2.2 then [Event.malformed_number field] else []) ++
        (if r.2.1 ≠ 0 then [Event.out_of_range field] else []))

/-! ### What the specification says of a digit string -/

/-- The value of one digit character: `0`-`9`, `A`-`F` or `a`-`f`. -/
def digit_value (c : Nat) : Option Nat :=
  if 48 ≤ c ∧ c ≤ 57 then some (c - 48)
  else if 65 ≤ c ∧ c ≤ 70 then some (c - 55)
  else if 97 ≤ c ∧ c ≤ 102 then some (c - 87)
  else none

/-- The byte `c` is a digit of base `2 ^ logbase`. -/
def is_base_digit (logbase : Nat) (c : Nat) : Prop :=
  ∃ d, digit_value c = some d ∧ d < 2 ^ logbase

instance (logbase c : Nat) : Decidable (is_base_digit logbase c) :=
  match h : digit_value c with
  | none => isFalse (by rintro ⟨d, hd, _⟩; rw [h] at hd; cases hd)
  | some d =>
    if hlt : d < 2 ^ logbase then isTrue ⟨d, h, hlt⟩
    else isFalse (by rintro ⟨e, he, hl⟩; rw [h] at he; cases he; exact hlt hl)

/-- The value of a digit string in base `2 ^ logbase`, most significant digit first. -/
def digits_value (logbase : Nat) (acc : Nat) : List Nat → Nat
  | [] => acc
  | c :: cs => digits_value logbase (acc * 2 ^ logbase + (digit_value c).getD 0) cs

/-! ## Program state and the tape reader -/

/-- The global variables of the program that the copy-in core reads or writes. -/
structure Globals where
  /-- The variable `archive_format`. -/
  archive_format : archive_format
  /-- The variable `crc_i_flag`. -/
  crc_i_flag : Bool
  /-- The `static int warned` of `read_in_binary`. -/
  warned : Bool
  /-- The variable `only_verify_crc_flag`. -/
  only_verify_crc_flag : Bool
  /-- The variable `to_stdout_option`. -/
  to_stdout_option : Bool
  /-- The variable `create_dir_flag`. -/
  create_dir_flag : Bool
  /-- The variable `swap_halfwords_flag`. -/
  swap_halfwords_flag : Bool
  /-- The variable `swap_bytes_flag`. -/
  swap_bytes_flag : Bool
  /-- The variable `no_abs_paths_flag`. -/
  no_abs_paths_flag : Bool
  /-- The variable `copy_matching_files`. -/
  copy_matching_files : Bool
  /-- The array `save_patterns`; `num_patterns` is its length. -/
  save_patterns : List (List Nat)
  /-- The variable `swapping_halfwords`. -/
  swapping_halfwords : Bool
  /-- The variable `swapping_bytes`. -/
  swapping_bytes : Bool
  /-- The checksum accumulator `crc` (32 bits). -/
  crc : Nat
  /-- The list `deferments`, head first; an entry is the header it holds. -/
  deferments : List cpio_file_stat
  /-- The variable `table_flag`. -/
  table_flag : Bool
  /-- The variable `append_flag`. -/
  append_flag : Bool
  /-- The variable `verbose_flag`. -/
  verbose_flag : Bool
  /-- The variable `dot_flag`. -/
  dot_flag : Bool
  /-- The variable `quiet_flag`. -/
  quiet_flag : Bool
  /-- The variable `rename_flag`. -/
  rename_flag : Bool
  /-- Whether `rename_batch_file` is not `NULL`. -/
  rename_batch_file : Bool
  /-- The variable `unconditional_flag`. -/
  unconditional_flag : Bool
  /-- The variable `no_chown_flag`. -/
  no_chown_flag : Bool
  /-- The variable `retain_time_flag`. -/
  retain_time_flag : Bool
  /-- The variable `set_owner_flag`. -/
  set_owner_flag : Bool
  /-- The variable `set_owner`. -/
  set_owner : Nat
  /-- The variable `set_group_flag`. -/
  set_group_flag : Bool
  /-- The variable `set_group`. -/
  set_group : Nat
  /-- The variable `name_end`. -/
  name_end : Nat
  /-- The entries of `delayed_link_table`, oldest first; empty also when the table is
  `NULL`. -/
  delayed_link_table : List delayed_link
  /-- The bytes not yet read of the stream that `query_rename` reads (`tty_in` under
  `rename_flag`, `rename_in` otherwise). -/
  rename_input : List Nat
  /-- The `static dynamic_string new_name` of `query_rename`. -/
  new_name : dynamic_string
  /-- The bytes of the archive that have not been consumed yet. -/
  tape : List Nat
  /-- Everything reported so far, oldest first. -/
  log : List Event
  deriving DecidableEq, Repr

/-- The call `error (0, ...)` and its kin: append events to the log. -/
def report (st : Globals) (evs : List Event) : Globals :=
  { st with log := st.log ++ evs }

/-- Modelled from the spec: `tape_buffered_peek` of util.c, which is not part of the
sources: non-destructive lookahead of `n` bytes, fewer only at the end of the
archive. -/
def tape_buffered_peek (st : Globals) (n : Nat) : List Nat :=
  st.tape.take n

/-- Modelled from the spec: `tape_buffered_read` of util.c, which is not part of the
sources: the next `n` bytes, fatal if fewer than `n` bytes remain. -/
def tape_buffered_read (st : Globals) (n : Nat) : Option (List Nat × Globals) :=
  if n ≤ st.tape.length then
    some (st.tape.take n, { st with tape := st.tape.drop n })
  else none

/-- Modelled from the spec: `tape_toss_input` of util.c, which is not part of the
sources: advance `n` bytes (nothing for `n ≤ 0`); the archive cannot advance past
its end, which is fatal.  In `only_verify_crc` mode the bytes skipped are summed into
`crc`, the checksum of the CRC dialect (kept when `crc_i_flag` is set). -/
def tape_toss_input (st : Globals) (n : Int) : Option Globals :=
  if n.toNat ≤ st.tape.length then
    some { st with
      tape := st.tape.drop n.toNat
      crc := if st.crc_i_flag ∧ st.only_verify_crc_flag then
          (st.crc + (st.tape.take n.toNat).sum) % 2 ^ 32
        else st.crc }
  else none

/-- The value of `pad` computed by `tape_skip_padding` for an `off_t` offset; `%` is
the remainder of C (truncated division). -/
def padding (fmt : archive_format) (offset : Int) : Int :=
  if fmt = arf_crcascii ∨ fmt = arf_newascii then
    (4 - offset.tmod 4).tmod 4
  else if fmt = arf_binary ∨ fmt = arf_hpbinary then
    (2 - offset.tmod 2).tmod 2
  else if fmt = arf_tar ∨ fmt = arf_ustar then
    (512 - offset.tmod 512).tmod 512
  else 0

/-- The function `tape_skip_padding (in_file_des, offset)`. -/
def tape_skip_padding (st : Globals) (offset : Int) : Option Globals :=
  let pad := padding st.archive_format offset
  if pad ≠ 0 then tape_toss_input st pad else some st

/-- The padding unit the specification gives to a format: 4 for new-ascii and
new-crc, 2 for old-binary, 512 for tar and ustar. -/
def spec_unit : archive_format → Option Int
  | arf_newascii => some 4
  | arf_crcascii => some 4
  | arf_binary => some 2
  | arf_tar => some 512
  | arf_ustar => some 512
  | _ => none

/-! ## Header decoder -/

/-- What the copy-in core calls and the sources do not hold: the device-number macros
and `fnmatch` of the C library, the tar reader of tar.c, the name sanitizer of util.c,
and the outcome of the calls that reach the file system. -/
structure Extern where
  /-- The macro `major` of the C library. -/
  major : Nat → Nat
  /-- The macro `minor` of the C library. -/
  minor : Nat → Nat
  /-- The function `is_tar_header` of tar.c on the peeked block: 0, 1 (tar) or 2 (ustar). -/
  is_tar_header : List Nat → Int
  /-- The function `read_in_tar_header` of tar.c. -/
  read_in_tar_header : cpio_file_stat → Globals → Option (cpio_file_stat × Globals)
  /-- The function `cpio_safer_name_suffix (name, link_target, absolute_names, strip)` of
  util.c on the name and on `absolute_names`: the name it leaves. -/
  cpio_safer_name_suffix : List Nat → Bool → List Nat
  /-- The function `fnmatch (pattern, name, 0)` of the C library. -/
  fnmatch : List Nat → List Nat → Int
  /-- The result of `link_to_maj_min_ino (name, maj, min, ino)` of util.c, given
  everything that happened before. -/
  sys_link_to_maj_min_ino : List Event → List Nat → Nat → Nat → Nat → Int
  /-- The result of `link_to_name (link_name, link_target)` of util.c, given everything
  that happened before. -/
  sys_link_to_name : List Event → List Nat → List Nat → Int
  /-- The result of `open (name, O_CREAT | O_WRONLY | O_BINARY, 0600)`, given everything
  that happened before. -/
  sys_open : List Event → List Nat → Int
  /-- The result of `close (fd)`, given everything that happened before. -/
  sys_close : List Event → Int → Int
  /-- The `int` result of any other call on the file system, given everything that
  happened before: 0 or a descriptor on success, `-errno` on failure. -/
  sys_call : List Event → Call → Int
  /-- What `lstat` or `fstat` gives, given everything that happened before; `none` when
  the call fails. -/
  sys_stat : List Event → Call → Option file_stat
  /-- The size that `x2nrealloc (p, &n, 1)` of xalloc.h gives to storage of size `n`. -/
  x2nrealloc_size : Nat → Nat
  /-- The byte found at an index of storage that has not been written yet. -/
  heap_byte : Nat → Nat

/-- Conversion of a `uintmax_t` to a signed 64-bit type (`off_t`, `time_t`). -/
def to_int64 (n : Nat) : Int :=
  if n % 2 ^ 64 < 2 ^ 63 then ((n % 2 ^ 64 : Nat) : Int) else ((n % 2 ^ 64 : Nat) : Int) - 2 ^ 64

/-- Modelled from the spec: the file type mask `CP_IFMT` (0170000) of cpiohdr.h, which is not
part of the sources; so are the file types that follow. -/
def CP_IFMT : Nat := 0o170000
/-- The file type `CP_IFBLK` (0060000). -/
def CP_IFBLK : Nat := 0o060000
/-- The file type `CP_IFCHR` (0020000). -/
def CP_IFCHR : Nat := 0o020000
/-- The file type `CP_IFDIR` (0040000). -/
def CP_IFDIR : Nat := 0o040000
/-- The file type `CP_IFREG` (0100000). -/
def CP_IFREG : Nat := 0o100000
/-- The file type `CP_IFIFO` (0010000). -/
def CP_IFIFO : Nat := 0o010000
/-- The file type `CP_IFLNK` (0120000). -/
def CP_IFLNK : Nat := 0o120000
/-- The file type `CP_IFSOCK` (0140000). -/
def CP_IFSOCK : Nat := 0o140000

/-- The macro `swab_short (i)`. -/
def swab_short (i : Nat) : Nat :=
  ((i <<< 8) &&& 0xff00) ||| ((i >>> 8) &&& 0x00ff)

/-- The loop of `swab_array` for a count that is not negative. -/
def swab_pairs : List Nat → Nat → List Nat
  | a :: b :: rest, count + 1 => b :: a :: swab_pairs rest count
  | l, _ => l

/-- The function `swab_array (ptr, count)`: the buffer after the call. -/
def swab_array (ptr : List Nat) (count : Int) : List Nat :=
  swab_pairs ptr count.toNat

/-- The 16-bit word number `i` of a buffer, in the byte order of the host (low byte
first). -/
def short_at (buf : List Nat) (i : Nat) : Nat :=
  buf.getD (2 * i) 0 + 256 * buf.getD (2 * i + 1) 0

/-- The test `strncmp (a, b, n) == 0` of C; the end of a list stands for the terminating
NUL. -/
def strncmp_eq : List Nat → List Nat → Nat → Bool
  | _, _, 0 => true
  | [], [], _ + 1 => true
  | [], b :: _, _ + 1 => b == 0
  | a :: _, [], _ + 1 => a == 0
  | a :: as, b :: bs, n + 1 =>
    if a ≠ b then false else if a = 0 then true else strncmp_eq as bs n

/-- The string `"070701"`. -/
def magic_newascii : List Nat := [48, 55, 48, 55, 48, 49]
/-- The string `"070707"`. -/
def magic_oldascii : List Nat := [48, 55, 48, 55, 48, 55]
/-- The string `"070702"`. -/
def magic_crcascii : List Nat := [48, 55, 48, 55, 48, 50]

/-- Modelled from the spec: the macros `FROM_HEX (f)` (`logbase` 4) and `FROM_OCTAL (f)`
(`logbase` 3) of extern.h, which is not part of the sources, applied to the member at
offset `off` and of size `len` of a header held in `buf`: the call
`from_ascii (f, sizeof f, logbase)` with its diagnostics reported. -/
def decode_field (st : Globals) (buf : List Nat) (off len logbase : Nat) : Nat × Globals :=
  let r := from_ascii (buf.drop off) len logbase
  (r.1, report st r.2)

/-- The function `read_name_from_file (file_hdr, fd, len)`. -/
def read_name_from_file (file_hdr : cpio_file_stat) (st : Globals) (len : Nat) :
    Option (cpio_file_stat × Globals) :=
  if len = 0 then
    some ({ file_hdr with c_namesize := 0 }, report st [Event.name_zero_length])
  else
    match tape_buffered_read st len with
    | none => none
    | some (name, st1) =>
      if name.getD (len - 1) 0 ≠ 0 then
        some ({ file_hdr with c_name := name, c_namesize := 0 },
          report st1 [Event.name_not_nul_terminated])
      else
        some ({ file_hdr with c_name := name, c_namesize := len }, st1)

/-- The HP/UX fix at the end of `read_in_old_ascii` and of `read_in_binary`. -/
def hp_fixup (ext : Extern) (file_hdr : cpio_file_stat) : cpio_file_stat :=
  let t := file_hdr.c_mode &&& CP_IFMT
  if t = CP_IFCHR ∨ t = CP_IFBLK ∨ t = CP_IFSOCK ∨ t = CP_IFIFO then
    if file_hdr.c_filesize ≠ 0 ∧ file_hdr.c_rdev_maj = 0 ∧ file_hdr.c_rdev_min = 1 then
      { file_hdr with
        c_rdev_maj := ext.major (int_to_uintmax file_hdr.c_filesize)
        c_rdev_min := ext.minor (int_to_uintmax file_hdr.c_filesize)
        c_filesize := 0 }
    else file_hdr
  else file_hdr

/-- The function `read_in_old_ascii (file_hdr, in_des)`.  The members of
`struct old_ascii_header` (cpiohdr.h, layout from the specification) after the magic are `c_dev`, `c_ino`, `c_mode`, `c_uid`, `c_gid`,
`c_nlink`, `c_rdev` (6 bytes each), `c_mtime` (11), `c_namesize` (6), `c_filesize` (11). -/
def read_in_old_ascii (ext : Extern) (file_hdr : cpio_file_stat) (st : Globals) :
    Option (cpio_file_stat × Globals) :=
  match tape_buffered_read st 70 with
  | none => none
  | some (h, st) =>
    let (dev, st) := decode_field st h 0 6 3
    let (ino, st) := decode_field st h 6 6 3
    let (mode, st) := decode_field st h 12 6 3
    let (uid, st) := decode_field st h 18 6 3
    let (gid, st) := decode_field st h 24 6 3
    let (nlink, st) := decode_field st h 30 6 3
    let (rdev, st) := decode_field st h 36 6 3
    let (mtime, st) := decode_field st h 42 11 3
    let (filesize, st) := decode_field st h 59 11 3
    let (namesize, st) := decode_field st h 53 6 3
    let file_hdr := { file_hdr with
      c_dev_maj := ext.major dev, c_dev_min := ext.minor dev, c_ino := ino, c_mode := mode,
      c_uid := uid, c_gid := gid, c_nlink := nlink,
      c_rdev_maj := ext.major rdev, c_rdev_min := ext.minor rdev,
      c_mtime := to_int64 mtime, c_filesize := to_int64 filesize }
    match read_name_from_file file_hdr st namesize with
    | none => none
    | some (file_hdr, st) => some (hp_fixup ext file_hdr, st)

/-- The function `read_in_new_ascii (file_hdr, in_des)`.  The members of
`struct new_ascii_header` (cpiohdr.h, layout from the specification) after the magic are `c_ino`, `c_mode`, `c_uid`, `c_gid`, `c_nlink`,
`c_mtime`, `c_filesize`, `c_dev_maj`, `c_dev_min`, `c_rdev_maj`, `c_rdev_min`, `c_namesize`,
`c_chksum`, 8 bytes each. -/
def read_in_new_ascii (file_hdr : cpio_file_stat) (st : Globals) :
    Option (cpio_file_stat × Globals) :=
  match tape_buffered_read st 104 with
  | none => none
  | some (h, st) =>
    let (ino, st) := decode_field st h 0 8 4
    let (mode, st) := decode_field st h 8 8 4
    let (uid, st) := decode_field st h 16 8 4
    let (gid, st) := decode_field st h 24 8 4
    let (nlink, st) := decode_field st h 32 8 4
    let (mtime, st) := decode_field st h 40 8 4
    let (filesize, st) := decode_field st h 48 8 4
    let (dev_maj, st) := decode_field st h 56 8 4
    let (dev_min, st) := decode_field st h 64 8 4
    let (rdev_maj, st) := decode_field st h 72 8 4
    let (rdev_min, st) := decode_field st h 80 8 4
    let (chksum, st) := decode_field st h 96 8 4
    let (namesize, st) := decode_field st h 88 8 4
    let file_hdr := { file_hdr with
      c_ino := ino, c_mode := mode, c_uid := uid, c_gid := gid, c_nlink := nlink,
      c_mtime := to_int64 mtime, c_filesize := to_int64 filesize,
      c_dev_maj := dev_maj, c_dev_min := dev_min, c_rdev_maj := rdev_maj,
      c_rdev_min := rdev_min, c_chksum := chksum }
    match read_name_from_file file_hdr st namesize with
    | none => none
    | some (file_hdr, st) =>
      match tape_skip_padding st ((file_hdr.c_namesize : Int) + 110) with
      | none => none
      | some st => some (file_hdr, st)

/-- The function `read_in_binary (file_hdr, short_hdr, in_des)`; `first6` holds the six
bytes of `*short_hdr` that the caller has read.  The members of `struct old_cpio_header`
(cpiohdr.h, not part of the sources) are the 13 words `c_magic`, `c_dev`, `c_ino`, `c_mode`, `c_uid`, `c_gid`, `c_nlink`, `c_rdev`,
`c_mtimes[2]`, `c_namesize`, `c_filesizes[2]`. -/
def read_in_binary (ext : Extern) (file_hdr : cpio_file_stat) (first6 : List Nat)
    (st : Globals) : Option (cpio_file_stat × Globals) :=
  let file_hdr := { file_hdr with c_magic := short_at first6 0 }
  match tape_buffered_read st 20 with
  | none => none
  | some (more, st) =>
    let raw := first6 ++ more
    let swapped : Bool := file_hdr.c_magic = swab_short 0o070707
    let st := if swapped ∧ st.warned = false then
        report { st with warned := true } [Event.reverse_byte_order]
      else st
    let h := if swapped then swab_array raw 13 else raw
    let file_hdr := { file_hdr with
      c_dev_maj := ext.major (short_at h 1), c_dev_min := ext.minor (short_at h 1),
      c_ino := short_at h 2, c_mode := short_at h 3, c_uid := short_at h 4,
      c_gid := short_at h 5, c_nlink := short_at h 6,
      c_rdev_maj := ext.major (short_at h 7), c_rdev_min := ext.minor (short_at h 7),
      c_mtime := to_int64 ((short_at h 8 <<< 16) ||| short_at h 9),
      c_filesize := to_int64 ((short_at h 11 <<< 16) ||| short_at h 12) }
    match read_name_from_file file_hdr st (short_at h 10) with
    | none => none
    | some (file_hdr, st) =>
      match (if file_hdr.c_namesize % 2 ≠ 0 then tape_toss_input st 1 else some st) with
      | none => none
      | some st => some (hp_fixup ext file_hdr, st)

/-- One pass of the tests of the loop `while (archive_format == arf_unknown)` of
`read_in_header` on the peeked bytes `tmpbuf` (at least 6): the format found and
whether `crc_i_flag` is set, or `none` when no test succeeds. -/
def classify (ext : Extern) (tmpbuf : List Nat) : Option (archive_format × Bool) :=
  if strncmp_eq tmpbuf magic_newascii 6 then some (arf_newascii, false)
  else if strncmp_eq tmpbuf magic_oldascii 6 then some (arf_oldascii, false)
  else if strncmp_eq tmpbuf magic_crcascii 6 then some (arf_crcascii, true)
  else if short_at tmpbuf 0 = 0o070707 ∨ short_at tmpbuf 0 = swab_short 0o070707 then
    some (arf_binary, false)
  else if tmpbuf.length ≥ 512 ∧ ext.is_tar_header tmpbuf ≠ 0 then
    if ext.is_tar_header tmpbuf = 2 then some (arf_ustar, false) else some (arf_tar, false)
  else none

/-- The loop `while (archive_format == arf_unknown)` of `read_in_header`, entered in state
`st` with `bytes_skipped` bytes already discarded; the second argument is the archive from
the current position on.  Returns the state when a format has been found (the peeked
bytes are not consumed) and the final count; `none` is the fatal "premature end of
archive". -/
def find_magic (ext : Extern) (st : Globals) : List Nat → Nat → Option (Globals × Nat)
  | [], _ => none
  | b :: rest, bytes_skipped =>
    let tmpbuf := tape_buffered_peek { st with tape := b :: rest } 512
    if tmpbuf.length < 6 then none
    else
      match classify ext tmpbuf with
      | some (fmt, crc) =>
        some ({ st with archive_format := fmt, crc_i_flag := st.crc_i_flag || crc,
                        tape := b :: rest }, bytes_skipped)
      | none => find_magic ext st rest (bytes_skipped + 1)

/-- The tests of the second loop of `read_in_header` on the six bytes `magic`: the value
stored in `c_magic` when the magic agrees with the archive format. -/
def magic_matches (fmt : archive_format) (magic : List Nat) : Option Nat :=
  if fmt = arf_newascii ∧ strncmp_eq magic magic_newascii 6 then some 0o070701
  else if fmt = arf_crcascii ∧ strncmp_eq magic magic_crcascii 6 then some 0o070702
  else if (fmt = arf_oldascii ∨ fmt = arf_hpoldascii) ∧ strncmp_eq magic magic_oldascii 6 then
    some 0o070707
  else if (fmt = arf_binary ∨ fmt = arf_hpbinary) ∧
      (short_at magic 0 = 0o070707 ∨ short_at magic 0 = swab_short 0o070707) then
    some 0o070707
  else none

/-- The second loop `while (1)` of `read_in_header`, up to the call of the decoder: the
six bytes in `magic`, the bytes not yet consumed and `bytes_skipped`; returns the value
for `c_magic`, the six bytes, the bytes left and the final count; `none` is the fatal
end of the archive. -/
def sync_magic (fmt : archive_format) :
    List Nat → List Nat → Nat → Option (Nat × List Nat × List Nat × Nat)
  | magic, [], bytes_skipped =>
    match magic_matches fmt magic with
    | some m => some (m, magic, [], bytes_skipped)
    | none => none
  | magic, b :: rest, bytes_skipped =>
    match magic_matches fmt magic with
    | some m => some (m, magic, b :: rest, bytes_skipped)
    | none => sync_magic fmt (magic.drop 1 ++ [b]) rest (bytes_skipped + 1)

/-- The call `if (bytes_skipped > 0) warn_junk_bytes (bytes_skipped)`. -/
def warn_junk (st : Globals) (bytes_skipped : Nat) : Globals :=
  if bytes_skipped > 0 then report st [Event.junk_bytes bytes_skipped] else st

/-- The decoder that `read_in_header` calls in the branch of the second loop that
matched, by the format of the archive. -/
def decode_header (ext : Extern) (file_hdr : cpio_file_stat) (magic : List Nat)
    (st : Globals) : Option (cpio_file_stat × Globals) :=
  if st.archive_format = arf_newascii ∨ st.archive_format = arf_crcascii then
    read_in_new_ascii file_hdr st
  else if st.archive_format = arf_oldascii ∨ st.archive_format = arf_hpoldascii then
    read_in_old_ascii ext file_hdr st
  else
    read_in_binary ext file_hdr magic st

/-- The function `read_in_header (file_hdr, in_des)`.  The bookkeeping of
`last_header_start` under `append_flag` is left out: nothing here reads it. -/
def read_in_header (ext : Extern) (file_hdr : cpio_file_stat) (st : Globals) :
    Option (cpio_file_stat × Globals) :=
  let found : Option (Globals × Nat) :=
    if st.archive_format = arf_unknown then find_magic ext st st.tape 0
    else some (st, 0)
  match found with
  | none => none
  | some (st, bytes_skipped) =>
    if st.archive_format = arf_tar ∨ st.archive_format = arf_ustar then
      ext.read_in_tar_header file_hdr (warn_junk st bytes_skipped)
    else
      let file_hdr := { file_hdr with c_tar_linkname := none }
      match tape_buffered_read st 6 with
      | none => none
      | some (magic, st) =>
        match sync_magic st.archive_format magic st.tape bytes_skipped with
        | none => none
        | some (m, magic, tape, bytes_skipped) =>
          decode_header ext { file_hdr with c_magic := m } magic
            (warn_junk { st with tape := tape } bytes_skipped)

/-! ## Deferred links and the regular-file writer -/

/-- The pair of calls `tape_toss_input (in_file_des, file_hdr->c_filesize);
tape_skip_padding (in_file_des, file_hdr->c_filesize);` that discards a payload and its
padding. -/
def toss_payload (st : Globals) (file_hdr : cpio_file_stat) : Option Globals :=
  match tape_toss_input st file_hdr.c_filesize with
  | none => none
  | some st => tape_skip_padding st file_hdr.c_filesize

/-- The C string held in a buffer: the bytes before the first NUL. -/
def cstr (buf : List Nat) : List Nat :=
  buf.takeWhile (fun c => c ≠ 0)

/-- Modelled from the spec: `cpio_set_c_name` of util.c, which is not part of the sources:
rename the record to the C string `name`; the name buffer holds the string and its NUL,
and `c_namesize` is their length. -/
def cpio_set_c_name (file_hdr : cpio_file_stat) (name : List Nat) : cpio_file_stat :=
  { file_hdr with c_name := cstr name ++ [0], c_namesize := (cstr name).length + 1 }

/-- The function `defer_copyin (file_hdr)`: a copy of the header goes to the front of
`deferments`. -/
def defer_copyin (st : Globals) (file_hdr : cpio_file_stat) : Globals :=
  { st with deferments := file_hdr :: st.deferments }

/-- The call `link_to_maj_min_ino (name, maj, min, ino)`: its result, and the state with
the call recorded. -/
def link_to_maj_min_ino (ext : Extern) (st : Globals) (name : List Nat) (maj min ino : Nat) :
    Int × Globals :=
  let res := ext.sys_link_to_maj_min_ino st.log name maj min ino
  (res, report st [Event.link_to_maj_min_ino name maj min ino res])

/-- The call `link_to_name (link_name, link_target)`: its result, and the state with the
call recorded. -/
def link_to_name (ext : Extern) (st : Globals) (link_name link_target : List Nat) :
    Int × Globals :=
  let res := ext.sys_link_to_name st.log link_name link_target
  (res, report st [Event.link_to_name link_name link_target res])

/-- The test of `create_defered_links` and `create_defered_links_to_skipped` on a deferred
entry `d`: same `c_ino`, `c_dev_maj` and `c_dev_min` as the header. -/
def same_file (d file_hdr : cpio_file_stat) : Prop :=
  d.c_ino = file_hdr.c_ino ∧ d.c_dev_maj = file_hdr.c_dev_maj ∧
    d.c_dev_min = file_hdr.c_dev_min

instance (d file_hdr : cpio_file_stat) : Decidable (same_file d file_hdr) := by
  unfold same_file
  exact inferInstance

/-- The loop of `create_defered_links` from the entry at the head of the list on: the
entries that stay, in order, and the state with the calls recorded. -/
def create_defered_links_loop (ext : Extern) (file_hdr : cpio_file_stat) :
    List cpio_file_stat → Globals → List cpio_file_stat × Globals
  | [], st => ([], st)
  | d :: ds, st =>
    if same_file d file_hdr then
      let r := link_to_name ext st d.c_name file_hdr.c_name
      let st1 := if r.1 < 0 then report r.2 [Event.cannot_link d.c_name file_hdr.c_name]
        else r.2
      create_defered_links_loop ext file_hdr ds st1
    else
      let r := create_defered_links_loop ext file_hdr ds st
      (d :: r.1, r.2)

/-- The function `create_defered_links (file_hdr)`. -/
def create_defered_links (ext : Extern) (file_hdr : cpio_file_stat) (st : Globals) : Globals :=
  let r := create_defered_links_loop ext file_hdr st.deferments st
  { r.2 with deferments := r.1 }

/-- Modelled from the spec: `copy_files_tape_to_disk` of util.c, which is not part of the
sources: stream `num_bytes` bytes of payload from the archive to the output, fatal if
fewer remain; the running checksum is updated for the CRC dialect (`crc_i_flag`). -/
def copy_files_tape_to_disk (st : Globals) (out_des : Int) (num_bytes : Int) :
    Option Globals :=
  if num_bytes.toNat ≤ st.tape.length then
    some (report
      { st with
        tape := st.tape.drop num_bytes.toNat
        crc := if st.crc_i_flag then (st.crc + (st.tape.take num_bytes.toNat).sum) % 2 ^ 32
          else st.crc }
      [Event.copy_files_tape_to_disk out_des (st.tape.take num_bytes.toNat)])
  else none

/-- The test `if (crc != file_hdr->c_chksum)` under `archive_format == arf_crcascii` and
its report. -/
def check_crc (st : Globals) (file_hdr : cpio_file_stat) : Globals :=
  if st.archive_format = arf_crcascii ∧ st.crc ≠ file_hdr.c_chksum then
    report st [Event.checksum_error file_hdr.c_name st.crc file_hdr.c_chksum]
  else st

/-- The part of `copyin_regular_file` from `crc = 0;` to the end, with the output
descriptor `out_file_des`. -/
def copyin_regular_file_data (ext : Extern) (file_hdr : cpio_file_stat) (out_file_des : Int)
    (st : Globals) : Option Globals :=
  let st := { st with crc := 0 }
  let st := if st.swap_halfwords_flag then
      (if file_hdr.c_filesize.tmod 4 = 0 then { st with swapping_halfwords := true }
       else report st [Event.cannot_swap_halfwords file_hdr.c_name])
    else st
  let st := if st.swap_bytes_flag then
      (if file_hdr.c_filesize.tmod 2 = 0 then { st with swapping_bytes := true }
       else report st [Event.cannot_swap_bytes file_hdr.c_name])
    else st
  match copy_files_tape_to_disk st out_file_des file_hdr.c_filesize with
  | none => none
  | some st =>
    let st := report st [Event.disk_empty_output_buffer out_file_des]
    if st.to_stdout_option then
      tape_skip_padding (check_crc st file_hdr) file_hdr.c_filesize
    else
      let st := report st [Event.set_perms out_file_des file_hdr.c_name]
      let res := ext.sys_close st.log out_file_des
      let st := report st [Event.close_file out_file_des res]
      let st := if res < 0 then report st [Event.close_error file_hdr.c_name] else st
      match tape_skip_padding (check_crc st file_hdr) file_hdr.c_filesize with
      | none => none
      | some st =>
        if file_hdr.c_nlink > 1 ∧
            (st.archive_format = arf_newascii ∨ st.archive_format = arf_crcascii) then
          some (create_defered_links ext file_hdr st)
        else some st

/-- The part of `copyin_regular_file` from the comment "If not linked, copy the contents
of the file" on: open the output file, then copy. -/
def copyin_regular_file_open (ext : Extern) (file_hdr : cpio_file_stat) (st : Globals) :
    Option Globals :=
  let fd := ext.sys_open st.log file_hdr.c_name
  let st := report st [Event.open_file file_hdr.c_name fd]
  let r : Int × Globals :=
    if fd < 0 ∧ st.create_dir_flag then
      let st1 := report st [Event.create_all_directories file_hdr.c_name]
      let fd1 := ext.sys_open st1.log file_hdr.c_name
      (fd1, report st1 [Event.open_file file_hdr.c_name fd1])
    else (fd, st)
  if r.1 < 0 then
    toss_payload (report r.2 [Event.open_error file_hdr.c_name]) file_hdr
  else
    copyin_regular_file_data ext file_hdr r.1 r.2

/-- The function `copyin_regular_file (file_hdr, in_file_des)`; `STDOUT_FILENO` is 1. -/
def copyin_regular_file (ext : Extern) (file_hdr : cpio_file_stat) (st : Globals) :
    Option Globals :=
  if st.to_stdout_option then
    copyin_regular_file_data ext file_hdr 1 st
  else if file_hdr.c_nlink > 1 ∧
      (st.archive_format = arf_newascii ∨ st.archive_format = arf_crcascii) then
    if file_hdr.c_filesize = 0 then
      toss_payload (defer_copyin st file_hdr) file_hdr
    else
      let r := link_to_maj_min_ino ext st file_hdr.c_name file_hdr.c_dev_maj
        file_hdr.c_dev_min file_hdr.c_ino
      if r.1 = 0 then toss_payload r.2 file_hdr
      else copyin_regular_file_open ext file_hdr r.2
  else if file_hdr.c_nlink > 1 ∧ st.archive_format ≠ arf_tar ∧
      st.archive_format ≠ arf_ustar then
    let r := link_to_maj_min_ino ext st file_hdr.c_name file_hdr.c_dev_maj
      file_hdr.c_dev_min file_hdr.c_ino
    if r.1 = 0 then toss_payload r.2 file_hdr
    else copyin_regular_file_open ext file_hdr r.2
  else
    match file_hdr.c_tar_linkname with
    | some (c :: linkname) =>
      if (st.archive_format = arf_tar ∨ st.archive_format = arf_ustar) ∧ c ≠ 0 then
        let r := link_to_name ext st file_hdr.c_name (c :: linkname)
        if r.1 < 0 then
          some (report r.2 [Event.cannot_link (c :: linkname) file_hdr.c_name])
        else some r.2
      else copyin_regular_file_open ext file_hdr st
    | _ => copyin_regular_file_open ext file_hdr st

/-- The search of `create_defered_links_to_skipped`: the first entry of the list that is
the same file as the header, and the list without it. -/
def remove_first_same_file (file_hdr : cpio_file_stat) :
    List cpio_file_stat → Option (cpio_file_stat × List cpio_file_stat)
  | [] => none
  | d :: ds =>
    if same_file d file_hdr then some (d, ds)
    else
      match remove_first_same_file file_hdr ds with
      | none => none
      | some (e, rest) => some (e, d :: rest)

/-- The function `create_defered_links_to_skipped (file_hdr, in_file_des)`: the value
returned, the header (which the function may rename) and the state. -/
def create_defered_links_to_skipped (ext : Extern) (file_hdr : cpio_file_stat)
    (st : Globals) : Option (Int × cpio_file_stat × Globals) :=
  if file_hdr.c_filesize = 0 then some (-1, file_hdr, st)
  else
    match remove_first_same_file file_hdr st.deferments with
    | none => some (-1, file_hdr, st)
    | some (d, rest) =>
      let file_hdr1 := cpio_set_c_name file_hdr d.c_name
      match copyin_regular_file ext file_hdr1 { st with deferments := rest } with
      | none => none
      | some st1 => some (0, file_hdr1, st1)

/-! ## Extraction dispatcher: selection and the skip path -/

/-- Modelled from the spec: the name `CPIO_TRAILER_NAME` of cpiohdr.h, `"TRAILER!!!"`. -/
def CPIO_TRAILER_NAME : List Nat := [84, 82, 65, 73, 76, 69, 82, 33, 33, 33]

/-- The loop over `save_patterns` in `process_copy_in`, from pattern `i` on, with the
current value of `skip_file`. -/
def match_patterns (ext : Extern) (copy_matching_files : Bool) (name : List Nat) :
    List (List Nat) → Bool → Bool
  | [], skip_file => skip_file
  | p :: ps, skip_file =>
    if skip_file = copy_matching_files then
      if ext.fnmatch p name = 0 then
        match_patterns ext copy_matching_files name ps (!copy_matching_files)
      else match_patterns ext copy_matching_files name ps skip_file
    else skip_file

/-- What the first part of an iteration of the main loop decides for a record. -/
inductive Selection where
  /-- The record is the trailer: `break`. -/
  | trailer
  /-- The record goes on with this header and this value of `skip_file`. -/
  | record (file_hdr : cpio_file_stat) (skip_file : Bool)
  deriving DecidableEq, Repr

/-- The part of an iteration of the main loop of `process_copy_in` between
`read_in_header` and `if (skip_file)`: the test of `c_namesize`, the trailer test, the
name sanitizer and the patterns. -/
def select_record (ext : Extern) (file_hdr : cpio_file_stat) (st : Globals) : Selection :=
  if file_hdr.c_namesize = 0 then Selection.record file_hdr true
  else if cstr file_hdr.c_name = CPIO_TRAILER_NAME then Selection.trailer
  else
    let file_hdr1 := { file_hdr with
      c_name := ext.cpio_safer_name_suffix file_hdr.c_name (!st.no_abs_paths_flag) }
    if st.save_patterns.length ≤ 0 then Selection.record file_hdr1 false
    else
      Selection.record file_hdr1
        (match_patterns ext st.copy_matching_files file_hdr1.c_name st.save_patterns
          st.copy_matching_files)

/-- The branch `if (skip_file) { ... }` of the main loop of `process_copy_in`. -/
def process_skipped (ext : Extern) (file_hdr : cpio_file_stat) (st : Globals) :
    Option (cpio_file_stat × Globals) :=
  if file_hdr.c_nlink > 1 ∧
      (st.archive_format = arf_newascii ∨ st.archive_format = arf_crcascii) then
    match create_defered_links_to_skipped ext file_hdr st with
    | none => none
    | some (res, file_hdr1, st1) =>
      if res < 0 then
        match toss_payload st1 file_hdr1 with
        | none => none
        | some st2 => some (file_hdr1, st2)
      else some (file_hdr1, st1)
  else
    match toss_payload st file_hdr with
    | none => none
    | some st1 => some (file_hdr, st1)

/-! ## Dynamic strings (`dstring.c`) -/

/-- Modelled from the spec: the call `x2nrealloc (string->ds_string, &string->ds_size, 1)` of
xalloc.h, which is not part of the sources: the storage grows to the size the allocator
chooses, keeps its contents, and its new bytes hold whatever the heap holds. -/
def x2nrealloc (ext : Extern) (s : dynamic_string) : dynamic_string :=
  { s with
    ds_size := ext.x2nrealloc_size s.ds_size
    ds_string := s.ds_string ++
      (List.range (ext.x2nrealloc_size s.ds_size - s.ds_size)).map
        (fun i => ext.heap_byte (s.ds_size + i)) }

/-- The loop of `ds_resize`, run at most `fuel` times. -/
def ds_resize_loop (ext : Extern) : Nat → dynamic_string → Nat → dynamic_string
  | 0, s, _ => s
  | fuel + 1, s, len =>
    if len + s.ds_idx ≥ s.ds_size then ds_resize_loop ext fuel (x2nrealloc ext s) len
    else s

/-- The function `ds_resize (string, len)`.  The loop is given `len + ds_idx + 1` rounds,
which is enough for it to end by its own test whenever each reallocation grows the
storage. -/
def ds_resize (ext : Extern) (s : dynamic_string) (len : Nat) : dynamic_string :=
  ds_resize_loop ext (len + s.ds_idx + 1) s len

/-- The function `ds_init (string)`: every member zero. -/
def ds_init : dynamic_string :=
  { ds_size := 0, ds_idx := 0, ds_string := [] }

/-- The function `ds_reset (s, len)`. -/
def ds_reset (ext : Extern) (s : dynamic_string) (len : Nat) : dynamic_string :=
  { ds_resize ext s len with ds_idx := len }

/-- The assignment `s->ds_string[i] = c`: the value is stored as a `char`. -/
def ds_store (s : dynamic_string) (i : Nat) (c : Nat) : dynamic_string :=
  { s with ds_string := s.ds_string.set i (c % 256) }

/-- The function `ds_append (s, c)`. -/
def ds_append (ext : Extern) (s : dynamic_string) (c : Nat) : dynamic_string :=
  let s1 := ds_resize ext s 0
  let s2 := ds_store s1 s1.ds_idx c
  if c ≠ 0 then
    let s3 := ds_resize ext { s2 with ds_idx := s2.ds_idx + 1 } 0
    ds_store s3 s3.ds_idx 0
  else s2

/-- The call `memcpy (s->ds_string + i, str, len)`. -/
def ds_memcpy : dynamic_string → Nat → List Nat → dynamic_string
  | s, _, [] => s
  | s, i, c :: cs => ds_memcpy (ds_store s i c) (i + 1) cs

/-- The function `ds_concat (s, str)`; `str` is a C string. -/
def ds_concat (ext : Extern) (s : dynamic_string) (str : List Nat) : dynamic_string :=
  let len := (cstr str).length
  let s1 := ds_resize ext s len
  let s2 := ds_memcpy s1 s1.ds_idx (cstr str)
  ds_store { s2 with ds_idx := s2.ds_idx + len } (s2.ds_idx + len) 0

/-- The loop of `ds_fgetstr` on the bytes not yet read of the file: the string, the bytes
left in the file, and whether the loop ended on `EOF`. -/
def ds_fgetstr_loop (ext : Extern) (eos : Int) :
    List Nat → dynamic_string → dynamic_string × List Nat × Bool
  | [], s => (s, [], true)
  | c :: rest, s =>
    if (c : Int) = eos then (s, rest, false)
    else
      let s1 := ds_resize ext s 0
      ds_fgetstr_loop ext eos rest { ds_store s1 s1.ds_idx c with ds_idx := s1.ds_idx + 1 }

/-- The function `ds_fgetstr (f, s, eos)`: whether the result is not `NULL`, the string,
and the bytes left in the file. -/
def ds_fgetstr (ext : Extern) (f : List Nat) (s : dynamic_string) (eos : Int) :
    Bool × dynamic_string × List Nat :=
  let r := ds_fgetstr_loop ext eos f { s with ds_idx := 0 }
  let s1 := ds_resize ext r.1 0
  let s2 := ds_store s1 s1.ds_idx 0
  (!(s2.ds_idx = 0 ∧ r.2.2 = true), s2, r.2.1)

/-- The function `ds_fgets (f, s)`. -/
def ds_fgets (ext : Extern) (f : List Nat) (s : dynamic_string) :
    Bool × dynamic_string × List Nat :=
  ds_fgetstr ext f s 10

/-- The function `ds_fgetname (f, s)`. -/
def ds_fgetname (ext : Extern) (f : List Nat) (s : dynamic_string) :
    Bool × dynamic_string × List Nat :=
  ds_fgetstr ext f s 0

/-- What dstring.h promises of a dynamic string: a zero byte at index `ds_idx`, inside
the storage. -/
def ds_terminated (s : dynamic_string) : Prop :=
  s.ds_idx < s.ds_size ∧ s.ds_string.length = s.ds_size ∧ s.ds_string.get? s.ds_idx = some 0

instance (s : dynamic_string) : Decidable (ds_terminated s) := by
  unfold ds_terminated
  exact inferInstance

/-! ## Link names and the fields of a header -/

/-- The function `get_link_name (file_hdr, in_file_des)`: the buffer returned (the
payload and a NUL), `none` for `NULL`; `SIZE_MAX` is `2^64 - 1`, and the comparison
with it is unsigned. -/
def get_link_name (file_hdr : cpio_file_stat) (st : Globals) :
    Option (Option (List Nat) × Globals) :=
  if file_hdr.c_filesize < 0 ∨ int_to_uintmax file_hdr.c_filesize > 2 ^ 64 - 1 - 1 then
    some (none, report st [Event.filename_out_of_range file_hdr.c_name])
  else
    match tape_buffered_read st file_hdr.c_filesize.toNat with
    | none => none
    | some (link_name, st1) =>
      match tape_skip_padding st1 file_hdr.c_filesize with
      | none => none
      | some st2 => some (some (link_name ++ [0]), st2)

/-- The members of a descriptor that `read_in_binary` decodes from the header, apart from
`c_magic`. -/
def decoded_fields (file_hdr : cpio_file_stat) :
    Nat × Nat × Nat × Nat × Nat × Nat × Nat × Nat × Nat × Int × Int × Nat :=
  (file_hdr.c_dev_maj, file_hdr.c_dev_min, file_hdr.c_ino, file_hdr.c_mode, file_hdr.c_uid,
   file_hdr.c_gid, file_hdr.c_nlink, file_hdr.c_rdev_maj, file_hdr.c_rdev_min,
   file_hdr.c_mtime, file_hdr.c_filesize, file_hdr.c_namesize)

/-- The header that `read_in_binary` decodes: the 26 bytes, after the byte swap when the
magic is the swapped one. -/
def binary_header_words (first6 : List Nat) (tape : List Nat) : List Nat :=
  if short_at first6 0 = swab_short 0o070707 then swab_array (first6 ++ tape.take 20) 13
  else first6 ++ tape.take 20

/-- Whether the type bits of a mode are those of a character device, a block device, a
socket or a FIFO. -/
def is_special_mode (mode : Nat) : Prop :=
  mode &&& CP_IFMT = CP_IFCHR ∨ mode &&& CP_IFMT = CP_IFBLK ∨
    mode &&& CP_IFMT = CP_IFSOCK ∨ mode &&& CP_IFMT = CP_IFIFO

instance (mode : Nat) : Decidable (is_special_mode mode) := by
  unfold is_special_mode
  exact inferInstance

/-! ## Calls on the file system -/

/-- A call on the file system with an `int` result: the result, and the state with the
call recorded. -/
def do_call (ext : Extern) (st : Globals) (c : Call) : Int × Globals :=
  let res := ext.sys_call st.log c
  (res, report st [Event.call c res])

/-- A call of `lstat` or `fstat`: what it gives, and the state with the call recorded. -/
def do_stat (ext : Extern) (st : Globals) (c : Call) : Option file_stat × Globals :=
  let res := ext.sys_stat st.log c
  (res, report st [Event.call_stat c res])

/-- The call `close (fd)`: its result, and the state with the call recorded. -/
def do_close (ext : Extern) (st : Globals) (fd : Int) : Int × Globals :=
  let res := ext.sys_close st.log fd
  (res, report st [Event.close_file fd res])

/-- The error number `EPERM`. -/
def EPERM : Int := 1

/-- The macro `S_ISDIR` on `st_mode`. -/
def S_ISDIR (mode : Nat) : Prop :=
  mode &&& 0o170000 = 0o040000

instance (mode : Nat) : Decidable (S_ISDIR mode) := by
  unfold S_ISDIR
  exact inferInstance

/-- The expression `set_owner_flag ? set_owner : uid`. -/
def owner_of (st : Globals) (uid : Nat) : Nat :=
  if st.set_owner_flag then st.set_owner else uid

/-- The expression `set_group_flag ? set_group : gid`. -/
def group_of (st : Globals) (gid : Nat) : Nat :=
  if st.set_group_flag then st.set_group else gid

/-- The statement `if (chown (name, uid, gid) < 0 && errno != EPERM) chown_error_details
(name, uid, gid);` with `chown` or `lchown`, given as `c`. -/
def chown_or_report (ext : Extern) (st : Globals) (c : Call) (name : List Nat)
    (uid gid : Nat) : Globals :=
  let r := do_call ext st c
  if r.1 < 0 ∧ r.1 ≠ -EPERM then report r.2 [Event.chown_error name uid gid] else r.2

/-! ## Listing -/

/-- The function `list_file (file_hdr, in_file_des)`. -/
def list_file (file_hdr : cpio_file_stat) (st : Globals) : Option Globals :=
  if st.verbose_flag ∧ file_hdr.c_mode &&& CP_IFMT = CP_IFLNK then
    if st.archive_format ≠ arf_tar ∧ st.archive_format ≠ arf_ustar then
      match get_link_name file_hdr st with
      | none => none
      | some (none, st1) => some st1
      | some (some link_name, st1) =>
        some (report st1 [Event.long_format file_hdr.c_name (some link_name)])
    else some (report st [Event.long_format file_hdr.c_name file_hdr.c_tar_linkname])
  else
    let st1 := if st.verbose_flag then report st [Event.long_format file_hdr.c_name none]
      else report st [Event.print_name file_hdr.c_name st.name_end]
    match toss_payload { st1 with crc := 0 } file_hdr with
    | none => none
    | some st2 =>
      if st2.only_verify_crc_flag then
        if file_hdr.c_mode &&& CP_IFMT = CP_IFLNK then some st2
        else if st2.crc ≠ file_hdr.c_chksum then
          some (report st2 [Event.checksum_error file_hdr.c_name st2.crc file_hdr.c_chksum])
        else some st2
      else some st2

/-! ## Extraction of one record -/

/-- The function `try_existing_file (file_hdr, in_file_des, &existing_dir)`: the value
returned, `existing_dir`, and the state. -/
def try_existing_file (ext : Extern) (file_hdr : cpio_file_stat) (st : Globals) :
    Option (Int × Bool × Globals) :=
  let r := do_stat ext st (Call.lstat file_hdr.c_name)
  match r.1 with
  | some file_stat =>
    if S_ISDIR file_stat.st_mode ∧ file_hdr.c_mode &&& CP_IFMT = CP_IFDIR then
      some (0, true, r.2)
    else if ¬ st.unconditional_flag ∧ file_hdr.c_mtime ≤ file_stat.st_mtime then
      match toss_payload (report r.2 [Event.newer_exists file_hdr.c_name]) file_hdr with
      | none => none
      | some st1 => some (-1, false, st1)
    else
      let u := do_call ext r.2
        (if S_ISDIR file_stat.st_mode then Call.rmdir file_hdr.c_name
         else Call.unlink file_hdr.c_name)
      if u.1 ≠ 0 then
        match toss_payload (report u.2 [Event.cannot_remove file_hdr.c_name]) file_hdr with
        | none => none
        | some st1 => some (-1, false, st1)
      else some (0, false, u.2)
  | none => some (0, false, r.2)

/-- The part of `copyin_device` from the call of `mknod` on. -/
def copyin_device_mknod (ext : Extern) (file_hdr : cpio_file_stat) (st : Globals) : Globals :=
  let c := Call.mknod file_hdr.c_name file_hdr.c_mode file_hdr.c_rdev_maj file_hdr.c_rdev_min
  let r := do_call ext st c
  let r := if r.1 < 0 ∧ st.create_dir_flag then
      do_call ext (report r.2 [Event.create_all_directories file_hdr.c_name]) c
    else r
  if r.1 < 0 then report r.2 [Event.mknod_error file_hdr.c_name]
  else
    let st1 := if ¬ st.no_chown_flag then
        chown_or_report ext r.2
          (Call.chown file_hdr.c_name (owner_of st file_hdr.c_uid) (group_of st file_hdr.c_gid))
          file_hdr.c_name (owner_of st file_hdr.c_uid) (group_of st file_hdr.c_gid)
      else r.2
    let m := do_call ext st1 (Call.chmod file_hdr.c_name file_hdr.c_mode)
    let st2 := if m.1 < 0 then report m.2 [Event.chmod_error file_hdr.c_name file_hdr.c_mode]
      else m.2
    if st.retain_time_flag then
      (do_call ext st2 (Call.set_file_times file_hdr.c_name file_hdr.c_mtime false)).2
    else st2

/-- The function `copyin_device (file_hdr)`. -/
def copyin_device (ext : Extern) (file_hdr : cpio_file_stat) (st : Globals) : Globals :=
  if st.to_stdout_option then st
  else if file_hdr.c_nlink > 1 ∧ st.archive_format ≠ arf_tar ∧
      st.archive_format ≠ arf_ustar then
    let r := link_to_maj_min_ino ext st file_hdr.c_name file_hdr.c_dev_maj
      file_hdr.c_dev_min file_hdr.c_ino
    if r.1 = 0 then r.2 else copyin_device_mknod ext file_hdr r.2
  else
    match file_hdr.c_tar_linkname with
    | some (c :: linkname) =>
      if st.archive_format = arf_ustar ∧ c ≠ 0 then
        let r := link_to_name ext st file_hdr.c_name (c :: linkname)
        if r.1 < 0 then report r.2 [Event.cannot_link (c :: linkname) file_hdr.c_name]
        else r.2
      else copyin_device_mknod ext file_hdr st
    | _ => copyin_device_mknod ext file_hdr st

/-! ## Delayed symbolic links -/

/-- The function `hash_insert (table, p)` of the hash table of gnulib with the comparison
`dl_compare`: an entry that equals none of the table on `(dev, ino)` is added, and the
table is left as it is when one equals it.  The list keeps the entries oldest first;
the order in which the hash table itself is walked is not modelled. -/
def hash_insert (table : List delayed_link) (p : delayed_link) : List delayed_link :=
  if table.any (fun q => q.dev = p.dev ∧ q.ino = p.ino) then table else table ++ [p]

/-- The function `symlink_placeholder (oldpath, newpath, file_stat)`: the value returned
and the state. -/
def symlink_placeholder (ext : Extern) (oldpath newpath : List Nat)
    (file_stat : cpio_file_stat) (st : Globals) : Int × Globals :=
  let r := do_call ext st (Call.open_excl newpath)
  let r := if r.1 < 0 ∧ st.create_dir_flag then
      do_call ext (report r.2 [Event.create_all_directories newpath]) (Call.open_excl newpath)
    else r
  if r.1 < 0 then (-1, report r.2 [Event.open_error newpath])
  else
    let s := do_stat ext r.2 (Call.fstat r.1)
    match s.1 with
    | none => (-1, (do_close ext (report s.2 [Event.stat_error newpath]) r.1).2)
    | some fs =>
      let c := do_close ext s.2 r.1
      (0, { c.2 with
        delayed_link_table := hash_insert c.2.delayed_link_table
          { dev := fs.st_dev, ino := fs.st_ino, mode := file_stat.c_mode,
            uid := file_stat.c_uid, gid := file_stat.c_gid, mtime := file_stat.c_mtime,
            source := cstr oldpath, target := cstr newpath } })

/-- The body of the loop of `replace_symlink_placeholders` for the entry `dl`. -/
def replace_symlink_placeholder (ext : Extern) (dl : delayed_link) (st : Globals) : Globals :=
  let s := do_stat ext st (Call.lstat dl.target)
  match s.1 with
  | none => s.2
  | some fs =>
    if fs.st_dev = dl.dev ∧ fs.st_ino = dl.ino then
      let u := do_call ext s.2 (Call.unlink dl.target)
      if u.1 ≠ 0 then report u.2 [Event.unlink_error dl.target]
      else
        let r := do_call ext u.2 (Call.symlink dl.source dl.target dl.mode)
        let r := if r.1 < 0 ∧ st.create_dir_flag then
            do_call ext (report r.2 [Event.create_all_directories dl.target])
              (Call.symlink dl.source dl.target dl.mode)
          else r
        if r.1 < 0 then report r.2 [Event.symlink_error dl.source dl.target]
        else
          let st1 := if ¬ st.no_chown_flag then
              chown_or_report ext r.2
                (Call.lchown dl.target (owner_of st dl.uid) (group_of st dl.gid))
                dl.target (owner_of st dl.uid) (group_of st dl.gid)
            else r.2
          if st.retain_time_flag then
            (do_call ext st1 (Call.set_file_times dl.target dl.mtime true)).2
          else st1
    else s.2

/-- The loop of `replace_symlink_placeholders` over the entries of the table. -/
def replace_symlink_placeholders_loop (ext : Extern) : List delayed_link → Globals → Globals
  | [], st => st
  | dl :: rest, st =>
    replace_symlink_placeholders_loop ext rest (replace_symlink_placeholder ext dl st)

/-- The function `replace_symlink_placeholders ()`. -/
def replace_symlink_placeholders (ext : Extern) (st : Globals) : Globals :=
  { replace_symlink_placeholders_loop ext st.delayed_link_table st with
    delayed_link_table := [] }

/-- The part of `copyin_link` after the link name has been obtained. -/
def copyin_link_create (ext : Extern) (file_hdr : cpio_file_stat) (link_name : List Nat)
    (st : Globals) : Globals :=
  if st.no_abs_paths_flag then
    (symlink_placeholder ext link_name file_hdr.c_name file_hdr st).2
  else
    let c := Call.symlink link_name file_hdr.c_name file_hdr.c_mode
    let r := do_call ext st c
    let r := if r.1 < 0 ∧ st.create_dir_flag then
        do_call ext (report r.2 [Event.create_all_directories file_hdr.c_name]) c
      else r
    let st1 := if r.1 < 0 then report r.2 [Event.symlink_error link_name file_hdr.c_name]
      else if ¬ st.no_chown_flag then
        chown_or_report ext r.2
          (Call.lchown file_hdr.c_name (owner_of st file_hdr.c_uid)
            (group_of st file_hdr.c_gid))
          file_hdr.c_name (owner_of st file_hdr.c_uid) (group_of st file_hdr.c_gid)
      else r.2
    if st.retain_time_flag then
      (do_call ext st1 (Call.set_file_times file_hdr.c_name file_hdr.c_mtime true)).2
    else st1

/-- The function `copyin_link (file_hdr, in_file_des)`.  In a tar archive the link name
is `c_tar_linkname`; `xstrdup` of a `NULL` one is taken as fatal. -/
def copyin_link (ext : Extern) (file_hdr : cpio_file_stat) (st : Globals) : Option Globals :=
  if st.archive_format ≠ arf_tar ∧ st.archive_format ≠ arf_ustar then
    if st.to_stdout_option then toss_payload st file_hdr
    else
      match get_link_name file_hdr st with
      | none => none
      | some (none, st1) => some st1
      | some (some link_name, st1) => some (copyin_link_create ext file_hdr link_name st1)
  else
    if st.to_stdout_option then some st
    else
      match file_hdr.c_tar_linkname with
      | none => none
      | some link_name => some (copyin_link_create ext file_hdr link_name st)

/-- The function `copyin_file (file_hdr, in_file_des)`; `cpio_create_dir` of util.c is a
call on the file system. -/
def copyin_file (ext : Extern) (file_hdr : cpio_file_stat) (st : Globals) : Option Globals :=
  let pre : Option (Int × Bool × Globals) :=
    if ¬ st.to_stdout_option then try_existing_file ext file_hdr st
    else some (0, false, st)
  match pre with
  | none => none
  | some (res, existing_dir, st1) =>
    if res < 0 then some st1
    else if file_hdr.c_mode &&& CP_IFMT = CP_IFREG then copyin_regular_file ext file_hdr st1
    else if file_hdr.c_mode &&& CP_IFMT = CP_IFDIR then
      some (do_call ext st1
        (Call.cpio_create_dir file_hdr.c_name file_hdr.c_mode existing_dir)).2
    else if is_special_mode file_hdr.c_mode then some (copyin_device ext file_hdr st1)
    else if file_hdr.c_mode &&& CP_IFMT = CP_IFLNK then copyin_link ext file_hdr st1
    else toss_payload (report st1 [Event.unknown_file_type file_hdr.c_name]) file_hdr

/-! ## The main loop of `process_copy_in` -/

/-- The function `query_rename (file_hdr, tty_in, tty_out, rename_in)`: the value
returned, the header and the state.  The static `new_name` starts with every member
zero, which is what `ds_init` stores at the first call. -/
def query_rename (ext : Extern) (file_hdr : cpio_file_stat) (st : Globals) :
    Int × cpio_file_stat × Globals :=
  let st1 := if st.rename_flag then report st [Event.rename_prompt file_hdr.c_name] else st
  let r := if st.rename_flag then ds_fgets ext st.rename_input st.new_name
    else ds_fgetstr ext st.rename_input st.new_name 10
  let st2 := { st1 with new_name := r.2.1, rename_input := r.2.2 }
  if r.1 = false ∨ r.2.1.ds_string.head? = some 0 then (-1, file_hdr, st2)
  else (0, cpio_set_c_name file_hdr r.2.1.ds_string, st2)

/-- The branch `else if (only_verify_crc_flag) { ... }` of the main loop. -/
def verify_crc (file_hdr : cpio_file_stat) (st : Globals) : Option Globals :=
  if file_hdr.c_mode &&& CP_IFMT = CP_IFLNK ∧ st.archive_format ≠ arf_tar ∧
      st.archive_format ≠ arf_ustar then
    toss_payload st file_hdr
  else
    match toss_payload { st with crc := 0 } file_hdr with
    | none => none
    | some st1 =>
      let st2 := if st1.crc ≠ file_hdr.c_chksum then
          report st1 [Event.checksum_error file_hdr.c_name st1.crc file_hdr.c_chksum]
        else st1
      let st3 := if st2.verbose_flag then report st2 [Event.print_verbose file_hdr.c_name]
        else st2
      some (if st3.dot_flag then report st3 [Event.print_dot] else st3)

/-- The last branch of the main loop: rename if asked to, then `copyin_file`. -/
def extract_record (ext : Extern) (file_hdr : cpio_file_stat) (st : Globals) :
    Option (cpio_file_stat × Globals) :=
  let q : Int × cpio_file_stat × Globals :=
    if st.rename_flag ∨ st.rename_batch_file then query_rename ext file_hdr st
    else (0, file_hdr, st)
  if q.1 < 0 then
    match toss_payload q.2.2 q.2.1 with
    | none => none
    | some st1 => some (q.2.1, st1)
  else
    match copyin_file ext q.2.1 q.2.2 with
    | none => none
    | some st1 =>
      let st2 := if st1.verbose_flag then report st1 [Event.print_verbose q.2.1.c_name]
        else st1
      some (q.2.1, if st2.dot_flag then report st2 [Event.print_dot] else st2)

/-- The branches of the main loop for a record that is not the trailer, from
`if (skip_file)` on. -/
def dispatch_record (ext : Extern) (file_hdr : cpio_file_stat) (skip_file : Bool)
    (st : Globals) : Option (cpio_file_stat × Globals) :=
  if skip_file then process_skipped ext file_hdr st
  else if st.table_flag then
    match list_file file_hdr st with
    | none => none
    | some st1 => some (file_hdr, st1)
  else if st.append_flag then
    match toss_payload st file_hdr with
    | none => none
    | some st1 => some (file_hdr, st1)
  else if st.only_verify_crc_flag then
    match verify_crc file_hdr st with
    | none => none
    | some st1 => some (file_hdr, st1)
  else extract_record ext file_hdr st

/-- How a run of the main loop ends. -/
inductive Run where
  /-- The program has exited on a fatal error. -/
  | fatal
  /-- The rounds given to the loop are used up; the loop is still running. -/
  | running (file_hdr : cpio_file_stat) (st : Globals)
  /-- The loop was left by the `break` at the trailer. -/
  | left (file_hdr : cpio_file_stat) (st : Globals)
  deriving DecidableEq, Repr

/-- The state in which the loop was left at the trailer, if it was. -/
def Run.left_state : Run → Option Globals
  | Run.left _ st => some st
  | _ => none

/-- The loop `while (1)` of `process_copy_in`, run for at most `fuel` iterations. -/
def main_loop (ext : Extern) : Nat → cpio_file_stat → Globals → Run
  | 0, file_hdr, st => Run.running file_hdr st
  | fuel + 1, file_hdr, st =>
    match read_in_header ext file_hdr
        { st with swapping_halfwords := false, swapping_bytes := false } with
    | none => Run.fatal
    | some (file_hdr1, st1) =>
      match select_record ext file_hdr1 st1 with
      | Selection.trailer => Run.left file_hdr1 st1
      | Selection.record file_hdr2 skip_file =>
        match dispatch_record ext file_hdr2 skip_file st1 with
        | none => Run.fatal
        | some (file_hdr3, st2) => main_loop ext fuel file_hdr3 st2

/-- The call `open (name, O_CREAT | O_WRONLY | O_BINARY, 0600)`, made again after
`create_all_directories (name)` when it has failed and `create_dir_flag` is set: the
descriptor and the state. -/
def open_output (ext : Extern) (st : Globals) (name : List Nat) : Int × Globals :=
  let fd := ext.sys_open st.log name
  let st1 := report st [Event.open_file name fd]
  if fd < 0 ∧ st1.create_dir_flag then
    let st2 := report st1 [Event.create_all_directories name]
    let fd1 := ext.sys_open st2.log name
    (fd1, report st2 [Event.open_file name fd1])
  else (fd, st1)

/-- The part of the body of the loop of `create_final_defers` after the descriptor `fd`
has been obtained. -/
def create_final_defer_file (ext : Extern) (d : cpio_file_stat) (fd : Int) (st : Globals) :
    Globals :=
  if fd < 0 then report st [Event.open_error d.c_name]
  else
    let c := do_close ext (report st [Event.set_perms fd d.c_name]) fd
    if c.1 < 0 then report c.2 [Event.close_error d.c_name] else c.2

/-- The body of the loop of `create_final_defers` for the entry `d`. -/
def create_final_defer (ext : Extern) (d : cpio_file_stat) (st : Globals) : Globals :=
  let r := link_to_maj_min_ino ext st d.c_name d.c_dev_maj d.c_dev_min d.c_ino
  if r.1 = 0 then r.2
  else
    let o := open_output ext r.2 d.c_name
    create_final_defer_file ext d o.1 o.2

/-- The loop of `create_final_defers` from the entry at the head of the list on. -/
def create_final_defers_loop (ext : Extern) : List cpio_file_stat → Globals → Globals
  | [], st => st
  | d :: ds, st => create_final_defers_loop ext ds (create_final_defer ext d st)

/-- The function `create_final_defers ()`; the list itself is left as it is. -/
def create_final_defers (ext : Extern) (st : Globals) : Globals :=
  create_final_defers_loop ext st.deferments st

/-- The part of `process_copy_in` from the end of the main loop to the test
`if (append_flag) return;`. -/
def finish_symlinks (ext : Extern) (st : Globals) : Globals :=
  let st1 := if st.dot_flag then report st [Event.print_newline] else st
  report (replace_symlink_placeholders ext st1) [Event.apply_delayed_set_stat]

/-- The part of `process_copy_in` after the main loop. -/
def finish_copy_in (ext : Extern) (st : Globals) : Globals :=
  let st2 := finish_symlinks ext st
  if st2.append_flag then st2
  else
    let st3 := if st2.archive_format = arf_newascii ∨ st2.archive_format = arf_crcascii then
        create_final_defers ext st2
      else st2
    if ¬ st3.quiet_flag then report st3 [Event.blocks_message] else st3

/-- The function `process_copy_in ()` from the main loop on, the loop being given `fuel`
iterations. -/
def process_copy_in (ext : Extern) (fuel : Nat) (file_hdr : cpio_file_stat) (st : Globals) :
    Run :=
  match main_loop ext fuel file_hdr st with
  | Run.fatal => Run.fatal
  | Run.running file_hdr1 st1 => Run.running file_hdr1 st1
  | Run.left file_hdr1 st1 => Run.left file_hdr1 (finish_copy_in ext st1)

/-! ## Reading a log -/

/-- Whether an event is a call of `UMASKED_SYMLINK`. -/
def is_symlink_call : Event → Bool
  | Event.call (Call.symlink _ _ _) _ => true
  | _ => false

/-- The hard links requested through `link_to_name` in a log, in order: the name of the
link and its target. -/
def link_requests : List Event → List (List Nat × List Nat)
  | [] => []
  | Event.link_to_name link_name link_target _ :: rest =>
    (link_name, link_target) :: link_requests rest
  | _ :: rest => link_requests rest

/-- The calls of `link_to_maj_min_ino` in a log, in order: name, device and inode. -/
def link_to_maj_min_ino_calls : List Event → List (List Nat × Nat × Nat × Nat)
  | [] => []
  | Event.link_to_maj_min_ino name maj min ino _ :: rest =>
    (name, maj, min, ino) :: link_to_maj_min_ino_calls rest
  | _ :: rest => link_to_maj_min_ino_calls rest

/-- The reports of a checksum error in a log, in order. -/
def checksum_errors : List Event → List Event
  | [] => []
  | Event.checksum_error name crc chksum :: rest =>
    Event.checksum_error name crc chksum :: checksum_errors rest
  | _ :: rest => checksum_errors rest

/-! ## What the steps of the main loop keep -/

/-- The format of the archive is new-ascii or new-crc. -/
def new_format (st : Globals) : Prop :=
  st.archive_format = arf_newascii ∨ st.archive_format = arf_crcascii

instance (st : Globals) : Decidable (new_format st) := by
  unfold new_format
  exact inferInstance

/-- The options of which the invariants of the main loop speak. -/
def loop_options (st : Globals) : Bool × Bool × Bool × Bool × Bool :=
  (st.append_flag, st.table_flag, st.only_verify_crc_flag, st.to_stdout_option,
   st.no_abs_paths_flag)

/-- A step from `st` to `st1` that keeps the options and the format, only adds to the
log, adds no call of `UMASKED_SYMLINK` to it when `no_abs_paths_flag` is set, and
leaves `deferments` empty unless it was not empty before, or the step is one of
extraction to a file from an archive in new-ascii or new-crc format. -/
structure Step (st st1 : Globals) : Prop where
  options : loop_options st1 = loop_options st
  format : st1.archive_format = st.archive_format
  log : ∃ evs, st1.log = st.log ++ evs ∧
    (st.no_abs_paths_flag = true → ∀ e ∈ evs, is_symlink_call e = false)
  deferments : st1.deferments ≠ [] →
    st.deferments ≠ [] ∨ (new_format st ∧ st.to_stdout_option = false)

/-- A step that moreover adds no entry to `deferments`: the list it leaves is made
of entries of the list it found, in their order. -/
structure Frame (st st1 : Globals) extends Step st st1 : Prop where
  no_deferment : st1.deferments ≠ [] → st.deferments ≠ []
  sublist : st1.deferments.Sublist st.deferments

/-- The invariant of the main loop on the list `deferments`: it is not empty only when
the format is new-ascii or new-crc and `append_flag`, `table_flag`,
`only_verify_crc_flag` and `to_stdout_option` are all off. -/
def deferments_invariant (st : Globals) : Prop :=
  st.deferments ≠ [] →
    new_format st ∧ st.append_flag = false ∧ st.table_flag = false ∧
      st.only_verify_crc_flag = false ∧ st.to_stdout_option = false

/-- What is asked of the tar reader of tar.c, which is not part of the sources: it keeps
the options and the format, leaves `deferments` as it is, and calls no
`UMASKED_SYMLINK`. -/
def tar_reader_frame (ext : Extern) : Prop :=
  ∀ file_hdr st file_hdr1 st1,
    ext.read_in_tar_header file_hdr st = some (file_hdr1, st1) → Frame st st1

/-- What the end of `process_copy_in` reads after the delayed links have been made:
`deferments`, the format and `append_flag`. -/
def kept_at_end (st : Globals) : List cpio_file_stat × archive_format × Bool :=
  (st.deferments, st.archive_format, st.append_flag)

/-- Whether an event is the warning of `warn_junk_bytes`. -/
def is_junk_warning : Event → Bool
  | Event.junk_bytes _ => true
  | _ => false

/-- The junk warnings of a log, in order. -/
def junk_warnings (log : List Event) : List Event :=
  log.filter is_junk_warning

/-- The names on which `lstat` is called in a log, in order. -/
def lstat_calls : List Event → List (List Nat)
  | [] => []
  | Event.call_stat (Call.lstat name) _ :: rest => name :: lstat_calls rest
  | _ :: rest => lstat_calls rest

/-! ## Concrete inputs -/

/-- An environment for concrete runs: `major` and `minor` split a device number at
bit 8, the tar reader recognises nothing, names are left as they are, a pattern matches
the name equal to it, no earlier file of the same inode is found, no file exists yet
(`lstat` fails), `fstat` succeeds, every other call succeeds, storage at least doubles
and fresh storage holds the byte `0xAA`. -/
def sample_extern : Extern :=
  { major := fun d => d / 256, minor := fun d => d % 256,
    is_tar_header := fun _ => 0,
    read_in_tar_header := fun _ _ => none,
    cpio_safer_name_suffix := fun name _ => name,
    fnmatch := fun p name => if p = name then 0 else 1,
    sys_link_to_maj_min_ino := fun _ _ _ _ _ => -1,
    sys_link_to_name := fun _ _ _ => 0,
    sys_open := fun _ _ => 3,
    sys_close := fun _ _ => 0,
    sys_call := fun _ c =>
      match c with
      | Call.open_excl _ => 4
      | _ => 0,
    sys_stat := fun _ c =>
      match c with
      | Call.fstat fd => some { st_mode := 0o100000, st_mtime := 0, st_dev := 1,
                                st_ino := (100 + fd).toNat }
      | _ => none,
    x2nrealloc_size := fun n => 2 * n + 1,
    heap_byte := fun _ => 0xAA }

/-- The initial state of a run on the archive `tape` with the default options: format not
yet known, nothing deferred, nothing reported. -/
def initial_state (tape : List Nat) : Globals :=
  { archive_format := arf_unknown, crc_i_flag := false, warned := false,
    only_verify_crc_flag := false, to_stdout_option := false, create_dir_flag := false,
    swap_halfwords_flag := false, swap_bytes_flag := false, no_abs_paths_flag := false,
    copy_matching_files := true, save_patterns := [], swapping_halfwords := false,
    swapping_bytes := false, crc := 0, deferments := [],
    table_flag := false, append_flag := false, verbose_flag := false, dot_flag := false,
    quiet_flag := false, rename_flag := false, rename_batch_file := false,
    unconditional_flag := false, no_chown_flag := false, retain_time_flag := false,
    set_owner_flag := false, set_owner := 0, set_group_flag := false, set_group := 0,
    name_end := 10, delayed_link_table := [], rename_input := [],
    new_name := { ds_size := 0, ds_idx := 0, ds_string := [] },
    tape := tape, log := [] }

/-- An old-binary record: 26-byte header (magic `c7 71`, dev 1, ino 2, mode 0100644,
nlink 1, mtime 1000, namesize 2, filesize 1), the name `a`, and the payload `x` with its
padding byte. -/
def sample_binary_record : List Nat :=
  [0xc7, 0x71, 1, 0, 2, 0, 0xa4, 0x81, 0, 0, 0, 0, 1, 0, 0, 0, 0, 0, 0xe8, 3, 2, 0, 0, 0, 1, 0,
   97, 0, 120, 0]

/-- The seven bytes `GARBAGE`. -/
def sample_garbage : List Nat := [71, 65, 82, 66, 65, 71, 69]

/-- The bytes of an ASCII string. -/
def ascii (s : String) : List Nat :=
  s.toList.map Char.toNat

/-- A new-ascii header (magic and 13 fields of 8 hexadecimal digits: ino 1, mode 0100644,
uid 0, gid 0, nlink 1, mtime 1000, filesize 0, dev 0/1, rdev 0/0, namesize 1, chksum 0)
followed by the one-byte name `x`, which is not NUL-terminated, and eight more bytes. -/
def sample_unterminated_name : List Nat :=
  ascii "070701" ++
  ascii "00000001" ++ ascii "000081A4" ++ ascii "00000000" ++ ascii "00000000" ++
  ascii "00000001" ++ ascii "000003E8" ++ ascii "00000000" ++ ascii "00000000" ++
  ascii "00000001" ++ ascii "00000000" ++ ascii "00000000" ++ ascii "00000001" ++
  ascii "00000000" ++
  [120] ++ [1, 2, 3, 4, 5, 6, 7, 8]

/-- A record `link` of inode 7 on device 0/1 with two links and no payload, as it sits on
`deferments` after `copyin_regular_file` has deferred it. -/
def sample_deferred : cpio_file_stat :=
  { CPIO_FILE_STAT_INITIALIZER with
    c_magic := 0o070701, c_ino := 7, c_mode := 0o100644, c_nlink := 2, c_dev_min := 1,
    c_namesize := 5, c_name := [108, 105, 110, 107, 0] }

/-- The descriptor after `read_in_header` has decoded the next record of that archive:
same inode and device, two links, a payload of 3 bytes, and a name of one byte `x` that
is not NUL-terminated, so that `c_namesize` is 0. -/
def sample_bad_name_hdr : cpio_file_stat :=
  { CPIO_FILE_STAT_INITIALIZER with
    c_magic := 0o070701, c_ino := 7, c_mode := 0o100644, c_nlink := 2, c_dev_min := 1,
    c_filesize := 3, c_namesize := 0, c_name := [120] }

/-- The state in which that second record is dispatched: new-ascii archive, the first
record deferred, the payload `abc` and its padding byte next on the archive. -/
def sample_bad_name_state : Globals :=
  { initial_state [97, 98, 99, 0, 1, 2] with
    archive_format := arf_newascii, deferments := [sample_deferred],
    log := [Event.name_not_nul_terminated] }

/-- The 26 bytes of the header of `sample_binary_record`. -/
def sample_binary_header : List Nat :=
  sample_binary_record.take 26

/-- The 70 bytes after the magic of an old-ascii header written the HP/UX way for a
character device (mode 020644): rdev 1, that is major 0 and minor 1 for `sample_extern`,
and the device number 01005 (major 2, minor 5) in the filesize field; then the name
`tty`. -/
def sample_hp_old_ascii : List Nat :=
  ascii "000001" ++ ascii "000002" ++ ascii "020644" ++ ascii "000000" ++ ascii "000000" ++
  ascii "000001" ++ ascii "000001" ++ ascii "00000001750" ++ ascii "000004" ++
  ascii "00000001005" ++ [116, 116, 121, 0]

/-- A new-ascii trailer record: the header (nlink 1, namesize 11, every other field 0), the
name `TRAILER!!!` with its NUL, and the three bytes of padding. -/
def sample_trailer : List Nat :=
  ascii "070701" ++
  ascii "00000000" ++ ascii "00000000" ++ ascii "00000000" ++ ascii "00000000" ++
  ascii "00000001" ++ ascii "00000000" ++ ascii "00000000" ++ ascii "00000000" ++
  ascii "00000000" ++ ascii "00000000" ++ ascii "00000000" ++ ascii "0000000B" ++
  ascii "00000000" ++
  CPIO_TRAILER_NAME ++ [0] ++ [0, 0, 0]

/-- A state for the run on a trailer record followed by three more bytes, with listing,
checksum verification and a pattern asked for. -/
def sample_trailer_state : Globals :=
  { initial_state (sample_trailer ++ [1, 2, 3]) with
    table_flag := true, only_verify_crc_flag := true, save_patterns := [[120]] }

/-- The records `x` and `y` of inode 7 on device 0/1, three links and no payload, as they
sit on `deferments` when `y` came after `x`, with a record of another inode between
them. -/
def sample_deferments : List cpio_file_stat :=
  [{ CPIO_FILE_STAT_INITIALIZER with
      c_magic := 0o070701, c_ino := 7, c_mode := 0o100644, c_nlink := 3, c_dev_min := 1,
      c_namesize := 2, c_name := [121, 0] },
   { CPIO_FILE_STAT_INITIALIZER with
      c_magic := 0o070701, c_ino := 8, c_mode := 0o100644, c_nlink := 2, c_dev_min := 1,
      c_namesize := 2, c_name := [119, 0] },
   { CPIO_FILE_STAT_INITIALIZER with
      c_magic := 0o070701, c_ino := 7, c_mode := 0o100644, c_nlink := 3, c_dev_min := 1,
      c_namesize := 2, c_name := [120, 0] }]

/-- The record `z` of that inode, which has the payload `abc`. -/
def sample_group_data : cpio_file_stat :=
  { CPIO_FILE_STAT_INITIALIZER with
    c_magic := 0o070701, c_ino := 7, c_mode := 0o100644, c_nlink := 3, c_dev_min := 1,
    c_filesize := 3, c_namesize := 2, c_name := [122, 0] }

/-- The state in which `z` is extracted: new-ascii archive, the payload `abc` and its
padding byte next on the archive. -/
def sample_group_state : Globals :=
  { initial_state [97, 98, 99, 0, 1, 2] with
    archive_format := arf_newascii, deferments := sample_deferments }

/-- A new-ascii archive: the record `x` of inode 7 on device 0/1 (a regular file with two
links and no payload), then the trailer. -/
def sample_deferred_archive : List Nat :=
  ascii "070701" ++
  ascii "00000007" ++ ascii "000081A4" ++ ascii "00000000" ++ ascii "00000000" ++
  ascii "00000002" ++ ascii "000003E8" ++ ascii "00000000" ++ ascii "00000000" ++
  ascii "00000001" ++ ascii "00000000" ++ ascii "00000000" ++ ascii "00000002" ++
  ascii "00000000" ++
  [120, 0] ++
  sample_trailer

/-- A new-crc archive: the record `f` (a regular file, one link) with the payload 1, 2, 3,
the checksum 6 and the padding byte `pad`, then the trailer of a new-crc archive. -/
def sample_crc_archive (pad : Nat) : List Nat :=
  ascii "070702" ++
  ascii "00000001" ++ ascii "000081A4" ++ ascii "00000000" ++ ascii "00000000" ++
  ascii "00000001" ++ ascii "000003E8" ++ ascii "00000003" ++ ascii "00000000" ++
  ascii "00000001" ++ ascii "00000000" ++ ascii "00000000" ++ ascii "00000002" ++
  ascii "00000006" ++
  [102, 0] ++ [1, 2, 3, pad] ++
  ascii "070702" ++ sample_trailer.drop 6

/-- The symbolic link `l` to `/etc`: the descriptor of its record. -/
def sample_symlink : cpio_file_stat :=
  { CPIO_FILE_STAT_INITIALIZER with
    c_magic := 0o070701, c_ino := 9, c_mode := 0o120777, c_nlink := 1, c_dev_min := 1,
    c_filesize := 4, c_namesize := 2, c_name := [108, 0] }

/-- The state in which that record is extracted with `no_abs_paths_flag` set: new-ascii
archive, the payload `/etc` next on the archive. -/
def sample_symlink_state : Globals :=
  { initial_state [47, 101, 116, 99, 1, 2] with
    archive_format := arf_newascii, no_abs_paths_flag := true }

/-- A new-ascii archive: the symbolic link `l` to `/etc`, then the trailer. -/
def sample_symlink_archive : List Nat :=
  ascii "070701" ++
  ascii "00000009" ++ ascii "0000A1FF" ++ ascii "00000000" ++ ascii "00000000" ++
  ascii "00000001" ++ ascii "000003E8" ++ ascii "00000004" ++ ascii "00000000" ++
  ascii "00000001" ++ ascii "00000000" ++ ascii "00000000" ++ ascii "00000002" ++
  ascii "00000000" ++
  [108, 0] ++ [47, 101, 116, 99] ++
  sample_trailer

/-- Whether an event is a call of `open` with `O_EXCL` that has created the file named by
the C string `name`. -/
def created_exclusively (name : List Nat) : Event → Bool
  | Event.call (Call.open_excl n) res => decide (cstr n = cstr name ∧ 0 ≤ res)
  | _ => false

/-- The environment `sample_extern` with a file system that remembers the placeholders:
`lstat` finds a file that a call of `open` with `O_EXCL` has created. -/
def sample_extern_placeholders : Extern :=
  { sample_extern with
    sys_stat := fun log c =>
      match c with
      | Call.fstat fd => some { st_mode := 0o100000, st_mtime := 0, st_dev := 1,
                                st_ino := (100 + fd).toNat }
      | Call.lstat name =>
        if log.any (created_exclusively name) then
          some { st_mode := 0o100000, st_mtime := 0, st_dev := 1, st_ino := 104 }
        else none
      | _ => none }

/-- A character device `tty` whose record has a payload of 4 bytes. -/
def sample_device : cpio_file_stat :=
  { CPIO_FILE_STAT_INITIALIZER with
    c_magic := 0o070701, c_ino := 11, c_mode := 0o020644, c_nlink := 1, c_dev_min := 1,
    c_rdev_maj := 4, c_rdev_min := 1, c_filesize := 4, c_namesize := 4,
    c_name := [116, 116, 121, 0] }

/-- The state `sample_symlink_state` after `tty` has been created by an `open` with
`O_EXCL`. -/
def sample_existing_state : Globals :=
  { sample_symlink_state with log := [Event.call (Call.open_excl [116, 116, 121, 0]) 4] }

/-- A delayed link: the placeholder `l` of inode 104 on device 1, to become a symbolic
link to `/etc`. -/
def sample_delayed_link : delayed_link :=
  { dev := 1, ino := 104, mode := 0o120777, uid := 0, gid := 0, mtime := 0,
    source := [47, 101, 116, 99], target := [108] }

/-- A delayed link whose placeholder `m` was never created. -/
def sample_missing_link : delayed_link :=
  { dev := 1, ino := 105, mode := 0o120777, uid := 0, gid := 0, mtime := 0,
    source := [47], target := [109] }

/-- The state at the end of an archive in which the placeholder `l` has been created and
two delayed links are recorded. -/
def sample_placeholder_state : Globals :=
  { sample_symlink_state with
    tape := [],
    log := [Event.call (Call.open_excl [108, 0]) 4],
    delayed_link_table := [sample_missing_link, sample_delayed_link] }

/-- A dynamic string that holds `xyz` in a storage of 4 bytes. -/
def sample_string : dynamic_string :=
  { ds_size := 4, ds_idx := 3, ds_string := [120, 121, 122, 0] }

/-! # Theorems -/

set_option maxRecDepth 20000

/-! ## Lemmas on the numeric codec -/

theorem strchr_codetab (c : Nat) (hc : c ≠ 0) :
    strchr codetab (toupper c) = digit_value c := by
  by_cases h : c < 128
  · interval_cases c <;> first | (exact absurd rfl hc) | rfl
  · have h1 : toupper c = c := by
      unfold toupper
      rw [if_neg]
      omega
    rw [h1]
    have h2 : digit_value c = none := by
      unfold digit_value
      rw [if_neg (by omega), if_neg (by omega), if_neg (by omega)]
    rw [h2]
    simp only [strchr, codetab, strchr_from]
    repeat rw [if_neg (by omega)]

theorem digit_value_lt (c d : Nat) (h : digit_value c = some d) : d < 16 := by
  unfold digit_value at h
  split_ifs at h <;> simp at h <;> omega

theorem digit_value_ne_zero (c d : Nat) (h : digit_value c = some d) : c ≠ 0 := by
  rintro rfl
  simp [digit_value] at h

theorem digit_value_ne_space (c d : Nat) (h : digit_value c = some d) : c ≠ 32 := by
  rintro rfl
  simp [digit_value] at h

theorem shift_le_one (d lb : Nat) (hd : d < 16) (hlb : 3 ≤ lb) : ¬ (d >>> lb) > 1 := by
  rw [Nat.shiftRight_eq_div_pow]
  have h8 : 2 ^ 3 ≤ 2 ^ lb := Nat.pow_le_pow_right (by norm_num) hlb
  have h1 : d / 2 ^ lb ≤ d / 2 ^ 3 := Nat.div_le_div_left h8 (by norm_num)
  have h2 : d / 2 ^ 3 ≤ 1 := by
    norm_num
    omega
  omega

/-- The `int` accumulator `overflow` never leaves 0: the bits in which `value` and
`value << logbase >> logbase` differ are the `logbase` highest ones, and the
conversion to `int` drops them. -/
theorem overflow_step_zero (v lb : Nat) (hlb : lb ≤ 32) :
    uintmax_to_int (int_to_uintmax 0 ||| (v ^^^ (((v <<< lb) % 2 ^ 64) >>> lb))) = 0 := by
  have h0 : int_to_uintmax 0 = 0 := by decide
  rw [h0, Nat.zero_or]
  have hz : (v ^^^ (((v <<< lb) % 2 ^ 64) >>> lb)) % 2 ^ 32 = 0 := by
    apply Nat.zero_of_testBit_eq_false
    intro i
    rw [Nat.testBit_mod_two_pow]
    by_cases hi : i < 32
    · rw [Nat.testBit_xor, Nat.testBit_shiftRight, Nat.testBit_mod_two_pow,
        Nat.testBit_shiftLeft]
      have e1 : decide (lb + i < 64) = true := by simp; omega
      have e2 : decide (lb + i ≥ lb) = true := by simp
      have e3 : lb + i - lb = i := by omega
      rw [e1, e2, e3]
      simp
    · simp [hi]
  unfold uintmax_to_int
  rw [hz]
  simp

theorem loop_bad (lb c : Nat) (t : List Nat) (v : Nat) (ov : Int)
    (hc : c ≠ 0) (hd : digit_value c = none) :
    from_ascii_loop lb (c :: t) v ov = (v, ov, true) := by
  unfold from_ascii_loop
  rw [strchr_codetab c hc, hd]

theorem loop_last_nil (lb c d : Nat) (v : Nat) (ov : Int)
    (hlb : 3 ≤ lb) (hd : digit_value c = some d) :
    from_ascii_loop lb [c] v ov = ((v + d) % 2 ^ 64, ov, false) := by
  unfold from_ascii_loop
  rw [strchr_codetab c (digit_value_ne_zero c d hd), hd]
  simp only
  rw [if_neg (shift_le_one d lb (digit_value_lt c d hd) hlb)]

theorem loop_last_nul (lb c d : Nat) (t : List Nat) (v : Nat) (ov : Int)
    (hlb : 3 ≤ lb) (hd : digit_value c = some d) :
    from_ascii_loop lb (c :: 0 :: t) v ov = ((v + d) % 2 ^ 64, ov, false) := by
  unfold from_ascii_loop
  rw [strchr_codetab c (digit_value_ne_zero c d hd), hd]
  simp only
  rw [if_neg (shift_le_one d lb (digit_value_lt c d hd) hlb)]
  simp

theorem loop_step (lb c d h : Nat) (t : List Nat) (v : Nat)
    (hlb : 3 ≤ lb) (hlb2 : lb ≤ 32) (hd : digit_value c = some d) (hh : h ≠ 0) :
    from_ascii_loop lb (c :: h :: t) v 0 =
      from_ascii_loop lb (h :: t) ((((v + d) % 2 ^ 64) <<< lb) % 2 ^ 64) 0 := by
  conv_lhs => unfold from_ascii_loop
  rw [strchr_codetab c (digit_value_ne_zero c d hd), hd]
  simp only
  rw [if_neg (shift_le_one d lb (digit_value_lt c d hd) hlb), if_neg hh,
    overflow_step_zero _ lb hlb2]

theorem shift_acc (acc d lb : Nat) :
    (((((acc * 2 ^ lb) % 2 ^ 64 + d) % 2 ^ 64) <<< lb) % 2 ^ 64)
      = ((acc * 2 ^ lb + d) * 2 ^ lb) % 2 ^ 64 := by
  rw [Nat.shiftLeft_eq, Nat.mod_add_mod, Nat.mod_mul_mod]

/-- The loop on a run of digits that ends the field: the value is the value of the
digit string, reduced modulo `2^64`. -/
theorem loop_digits (lb : Nat) (hlb : 3 ≤ lb) (hlb2 : lb ≤ 32) :
    ∀ (ds : List Nat) (acc : Nat), ds ≠ [] →
      (∀ c ∈ ds, ∃ d, digit_value c = some d) →
      from_ascii_loop lb ds ((acc * 2 ^ lb) % 2 ^ 64) 0
        = (digits_value lb acc ds % 2 ^ 64, 0, false) := by
  intro ds
  induction ds with
  | nil => intro acc h; exact absurd rfl h
  | cons c ds ih =>
    intro acc _ hds
    obtain ⟨d, hd⟩ := hds c (List.mem_cons_self _ _)
    cases ds with
    | nil =>
      rw [loop_last_nil lb c d _ _ hlb hd]
      simp [digits_value, hd]
    | cons h t =>
      obtain ⟨dh, hdh⟩ := hds h (by simp)
      rw [loop_step lb c d h t _ hlb hlb2 hd (digit_value_ne_zero h dh hdh), shift_acc,
        ih (acc * 2 ^ lb + d) (by simp) (fun x hx => hds x (List.mem_cons_of_mem _ hx))]
      simp [digits_value, hd]

/-- The loop on a run of digits followed by a byte that no base accepts: the value is
the value of the digit string shifted once more, reduced modulo `2^64`. -/
theorem loop_malformed (lb : Nat) (hlb : 3 ≤ lb) (hlb2 : lb ≤ 32) (c : Nat) (rest : List Nat)
    (hc : c ≠ 0) (hbad : digit_value c = none) :
    ∀ (ds : List Nat) (acc : Nat),
      (∀ x ∈ ds, ∃ d, digit_value x = some d) →
      from_ascii_loop lb (ds ++ c :: rest) ((acc * 2 ^ lb) % 2 ^ 64) 0
        = ((digits_value lb acc ds * 2 ^ lb) % 2 ^ 64, 0, true) := by
  intro ds
  induction ds with
  | nil =>
    intro acc _
    rw [List.nil_append, loop_bad lb c rest _ _ hc hbad]
    simp [digits_value]
  | cons x ds ih =>
    intro acc hds
    obtain ⟨d, hd⟩ := hds x (List.mem_cons_self _ _)
    have hnext : ∃ h t, ds ++ c :: rest = h :: t ∧ h ≠ 0 := by
      cases ds with
      | nil => exact ⟨c, rest, rfl, hc⟩
      | cons h t =>
        obtain ⟨dh, hdh⟩ := hds h (by simp)
        exact ⟨h, t ++ c :: rest, rfl, digit_value_ne_zero h dh hdh⟩
    obtain ⟨h, t, ht, hh⟩ := hnext
    rw [List.cons_append, ht, loop_step lb x d h t _ hlb hlb2 hd hh, shift_acc, ← ht,
      ih (acc * 2 ^ lb + d) (fun y hy => hds y (List.mem_cons_of_mem _ hy))]
    simp [digits_value, hd]

/-- The `overflow` accumulator is still 0 when the loop ends, whatever the field. -/
theorem loop_overflow_zero (lb : Nat) (hlb2 : lb ≤ 32) :
    ∀ (l : List Nat) (v : Nat), (from_ascii_loop lb l v 0).2.1 = 0 := by
  intro l
  induction l with
  | nil => intro v; simp [from_ascii_loop]
  | cons c rest ih =>
    intro v
    unfold from_ascii_loop
    cases hs : strchr codetab (toupper c) with
    | none => simp
    | some d =>
      simp only
      split_ifs with h1
      · rfl
      · cases rest with
        | nil => rfl
        | cons c1 t =>
          simp only
          split_ifs with h2
          · rfl
          · rw [overflow_step_zero _ lb hlb2]
            exact ih _

theorem dropWhile_spaces (n : Nat) (l : List Nat) (h : ∀ c, l.head? = some c → c ≠ 32) :
    (List.replicate n 32 ++ l).dropWhile (fun c => c = 32) = l := by
  induction n with
  | zero =>
    cases l with
    | nil => rfl
    | cons c t =>
      have := h c rfl
      simp [List.dropWhile, this]
  | succ n ih =>
    simp only [List.replicate_succ, List.cons_append, List.dropWhile]
    simpa using ih

/-! ## The numeric codec: claims -/

/-- C3: a field made of leading spaces followed only by digits of base `2 ^ logbase`
(`logbase` 3 or 4) whose value fits in 64 bits decodes to exactly that value, with
no diagnostic; an all-space field (empty digit string) decodes to 0. -/
theorem from_ascii_valid_field (logbase n : Nat) (ds extra : List Nat)
    (hlb : logbase = 3 ∨ logbase = 4)
    (hds : ∀ c ∈ ds, is_base_digit logbase c)
    (hfit : digits_value logbase 0 ds < 2 ^ 64) :
    from_ascii (List.replicate n 32 ++ ds ++ extra) (n + ds.length) logbase
      = (digits_value logbase 0 ds, []) := by
  have h3 : 3 ≤ logbase := by omega
  have h32 : logbase ≤ 32 := by omega
  have htake : (List.replicate n 32 ++ ds ++ extra).take (n + ds.length)
      = List.replicate n 32 ++ ds := by
    rw [List.take_append_of_le_length (by simp)]
    exact List.take_of_length_le (by simp)
  have hdrop : (List.replicate n 32 ++ ds).dropWhile (fun c => c = 32) = ds := by
    apply dropWhile_spaces
    intro c hc
    cases ds with
    | nil => simp at hc
    | cons x t =>
      simp at hc
      subst hc
      obtain ⟨d, hd, _⟩ := hds x (List.mem_cons_self _ _)
      exact digit_value_ne_space x d hd
  unfold from_ascii
  simp only [htake, hdrop]
  cases ds with
  | nil => rfl
  | cons x t =>
    obtain ⟨d, hd, _⟩ := hds x (List.mem_cons_self _ _)
    simp only
    rw [if_neg (digit_value_ne_zero x d hd)]
    have hloop := loop_digits logbase h3 h32 (x :: t) 0 (by simp)
      (fun c hc => let ⟨e, he, _⟩ := hds c hc; ⟨e, he⟩)
    simp only [Nat.zero_mul, Nat.zero_mod] at hloop
    rw [hloop, Nat.mod_eq_of_lt hfit]
    simp

/-- C3 at the hexadecimal field `"  1f"`: the value is 31 and nothing is reported. -/
theorem from_ascii_valid_field_witness :
    from_ascii (List.replicate 2 32 ++ [49, 102] ++ []) (2 + [49, 102].length) 4
      = (digits_value 4 0 [49, 102], []) :=
  from_ascii_valid_field 4 2 [49, 102] [] (Or.inr rfl) (by decide) (by decide)

/-- C4: the octal field `"000008"` holds the byte `8`, which is not an octal digit, yet
`from_ascii` with `logbase = 3` returns 8 and reports nothing: the test
`(d >> logbase) > 1` lets every digit below 16 through. -/
theorem from_ascii_octal_eight_not_reported :
    from_ascii [48, 48, 48, 48, 48, 56] 6 3 = (8, []) ∧ ¬ is_base_digit 3 56 := by
  constructor
  · decide
  · decide

/-- C5, as stated, fails: on the octal field `"12x"` the malformed byte `x` is
reported and the value returned is 80, while the digits before it are worth 10. -/
theorem from_ascii_malformed_not_preceding_value :
    from_ascii [49, 50, 120] 3 3 = (80, [Event.malformed_number [49, 50, 120]]) ∧
    digits_value 3 0 [49, 50] = 10 := by
  constructor
  · decide
  · decide

/-- C5, amended: when the field is leading spaces, then digits of the base, then a
byte that is neither NUL nor a hexadecimal digit (and is not itself a leading space),
`from_ascii` reports the malformed number and returns the value of the preceding
digits shifted left once more by `logbase`, modulo `2^64`; this is 0 when no digit
precedes the offending byte. -/
theorem from_ascii_malformed_value (logbase n : Nat) (ds : List Nat) (c : Nat)
    (rest : List Nat)
    (hlb : logbase = 3 ∨ logbase = 4)
    (hds : ∀ x ∈ ds, is_base_digit logbase x)
    (hc : c ≠ 0) (hbad : digit_value c = none) (hsp : ds = [] → c ≠ 32) :
    from_ascii (List.replicate n 32 ++ (ds ++ c :: rest))
        (List.replicate n 32 ++ (ds ++ c :: rest)).length logbase
      = ((digits_value logbase 0 ds * 2 ^ logbase) % 2 ^ 64,
          [Event.malformed_number (List.replicate n 32 ++ (ds ++ c :: rest))]) ∧
    (ds = [] → (from_ascii (List.replicate n 32 ++ (ds ++ c :: rest))
        (List.replicate n 32 ++ (ds ++ c :: rest)).length logbase).1 = 0) := by
  have h3 : 3 ≤ logbase := by omega
  have h32 : logbase ≤ 32 := by omega
  have hdrop : (List.replicate n 32 ++ (ds ++ c :: rest)).dropWhile (fun c => c = 32)
      = ds ++ c :: rest := by
    apply dropWhile_spaces
    intro y hy
    cases ds with
    | nil =>
      simp at hy
      subst hy
      exact hsp rfl
    | cons x t =>
      simp at hy
      subst hy
      obtain ⟨d, hd, _⟩ := hds x (List.mem_cons_self _ _)
      exact digit_value_ne_space x d hd
  have hhead : ∃ h t, ds ++ c :: rest = h :: t ∧ h ≠ 0 := by
    cases ds with
    | nil => exact ⟨c, rest, rfl, hc⟩
    | cons x t =>
      obtain ⟨d, hd, _⟩ := hds x (List.mem_cons_self _ _)
      exact ⟨x, t ++ c :: rest, rfl, digit_value_ne_zero x d hd⟩
  have hloop := loop_malformed logbase h3 h32 c rest hc hbad ds 0
    (fun x hx => let ⟨e, he, _⟩ := hds x hx; ⟨e, he⟩)
  simp only [Nat.zero_mul, Nat.zero_mod] at hloop
  have main : from_ascii (List.replicate n 32 ++ (ds ++ c :: rest))
        (List.replicate n 32 ++ (ds ++ c :: rest)).length logbase
      = ((digits_value logbase 0 ds * 2 ^ logbase) % 2 ^ 64,
          [Event.malformed_number (List.replicate n 32 ++ (ds ++ c :: rest))]) := by
    unfold from_ascii
    simp only [List.take_length, hdrop]
    obtain ⟨h, t, ht, hh⟩ := hhead
    rw [ht] at hloop
    simp only [ht]
    rw [if_neg hh, hloop]
    simp
  refine ⟨main, ?_⟩
  intro hnil
  rw [main, hnil]
  simp [digits_value]

/-- C5, amended, at the octal field `"12x"`: the value returned is `10 * 8 = 80`. -/
theorem from_ascii_malformed_value_witness :
    from_ascii (List.replicate 0 32 ++ ([49, 50] ++ 120 :: []))
        (List.replicate 0 32 ++ ([49, 50] ++ 120 :: [])).length 3
      = ((digits_value 3 0 [49, 50] * 2 ^ 3) % 2 ^ 64,
          [Event.malformed_number (List.replicate 0 32 ++ ([49, 50] ++ 120 :: []))]) ∧
    (([49, 50] : List Nat) = [] → (from_ascii (List.replicate 0 32 ++ ([49, 50] ++ 120 :: []))
        (List.replicate 0 32 ++ ([49, 50] ++ 120 :: [])).length 3).1 = 0) :=
  from_ascii_malformed_value 3 0 [49, 50] 120 [] (Or.inl rfl) (by decide) (by decide)
    (by decide) (by intro h; cases h)

/-- C6: the hexadecimal field `"10000000000000000"` (17 digits, value `2^64`) does not fit
in 64 bits, yet `from_ascii` returns the truncated value 0 and reports nothing: the
bits lost by the shift are the high ones, which the `int` accumulator `overflow`
cannot hold. -/
theorem from_ascii_overflow_not_reported :
    from_ascii [49, 48, 48, 48, 48, 48, 48, 48, 48, 48, 48, 48, 48, 48, 48, 48, 48] 17 4
      = (0, []) ∧
    digits_value 4 0 [49, 48, 48, 48, 48, 48, 48, 48, 48, 48, 48, 48, 48, 48, 48, 48, 48]
      = 2 ^ 64 := by
  constructor
  · decide
  · decide

/-- No field at all makes `from_ascii` report a value out of range, when `logbase` is at
most 32. -/
theorem from_ascii_never_out_of_range (where_ : List Nat) (digs logbase : Nat)
    (hlb : logbase ≤ 32) (field : List Nat) :
    Event.out_of_range field ∉ (from_ascii where_ digs logbase).2 := by
  unfold from_ascii
  simp only
  split
  · simp
  · have hz := loop_overflow_zero logbase hlb
      ((List.take digs where_).dropWhile (fun c => c = 32)) 0
    split_ifs with h0 h1 h2 h2
    all_goals first
      | exact absurd hz h2
      | simp

/-! ## Padding: claims -/

theorem padding_tmod (offset v : Int) (hoff : 0 ≤ offset) (hv : 0 < v) :
    (v - offset.tmod v).tmod v = (v - offset % v) % v := by
  rw [Int.tmod_eq_emod hoff (le_of_lt hv)]
  have h1 : offset % v < v := Int.emod_lt_of_pos _ hv
  rw [Int.tmod_eq_emod (by omega) (le_of_lt hv)]

theorem tape_toss_input_tape (st : Globals) (n : Int) :
    (tape_toss_input st n).map (fun s => s.tape) =
      if n.toNat ≤ st.tape.length then some (st.tape.drop n.toNat) else none := by
  unfold tape_toss_input
  split_ifs <;> rfl

/-- The effect of `tape_skip_padding` on the archive when `pad` is `p`. -/
theorem tape_skip_padding_of_pad (st : Globals) (offset p : Int)
    (hp : padding st.archive_format offset = p) :
    (tape_skip_padding st offset).map (fun s => s.tape) =
      if p.toNat ≤ st.tape.length then some (st.tape.drop p.toNat) else none := by
  unfold tape_skip_padding
  simp only [hp]
  split_ifs with h1 h2 h3
  · rw [tape_toss_input_tape, if_pos h2]
  · rw [tape_toss_input_tape, if_neg h2]
  · simp only [ne_eq, not_not] at h1; simp [h1]
  · simp only [ne_eq, not_not] at h1; simp [h1] at h3

theorem tape_skip_padding_zero (st : Globals) (offset : Int)
    (hp : padding st.archive_format offset = 0) :
    tape_skip_padding st offset = some st := by
  unfold tape_skip_padding
  simp [hp]

/-- C8: for a non-negative offset and a format whose unit `u` is 4 (new-ascii, new-crc),
2 (old-binary) or 512 (tar, ustar), `tape_skip_padding` advances the archive by exactly
`p = (u - offset % u) % u` bytes (fatal when fewer remain); `p` is non-negative, below
`u`, makes `offset + p` a multiple of `u`, is the least such number, and when the
offset is already aligned nothing is tossed and the state is unchanged. -/
theorem tape_skip_padding_amount (st : Globals) (offset u : Int)
    (hoff : 0 ≤ offset) (hu : spec_unit st.archive_format = some u) :
    ((tape_skip_padding st offset).map (fun s => s.tape) =
      if ((u - offset % u) % u).toNat ≤ st.tape.length then
        some (st.tape.drop ((u - offset % u) % u).toNat)
      else none) ∧
    0 ≤ (u - offset % u) % u ∧ (u - offset % u) % u < u ∧
    u ∣ offset + (u - offset % u) % u ∧
    (∀ q : Int, 0 ≤ q → u ∣ offset + q → (u - offset % u) % u ≤ q) ∧
    (u ∣ offset → (u - offset % u) % u = 0 ∧ tape_skip_padding st offset = some st) := by
  have key : ∀ v : Int, 0 < v → padding st.archive_format offset = (v - offset.tmod v).tmod v →
      ((tape_skip_padding st offset).map (fun s => s.tape) =
        if ((v - offset % v) % v).toNat ≤ st.tape.length then
          some (st.tape.drop ((v - offset % v) % v).toNat)
        else none) ∧
      (v ∣ offset → tape_skip_padding st offset = some st) := by
    intro v hv hp
    rw [padding_tmod offset v hoff hv] at hp
    refine ⟨tape_skip_padding_of_pad st offset _ hp, ?_⟩
    intro hdvd
    apply tape_skip_padding_zero
    rw [hp]
    obtain ⟨k, rfl⟩ := hdvd
    simp
  have hcases : (u = 2 ∧ padding st.archive_format offset = (2 - offset.tmod 2).tmod 2) ∨
      (u = 4 ∧ padding st.archive_format offset = (4 - offset.tmod 4).tmod 4) ∨
      (u = 512 ∧ padding st.archive_format offset = (512 - offset.tmod 512).tmod 512) := by
    revert hu
    generalize st.archive_format = f
    cases f <;> simp [spec_unit, padding] <;> intro h <;> simp [← h]
  rcases hcases with ⟨rfl, hp⟩ | ⟨rfl, hp⟩ | ⟨rfl, hp⟩
  · obtain ⟨k1, k2⟩ := key 2 (by norm_num) hp
    refine ⟨k1, by omega, by omega, by omega, ?_, ?_⟩
    · intro q hq hd; omega
    · intro hd; exact ⟨by omega, k2 hd⟩
  · obtain ⟨k1, k2⟩ := key 4 (by norm_num) hp
    refine ⟨k1, by omega, by omega, by omega, ?_, ?_⟩
    · intro q hq hd; omega
    · intro hd; exact ⟨by omega, k2 hd⟩
  · obtain ⟨k1, k2⟩ := key 512 (by norm_num) hp
    refine ⟨k1, by omega, by omega, by omega, ?_, ?_⟩
    · intro q hq hd; omega
    · intro hd; exact ⟨by omega, k2 hd⟩

/-! ## Format detection -/

theorem six_bytes (l : List Nat) (h : 6 ≤ l.length) :
    ∃ a b c d e f r, l = a :: b :: c :: d :: e :: f :: r := by
  match l, h with
  | a :: b :: c :: d :: e :: f :: r, _ => exact ⟨a, b, c, d, e, f, r, rfl⟩

theorem strncmp_eq_iff : ∀ (n : Nat) (l m : List Nat), n ≤ l.length → m.length = n →
    (∀ x ∈ m, x ≠ 0) → (strncmp_eq l m n = true ↔ l.take n = m) := by
  intro n
  induction n with
  | zero =>
    intro l m _ hm _
    have : m = [] := List.length_eq_zero.mp hm
    subst this
    simp [strncmp_eq]
  | succ n ih =>
    intro l m hl hm hz
    cases l with
    | nil => simp at hl
    | cons a as =>
      cases m with
      | nil => simp at hm
      | cons b bs =>
        have hb : b ≠ 0 := hz b (List.mem_cons_self _ _)
        have hrec := ih as bs (by simpa using hl) (by simpa using hm)
          (fun x hx => hz x (List.mem_cons_of_mem _ hx))
        by_cases hab : a = b
        · subst hab
          simp only [strncmp_eq, ne_eq, not_true_eq_false, if_false, if_neg hb, List.take_succ_cons,
            List.cons.injEq, true_and]
          exact hrec
        · simp only [strncmp_eq, ne_eq, hab, not_false_eq_true, if_true, List.take_succ_cons,
            List.cons.injEq, false_and]
          simp

theorem strncmp_newascii (l : List Nat) (h : 6 ≤ l.length) :
    strncmp_eq l magic_newascii 6 = true ↔ l.take 6 = magic_newascii :=
  strncmp_eq_iff 6 l magic_newascii h rfl (by decide)

theorem strncmp_oldascii (l : List Nat) (h : 6 ≤ l.length) :
    strncmp_eq l magic_oldascii 6 = true ↔ l.take 6 = magic_oldascii :=
  strncmp_eq_iff 6 l magic_oldascii h rfl (by decide)

theorem strncmp_crcascii (l : List Nat) (h : 6 ≤ l.length) :
    strncmp_eq l magic_crcascii 6 = true ↔ l.take 6 = magic_crcascii :=
  strncmp_eq_iff 6 l magic_crcascii h rfl (by decide)

theorem take_take_six (l : List Nat) : (l.take 512).take 6 = l.take 6 := by
  rw [List.take_take]
  rfl

theorem short_at_take (l : List Nat) (h : 6 ≤ l.length) :
    short_at (l.take 512) 0 = short_at l 0 := by
  obtain ⟨a, b, c, d, e, f, r, rfl⟩ := six_bytes l h
  simp [short_at]

/-- One pass of the detection loop, when at least six bytes can be peeked. -/
theorem find_magic_unfold (ext : Extern) (st : Globals) (tape : List Nat) (n : Nat)
    (h6 : 6 ≤ tape.length) :
    find_magic ext st tape n =
      match classify ext (tape.take 512) with
      | some (fmt, crc) =>
        some ({ st with archive_format := fmt, crc_i_flag := st.crc_i_flag || crc,
                        tape := tape }, n)
      | none => find_magic ext st (tape.drop 1) (n + 1) := by
  cases tape with
  | nil => simp at h6
  | cons b rest =>
    have hl : ¬ ((b :: rest).take 512).length < 6 := by
      rw [List.length_take]
      simp only [List.length_cons] at h6 ⊢
      omega
    simp only [find_magic, tape_buffered_peek, hl, if_false, List.drop_one, List.tail_cons]

theorem classify_eq (ext : Extern) (tape : List Nat) (h6 : 6 ≤ tape.length) :
    classify ext (tape.take 512) =
      if tape.take 6 = magic_newascii then some (arf_newascii, false)
      else if tape.take 6 = magic_oldascii then some (arf_oldascii, false)
      else if tape.take 6 = magic_crcascii then some (arf_crcascii, true)
      else if short_at tape 0 = 0o070707 ∨ short_at tape 0 = swab_short 0o070707 then
        some (arf_binary, false)
      else if 512 ≤ tape.length ∧ ext.is_tar_header (tape.take 512) ≠ 0 then
        if ext.is_tar_header (tape.take 512) = 2 then some (arf_ustar, false)
        else some (arf_tar, false)
      else none := by
  have hl : 6 ≤ (tape.take 512).length := by
    rw [List.length_take]; omega
  have hlen : (tape.take 512).length ≥ 512 ↔ 512 ≤ tape.length := by
    rw [List.length_take]; omega
  unfold classify
  simp only [strncmp_newascii _ hl, strncmp_oldascii _ hl, strncmp_crcascii _ hl,
    take_take_six, short_at_take _ h6, hlen]

/-- C1: in a state whose format is unknown and with at least six bytes to peek, one pass
of the detection loop of `read_in_header` settles the format from the peeked bytes, in
this order: `070701` new-ascii; `070707` old-ascii; `070702` new-crc, with `crc_i_flag`
set; first 16-bit word 070707 or its byte swap, old-binary; then, only with 512 bytes
peeked, tar when `is_tar_header` gives 1 and ustar when it gives 2.  When no test
succeeds the loop retries in the same state (format still unknown) one byte further,
with one more byte counted as skipped. -/
theorem find_magic_classifies (ext : Extern) (st : Globals) (tape : List Nat) (n : Nat)
    (hfmt : st.archive_format = arf_unknown) (h6 : 6 ≤ tape.length) :
    (tape.take 6 = magic_newascii →
      find_magic ext st tape n
        = some ({ st with archive_format := arf_newascii, tape := tape }, n)) ∧
    (tape.take 6 = magic_oldascii →
      find_magic ext st tape n
        = some ({ st with archive_format := arf_oldascii, tape := tape }, n)) ∧
    (tape.take 6 = magic_crcascii →
      find_magic ext st tape n
        = some ({ st with archive_format := arf_crcascii, crc_i_flag := true,
                          tape := tape }, n)) ∧
    (tape.take 6 ≠ magic_newascii → tape.take 6 ≠ magic_oldascii →
      tape.take 6 ≠ magic_crcascii →
      (short_at tape 0 = 0o070707 ∨ short_at tape 0 = swab_short 0o070707) →
      find_magic ext st tape n
        = some ({ st with archive_format := arf_binary, tape := tape }, n)) ∧
    (tape.take 6 ≠ magic_newascii → tape.take 6 ≠ magic_oldascii →
      tape.take 6 ≠ magic_crcascii →
      ¬ (short_at tape 0 = 0o070707 ∨ short_at tape 0 = swab_short 0o070707) →
      512 ≤ tape.length → ext.is_tar_header (tape.take 512) = 1 →
      find_magic ext st tape n
        = some ({ st with archive_format := arf_tar, tape := tape }, n)) ∧
    (tape.take 6 ≠ magic_newascii → tape.take 6 ≠ magic_oldascii →
      tape.take 6 ≠ magic_crcascii →
      ¬ (short_at tape 0 = 0o070707 ∨ short_at tape 0 = swab_short 0o070707) →
      512 ≤ tape.length → ext.is_tar_header (tape.take 512) = 2 →
      find_magic ext st tape n
        = some ({ st with archive_format := arf_ustar, tape := tape }, n)) ∧
    (tape.take 6 ≠ magic_newascii → tape.take 6 ≠ magic_oldascii →
      tape.take 6 ≠ magic_crcascii →
      ¬ (short_at tape 0 = 0o070707 ∨ short_at tape 0 = swab_short 0o070707) →
      (tape.length < 512 ∨ ext.is_tar_header (tape.take 512) = 0) →
      st.archive_format = arf_unknown ∧
      find_magic ext st tape n = find_magic ext st (tape.drop 1) (n + 1)) := by
  rw [find_magic_unfold ext st tape n h6, classify_eq ext tape h6]
  refine ⟨?_, ?_, ?_, ?_, ?_, ?_, ?_⟩
  · intro h1
    rw [if_pos h1]
    simp
  · intro h2
    have h1 : tape.take 6 ≠ magic_newascii := by rw [h2]; decide
    rw [if_neg h1, if_pos h2]
    simp
  · intro h3
    have h1 : tape.take 6 ≠ magic_newascii := by rw [h3]; decide
    have h2 : tape.take 6 ≠ magic_oldascii := by rw [h3]; decide
    rw [if_neg h1, if_neg h2, if_pos h3]
    simp
  · intro h1 h2 h3 h4
    rw [if_neg h1, if_neg h2, if_neg h3, if_pos h4]
    simp
  · intro h1 h2 h3 h4 h5 h6
    rw [if_neg h1, if_neg h2, if_neg h3, if_neg h4, if_pos ⟨h5, by rw [h6]; decide⟩,
      if_neg (by rw [h6]; decide)]
    simp
  · intro h1 h2 h3 h4 h5 h6
    rw [if_neg h1, if_neg h2, if_neg h3, if_neg h4, if_pos ⟨h5, by rw [h6]; decide⟩,
      if_pos h6]
    simp
  · intro h1 h2 h3 h4 h5
    refine ⟨hfmt, ?_⟩
    rw [if_neg h1, if_neg h2, if_neg h3, if_neg h4, if_neg]
    rintro ⟨h7, h8⟩
    rcases h5 with h5 | h5
    · omega
    · exact h8 h5

/-! ## Junk before the first header -/

theorem find_magic_skip (ext : Extern) (st : Globals) :
    ∀ (k : Nat) (tape : List Nat) (n : Nat),
      (∀ j, j < k → 6 ≤ (tape.drop j).length ∧ classify ext ((tape.drop j).take 512) = none) →
      find_magic ext st tape n = find_magic ext st (tape.drop k) (n + k) := by
  intro k
  induction k with
  | zero => intro tape n _; simp
  | succ k ih =>
    intro tape n h
    have h0 := h 0 (Nat.succ_pos k)
    simp only [List.drop_zero] at h0
    rw [find_magic_unfold ext st tape n h0.1, h0.2]
    simp only
    rw [ih (tape.drop 1) (n + 1) (fun j hj => by
      have := h (j + 1) (by omega)
      simpa [List.drop_drop, Nat.add_comm] using this)]
    simp only [List.drop_drop]
    congr 1
    · congr 1; omega
    · omega

theorem find_magic_found (ext : Extern) (st : Globals) (k : Nat) (fmt : archive_format)
    (crc : Bool)
    (hjunk : ∀ j, j < k →
      6 ≤ (st.tape.drop j).length ∧ classify ext ((st.tape.drop j).take 512) = none)
    (hk6 : 6 ≤ (st.tape.drop k).length)
    (hk : classify ext ((st.tape.drop k).take 512) = some (fmt, crc)) :
    find_magic ext st st.tape 0
      = some ({ st with archive_format := fmt, crc_i_flag := st.crc_i_flag || crc,
                        tape := st.tape.drop k }, k) := by
  rw [find_magic_skip ext st k st.tape 0 hjunk, find_magic_unfold ext st _ _ hk6, hk]
  simp

theorem short_at_take_six (l : List Nat) (h : 6 ≤ l.length) :
    short_at (l.take 6) 0 = short_at l 0 := by
  obtain ⟨a, b, c, d, e, f, r, rfl⟩ := six_bytes l h
  simp [short_at]

/-- The magic that made the detection loop choose a cpio format is accepted at once by
the second loop. -/
theorem magic_matches_of_classify (ext : Extern) (tape : List Nat) (fmt : archive_format)
    (crc : Bool) (h6 : 6 ≤ tape.length)
    (hc : classify ext (tape.take 512) = some (fmt, crc))
    (hnt : ¬ (fmt = arf_tar ∨ fmt = arf_ustar)) :
    ∃ m, magic_matches fmt (tape.take 6) = some m := by
  have hl : 6 ≤ (tape.take 6).length := by rw [List.length_take]; omega
  have htt : (tape.take 6).take 6 = tape.take 6 := by rw [List.take_take]; rfl
  rw [classify_eq ext tape h6] at hc
  unfold magic_matches
  simp only [strncmp_newascii _ hl, strncmp_oldascii _ hl, strncmp_crcascii _ hl, htt,
    short_at_take_six _ h6]
  split_ifs at hc with h1 h2 h3 h4 h5 h6'
  all_goals simp only [Option.some.injEq, Prod.mk.injEq] at hc
  · obtain ⟨rfl, _⟩ := hc
    exact ⟨_, if_pos ⟨rfl, h1⟩⟩
  · obtain ⟨rfl, _⟩ := hc
    refine ⟨0o070707, ?_⟩
    rw [if_neg (by simp), if_neg (by simp), if_pos ⟨Or.inl rfl, h2⟩]
  · obtain ⟨rfl, _⟩ := hc
    refine ⟨0o070702, ?_⟩
    rw [if_neg (by simp), if_pos ⟨rfl, h3⟩]
  · obtain ⟨rfl, _⟩ := hc
    refine ⟨0o070707, ?_⟩
    rw [if_neg (by simp), if_neg (by simp), if_neg (by simp), if_pos ⟨Or.inl rfl, h4⟩]
  · obtain ⟨rfl, _⟩ := hc
    exact absurd (Or.inr rfl) hnt
  · obtain ⟨rfl, _⟩ := hc
    exact absurd (Or.inl rfl) hnt

theorem sync_magic_now (fmt : archive_format) (magic tape : List Nat) (n m : Nat)
    (h : magic_matches fmt magic = some m) :
    sync_magic fmt magic tape n = some (m, magic, tape, n) := by
  cases tape with
  | nil => simp [sync_magic, h]
  | cons b rest => simp [sync_magic, h]

theorem from_ascii_no_junk (where_ : List Nat) (digs logbase : Nat) :
    junk_warnings (from_ascii where_ digs logbase).2 = [] := by
  unfold from_ascii
  simp only
  split
  · rfl
  · split_ifs <;> rfl

theorem junk_warnings_report (st : Globals) (evs : List Event) :
    junk_warnings (report st evs).log = junk_warnings st.log ++ junk_warnings evs := by
  simp [report, junk_warnings]

theorem decode_field_junk (st : Globals) (buf : List Nat) (off len logbase : Nat) :
    junk_warnings (decode_field st buf off len logbase).2.log = junk_warnings st.log := by
  simp [decode_field, junk_warnings_report, from_ascii_no_junk]

theorem tape_buffered_read_log (st st1 : Globals) (n : Nat) (x : List Nat)
    (h : tape_buffered_read st n = some (x, st1)) : st1.log = st.log := by
  unfold tape_buffered_read at h
  split_ifs at h
  simp only [Option.some.injEq, Prod.mk.injEq] at h
  rw [← h.2]

theorem tape_toss_input_log (st st1 : Globals) (n : Int)
    (h : tape_toss_input st n = some st1) : st1.log = st.log := by
  unfold tape_toss_input at h
  split_ifs at h <;> simp only [Option.some.injEq] at h <;> rw [← h]

theorem tape_skip_padding_log (st st1 : Globals) (n : Int)
    (h : tape_skip_padding st n = some st1) : st1.log = st.log := by
  unfold tape_skip_padding at h
  simp only at h
  split_ifs at h
  · exact tape_toss_input_log st st1 _ h
  · simp only [Option.some.injEq] at h
    rw [← h]

theorem read_name_from_file_junk (fh fh1 : cpio_file_stat) (st st1 : Globals) (len : Nat)
    (h : read_name_from_file fh st len = some (fh1, st1)) :
    junk_warnings st1.log = junk_warnings st.log := by
  unfold read_name_from_file at h
  split_ifs at h with h0
  · simp only [Option.some.injEq, Prod.mk.injEq] at h
    rw [← h.2, junk_warnings_report]
    simp [junk_warnings, is_junk_warning]
  · cases hr : tape_buffered_read st len with
    | none => rw [hr] at h; simp at h
    | some p =>
      obtain ⟨name, st2⟩ := p
      rw [hr] at h
      simp only at h
      have hl := tape_buffered_read_log st st2 len name hr
      split_ifs at h
      · simp only [Option.some.injEq, Prod.mk.injEq] at h
        rw [← h.2, junk_warnings_report, hl]
        simp [junk_warnings, is_junk_warning]
      · simp only [Option.some.injEq, Prod.mk.injEq] at h
        rw [← h.2, hl]

theorem read_in_new_ascii_junk (fh fh1 : cpio_file_stat) (st st1 : Globals)
    (h : read_in_new_ascii fh st = some (fh1, st1)) :
    junk_warnings st1.log = junk_warnings st.log := by
  unfold read_in_new_ascii at h
  cases hr : tape_buffered_read st 104 with
  | none => rw [hr] at h; simp at h
  | some p =>
    obtain ⟨buf, st2⟩ := p
    rw [hr] at h
    simp only at h
    have hl := tape_buffered_read_log st st2 _ buf hr
    split at h
    · simp at h
    · rename_i fh2 st3 hn
      have h3 := read_name_from_file_junk _ _ _ _ _ hn
      split at h
      · simp at h
      · rename_i st4 hp
        have h4 := tape_skip_padding_log _ _ _ hp
        simp only [Option.some.injEq, Prod.mk.injEq] at h
        rw [← h.2, h4, h3]
        simp only [decode_field_junk, hl]

theorem read_in_old_ascii_junk (ext : Extern) (fh fh1 : cpio_file_stat) (st st1 : Globals)
    (h : read_in_old_ascii ext fh st = some (fh1, st1)) :
    junk_warnings st1.log = junk_warnings st.log := by
  unfold read_in_old_ascii at h
  cases hr : tape_buffered_read st 70 with
  | none => rw [hr] at h; simp at h
  | some p =>
    obtain ⟨buf, st2⟩ := p
    rw [hr] at h
    simp only at h
    have hl := tape_buffered_read_log st st2 _ buf hr
    split at h
    · simp at h
    · rename_i fh2 st3 hn
      have h3 := read_name_from_file_junk _ _ _ _ _ hn
      simp only [Option.some.injEq, Prod.mk.injEq] at h
      rw [← h.2, h3]
      simp only [decode_field_junk, hl]

theorem read_in_binary_junk (ext : Extern) (fh fh1 : cpio_file_stat) (first6 : List Nat)
    (st st1 : Globals)
    (h : read_in_binary ext fh first6 st = some (fh1, st1)) :
    junk_warnings st1.log = junk_warnings st.log := by
  unfold read_in_binary at h
  cases hr : tape_buffered_read st 20 with
  | none => rw [hr] at h; simp at h
  | some p =>
    obtain ⟨buf, st2⟩ := p
    rw [hr] at h
    simp only at h
    have hl := tape_buffered_read_log st st2 _ buf hr
    split at h
    · simp at h
    · rename_i fh2 st3 hn
      have h3 := read_name_from_file_junk _ _ _ _ _ hn
      split at h
      · simp at h
      · rename_i st4 hp
        have h4 : st4.log = st3.log := by
          split_ifs at hp
          · exact tape_toss_input_log _ _ _ hp
          · simp only [Option.some.injEq] at hp
            rw [← hp]
        simp only [Option.some.injEq, Prod.mk.injEq] at h
        rw [← h.2, h4, h3]
        split_ifs
        · rw [junk_warnings_report]
          simp [junk_warnings, is_junk_warning, hl]
        · rw [hl]

theorem decode_header_junk (ext : Extern) (fh fh1 : cpio_file_stat) (magic : List Nat)
    (st st1 : Globals)
    (h : decode_header ext fh magic st = some (fh1, st1)) :
    junk_warnings st1.log = junk_warnings st.log := by
  unfold decode_header at h
  split_ifs at h
  · exact read_in_new_ascii_junk _ _ _ _ h
  · exact read_in_old_ascii_junk _ _ _ _ _ h
  · exact read_in_binary_junk _ _ _ _ _ _ h

theorem warn_junk_log (st : Globals) (k : Nat) :
    (warn_junk st k).log = st.log ++ (if k > 0 then [Event.junk_bytes k] else []) := by
  unfold warn_junk
  split_ifs <;> simp [report]

/-- C2: in a state whose format is unknown, let `k` be the first offset of the archive at
which a test of the detection loop succeeds, six bytes being peekable at `k` and at every
offset before it.  Then `read_in_header` discards exactly the `k` bytes before that
offset (the detection loop ends with the archive at offset `k` and `bytes_skipped = k`),
reports "skipped k bytes of junk" once when `k > 0` and not at all when `k = 0`, and
decodes the header that starts at offset `k`: for tar and ustar it hands the archive at
offset `k` to the tar reader; for a cpio format the six bytes at offset `k` are accepted
as the magic and the decoder of the format runs on the archive at offset `k + 6`.  For a
cpio format the junk warnings of the log after a completed call are those of the log
before it, followed by that single warning when `k > 0`. -/
theorem read_in_header_skips_junk (ext : Extern) (file_hdr : cpio_file_stat) (st : Globals)
    (k : Nat) (fmt : archive_format) (crc : Bool)
    (hfmt : st.archive_format = arf_unknown)
    (hjunk : ∀ j, j < k →
      6 ≤ (st.tape.drop j).length ∧ classify ext ((st.tape.drop j).take 512) = none)
    (hk6 : 6 ≤ (st.tape.drop k).length)
    (hk : classify ext ((st.tape.drop k).take 512) = some (fmt, crc)) :
    find_magic ext st st.tape 0
      = some ({ st with archive_format := fmt, crc_i_flag := st.crc_i_flag || crc,
                        tape := st.tape.drop k }, k) ∧
    (∀ s : Globals, (warn_junk s k).log
      = s.log ++ (if k > 0 then [Event.junk_bytes k] else [])) ∧
    (fmt = arf_tar ∨ fmt = arf_ustar →
      read_in_header ext file_hdr st
        = ext.read_in_tar_header file_hdr
            (warn_junk { st with archive_format := fmt, crc_i_flag := st.crc_i_flag || crc,
                                 tape := st.tape.drop k } k)) ∧
    (¬ (fmt = arf_tar ∨ fmt = arf_ustar) →
      ∃ m, magic_matches fmt ((st.tape.drop k).take 6) = some m ∧
        read_in_header ext file_hdr st
          = decode_header ext { file_hdr with c_tar_linkname := none, c_magic := m }
              ((st.tape.drop k).take 6)
              (warn_junk { st with archive_format := fmt,
                                   crc_i_flag := st.crc_i_flag || crc,
                                   tape := st.tape.drop (k + 6) } k)) ∧
    (¬ (fmt = arf_tar ∨ fmt = arf_ustar) →
      ∀ hdr st1, read_in_header ext file_hdr st = some (hdr, st1) →
        junk_warnings st1.log
          = junk_warnings st.log ++ (if k > 0 then [Event.junk_bytes k] else [])) := by
  have hfound := find_magic_found ext st k fmt crc hjunk hk6 hk
  have hcpio : ¬ (fmt = arf_tar ∨ fmt = arf_ustar) →
      ∃ m, magic_matches fmt ((st.tape.drop k).take 6) = some m ∧
        read_in_header ext file_hdr st
          = decode_header ext { file_hdr with c_tar_linkname := none, c_magic := m }
              ((st.tape.drop k).take 6)
              (warn_junk { st with archive_format := fmt,
                                   crc_i_flag := st.crc_i_flag || crc,
                                   tape := st.tape.drop (k + 6) } k) := by
    intro hnt
    obtain ⟨m, hm⟩ := magic_matches_of_classify ext (st.tape.drop k) fmt crc hk6 hk hnt
    refine ⟨m, hm, ?_⟩
    unfold read_in_header
    simp only [hfmt, if_true, hfound, if_neg hnt]
    have hread : tape_buffered_read
        { st with archive_format := fmt, crc_i_flag := st.crc_i_flag || crc,
                  tape := st.tape.drop k } 6
        = some ((st.tape.drop k).take 6,
            { st with archive_format := fmt, crc_i_flag := st.crc_i_flag || crc,
                      tape := st.tape.drop (k + 6) }) := by
      unfold tape_buffered_read
      simp only [if_pos hk6, List.drop_drop]
    rw [hread]
    simp only
    rw [sync_magic_now fmt _ _ k m hm]
  refine ⟨hfound, fun s => warn_junk_log s k, ?_, hcpio, ?_⟩
  · intro ht
    unfold read_in_header
    simp only [hfmt, if_true, hfound, if_pos ht]
  · intro hnt hdr st1 hres
    obtain ⟨m, _, heq⟩ := hcpio hnt
    rw [heq] at hres
    rw [decode_header_junk ext _ _ _ _ _ hres, warn_junk_log]
    simp [junk_warnings, is_junk_warning]

/-! ## Claims on detection, junk and alignment: concrete runs -/

/-- C1 at an archive that starts with `070702`: new-crc is chosen and `crc_i_flag` is set. -/
theorem find_magic_classifies_witness :
    find_magic sample_extern (initial_state (magic_crcascii ++ [0])) (magic_crcascii ++ [0]) 0
      = some ({ initial_state (magic_crcascii ++ [0]) with
                archive_format := arf_crcascii, crc_i_flag := true,
                tape := magic_crcascii ++ [0] }, 0) :=
  (find_magic_classifies sample_extern (initial_state (magic_crcascii ++ [0]))
    (magic_crcascii ++ [0]) 0 rfl (by decide)).2.2.1 (by decide)

/-- C2 at `GARBAGE` followed by an old-binary record: the detection loop stops at offset 7
with 7 bytes skipped, and the completed call has reported "skipped 7 bytes of junk"
exactly once. -/
theorem read_in_header_skips_junk_witness :
    find_magic sample_extern (initial_state (sample_garbage ++ sample_binary_record))
        (initial_state (sample_garbage ++ sample_binary_record)).tape 0
      = some ({ initial_state (sample_garbage ++ sample_binary_record) with
                archive_format := arf_binary,
                crc_i_flag :=
                  (initial_state (sample_garbage ++ sample_binary_record)).crc_i_flag || false,
                tape := (initial_state (sample_garbage ++ sample_binary_record)).tape.drop 7 },
              7) ∧
    (read_in_header sample_extern CPIO_FILE_STAT_INITIALIZER
        (initial_state (sample_garbage ++ sample_binary_record))).map
        (fun r => (r.1.c_name, junk_warnings r.2.log, r.2.tape))
      = some ([97, 0], [Event.junk_bytes 7], [120, 0]) :=
  ⟨(read_in_header_skips_junk sample_extern CPIO_FILE_STAT_INITIALIZER
      (initial_state (sample_garbage ++ sample_binary_record)) 7 arf_binary false rfl
      (by decide) (by decide) (by decide)).1, by decide⟩

/-- C8 at offset 5 of a new-ascii archive: 3 bytes are tossed. -/
theorem tape_skip_padding_amount_witness :
    (tape_skip_padding
        { initial_state [1, 2, 3, 4] with archive_format := arf_newascii } 5).map
        (fun s => s.tape) = some [4] := by
  have h := (tape_skip_padding_amount
    { initial_state [1, 2, 3, 4] with archive_format := arf_newascii } 5 4
    (by decide) rfl).1
  rw [h]
  decide

/-- C9: on a new-ascii header whose one-byte name `x` is not NUL-terminated,
`read_in_header` reports the name, stores `c_namesize = 0`, and has consumed
`6 + 104 + 1 + 2 = 113` bytes when it returns, which is not a multiple of 4: the padding
is computed from `c_namesize`, which `read_name_from_file` has already set to 0. -/
theorem read_in_new_ascii_unterminated_name_misaligned :
    (read_in_header sample_extern CPIO_FILE_STAT_INITIALIZER
        (initial_state sample_unterminated_name)).map
        (fun r => (sample_unterminated_name.length - r.2.tape.length, r.1.c_namesize,
          r.2.log, r.2.archive_format))
      = some (113, 0, [Event.name_not_nul_terminated], arf_newascii) ∧
    113 % 4 = 1 := by
  constructor
  · decide
  · decide

/-- C10, as stated, fails for `arf_hpbinary`: at offset 1 one byte is tossed. -/
theorem tape_skip_padding_hpbinary_tosses :
    tape_skip_padding { initial_state [7, 8] with archive_format := arf_hpbinary } 1
      = some { initial_state [8] with archive_format := arf_hpbinary } := by
  decide

/-- C10, amended: for old-ascii and `arf_hpoldascii`, `tape_skip_padding` tosses nothing
and leaves the state unchanged, whatever the offset; for `arf_hpbinary` it does what it
does for old-binary: for a non-negative offset it advances the archive by
`(2 - offset % 2) % 2` bytes (fatal when fewer remain). -/
theorem tape_skip_padding_no_padding (st : Globals) (offset : Int) :
    (st.archive_format = arf_oldascii ∨ st.archive_format = arf_hpoldascii →
      tape_skip_padding st offset = some st) ∧
    (st.archive_format = arf_hpbinary → 0 ≤ offset →
      (tape_skip_padding st offset).map (fun s => s.tape) =
        if ((2 - offset % 2) % 2).toNat ≤ st.tape.length then
          some (st.tape.drop ((2 - offset % 2) % 2).toNat)
        else none) := by
  constructor
  · intro h
    unfold tape_skip_padding
    rcases h with h | h <;> simp [h, padding]
  · intro h hoff
    apply tape_skip_padding_of_pad
    rw [h, ← padding_tmod offset 2 hoff (by norm_num)]
    simp [padding]

/-- C10, amended, at an old-ascii state and at an `arf_hpbinary` state with offset 3. -/
theorem tape_skip_padding_no_padding_witness :
    tape_skip_padding { initial_state [7, 8] with archive_format := arf_oldascii } 3
      = some { initial_state [7, 8] with archive_format := arf_oldascii } ∧
    (tape_skip_padding { initial_state [7, 8] with archive_format := arf_hpbinary } 3).map
      (fun s => s.tape) = some [8] := by
  constructor
  · exact (tape_skip_padding_no_padding
      { initial_state [7, 8] with archive_format := arf_oldascii } 3).1 (Or.inl rfl)
  · rw [(tape_skip_padding_no_padding
      { initial_state [7, 8] with archive_format := arf_hpbinary } 3).2 rfl (by decide)]
    decide

/-! ## Malformed names and the skip path -/

theorem remove_first_same_file_none (file_hdr : cpio_file_stat) :
    ∀ l : List cpio_file_stat, (¬ ∃ d, d ∈ l ∧ same_file d file_hdr) →
      remove_first_same_file file_hdr l = none := by
  intro l
  induction l with
  | nil => intro _; rfl
  | cons d ds ih =>
    intro h
    have hd : ¬ same_file d file_hdr := fun hs => h ⟨d, List.mem_cons_self _ _, hs⟩
    have hds : ¬ ∃ e, e ∈ ds ∧ same_file e file_hdr :=
      fun ⟨e, he, hs⟩ => h ⟨e, List.mem_cons_of_mem _ he, hs⟩
    simp only [remove_first_same_file, if_neg hd, ih hds]

theorem toss_payload_effect (st s : Globals) (file_hdr : cpio_file_stat)
    (h : toss_payload st file_hdr = some s) :
    s.log = st.log ∧ s.deferments = st.deferments ∧
    s.archive_format = st.archive_format ∧
    s.tape = st.tape.drop
      (file_hdr.c_filesize.toNat +
        (padding st.archive_format file_hdr.c_filesize).toNat) := by
  unfold toss_payload at h
  cases ht : tape_toss_input st file_hdr.c_filesize with
  | none => rw [ht] at h; simp at h
  | some st1 =>
    rw [ht] at h
    simp only at h
    have h1 : st1.log = st.log ∧ st1.deferments = st.deferments ∧
        st1.archive_format = st.archive_format ∧
        st1.tape = st.tape.drop file_hdr.c_filesize.toNat := by
      unfold tape_toss_input at ht
      split_ifs at ht <;> simp only [Option.some.injEq] at ht <;> rw [← ht] <;> simp
    unfold tape_skip_padding at h
    simp only at h
    split_ifs at h with hp
    · have h2 : s.log = st1.log ∧ s.deferments = st1.deferments ∧
          s.archive_format = st1.archive_format ∧
          s.tape = st1.tape.drop (padding st1.archive_format file_hdr.c_filesize).toNat := by
        unfold tape_toss_input at h
        split_ifs at h <;> simp only [Option.some.injEq] at h <;> rw [← h] <;> simp
      obtain ⟨a1, a2, a3, a4⟩ := h1
      obtain ⟨b1, b2, b3, b4⟩ := h2
      refine ⟨by rw [b1, a1], by rw [b2, a2], by rw [b3, a3], ?_⟩
      rw [b4, a4, a3, List.drop_drop]
    · simp only [ne_eq, not_not] at hp
      simp only [Option.some.injEq] at h
      obtain ⟨a1, a2, a3, a4⟩ := h1
      subst h
      refine ⟨a1, a2, a3, ?_⟩
      rw [a4, ← a3, hp]
      simp

/-- C7, as stated, fails: a new-ascii record with two links and a payload of 3 bytes whose
name is not NUL-terminated (`c_namesize = 0`) takes the skip path, and there, an earlier
record of the same inode being deferred, its payload is not discarded: it is written to
the deferred name `link`, which leaves the deferment list. -/
theorem malformed_name_payload_extracted :
    select_record sample_extern sample_bad_name_hdr sample_bad_name_state
      = Selection.record sample_bad_name_hdr true ∧
    (process_skipped sample_extern sample_bad_name_hdr sample_bad_name_state).map
        (fun r => (r.1.c_name, r.2.log, r.2.deferments, r.2.tape))
      = some ([108, 105, 110, 107, 0],
          [Event.name_not_nul_terminated,
           Event.link_to_maj_min_ino [108, 105, 110, 107, 0] 0 1 7 (-1),
           Event.open_file [108, 105, 110, 107, 0] 3,
           Event.copy_files_tape_to_disk 3 [97, 98, 99],
           Event.disk_empty_output_buffer 3,
           Event.set_perms 3 [108, 105, 110, 107, 0],
           Event.close_file 3 0],
          [], [1, 2]) ∧
    (toss_payload sample_bad_name_state sample_bad_name_hdr).map
        (fun s => (s.log, s.deferments, s.tape))
      = some ([Event.name_not_nul_terminated], [sample_deferred], [1, 2]) := by
  refine ⟨?_, ?_, ?_⟩ <;> decide

/-- C7, amended: `read_name_from_file` with length 0 reads nothing, reports the header and
stores `c_namesize = 0`; with a length that is not 0 it reads that many bytes, and when
the last one is not NUL it reports the header and stores `c_namesize = 0`, otherwise it
stores the name with `c_namesize` equal to the length.  A record with `c_namesize = 0`
is given `skip_file = true` whatever the patterns, so it is never listed nor handed to
`copyin_file`.  On the skip path its payload and padding are discarded, with nothing
reported and the deferment list unchanged, unless the format is new-ascii or new-crc,
the record has more than one link and a payload, and an entry of the same inode and
device is deferred: then the first such entry leaves the list, the record takes its
name, and `copyin_regular_file` extracts the payload under that name. -/
theorem malformed_name_skip_path (ext : Extern) (file_hdr : cpio_file_stat) (st : Globals)
    (len : Nat) :
    (len = 0 →
      read_name_from_file file_hdr st len
        = some ({ file_hdr with c_namesize := 0 }, report st [Event.name_zero_length])) ∧
    (len ≠ 0 → len ≤ st.tape.length → (st.tape.take len).getD (len - 1) 0 ≠ 0 →
      read_name_from_file file_hdr st len
        = some ({ file_hdr with c_name := st.tape.take len, c_namesize := 0 },
            report { st with tape := st.tape.drop len } [Event.name_not_nul_terminated])) ∧
    (len ≠ 0 → len ≤ st.tape.length → (st.tape.take len).getD (len - 1) 0 = 0 →
      read_name_from_file file_hdr st len
        = some ({ file_hdr with c_name := st.tape.take len, c_namesize := len },
            { st with tape := st.tape.drop len })) ∧
    (file_hdr.c_namesize = 0 →
      select_record ext file_hdr st = Selection.record file_hdr true) ∧
    (¬ (file_hdr.c_nlink > 1 ∧
        (st.archive_format = arf_newascii ∨ st.archive_format = arf_crcascii) ∧
        file_hdr.c_filesize ≠ 0 ∧ ∃ d, d ∈ st.deferments ∧ same_file d file_hdr) →
      process_skipped ext file_hdr st
        = (toss_payload st file_hdr).map (fun s => (file_hdr, s))) ∧
    (∀ s, toss_payload st file_hdr = some s →
      s.log = st.log ∧ s.deferments = st.deferments ∧
      s.archive_format = st.archive_format ∧
      s.tape = st.tape.drop
        (file_hdr.c_filesize.toNat +
          (padding st.archive_format file_hdr.c_filesize).toNat)) ∧
    (file_hdr.c_nlink > 1 →
      (st.archive_format = arf_newascii ∨ st.archive_format = arf_crcascii) →
      file_hdr.c_filesize ≠ 0 →
      ∀ d rest, remove_first_same_file file_hdr st.deferments = some (d, rest) →
        process_skipped ext file_hdr st
          = (copyin_regular_file ext (cpio_set_c_name file_hdr d.c_name)
              { st with deferments := rest }).map
              (fun s => (cpio_set_c_name file_hdr d.c_name, s))) := by
  refine ⟨?_, ?_, ?_, ?_, ?_, ?_, ?_⟩
  · intro h
    unfold read_name_from_file
    rw [if_pos h]
  · intro h0 hlen hlast
    unfold read_name_from_file tape_buffered_read
    rw [if_neg h0, if_pos hlen]
    simp only
    rw [if_pos hlast]
  · intro h0 hlen hlast
    unfold read_name_from_file tape_buffered_read
    rw [if_neg h0, if_pos hlen]
    simp only
    rw [if_neg (by simpa using hlast)]
  · intro h
    unfold select_record
    rw [if_pos h]
  · intro h
    unfold process_skipped
    by_cases h1 : file_hdr.c_nlink > 1 ∧
        (st.archive_format = arf_newascii ∨ st.archive_format = arf_crcascii)
    · rw [if_pos h1]
      have hres : create_defered_links_to_skipped ext file_hdr st
          = some (-1, file_hdr, st) := by
        unfold create_defered_links_to_skipped
        by_cases h2 : file_hdr.c_filesize = 0
        · rw [if_pos h2]
        · rw [if_neg h2]
          have h3 : ¬ ∃ d, d ∈ st.deferments ∧ same_file d file_hdr :=
            fun h4 => h ⟨h1.1, h1.2, h2, h4⟩
          rw [remove_first_same_file_none file_hdr _ h3]
      rw [hres]
      simp only [Int.reduceNeg, Left.neg_neg_iff, zero_lt_one, if_true]
      cases toss_payload st file_hdr <;> rfl
    · rw [if_neg h1]
      cases toss_payload st file_hdr <;> rfl
  · intro s hs
    exact toss_payload_effect st s file_hdr hs
  · intro h1 h2 h3 d rest hrem
    unfold process_skipped
    rw [if_pos ⟨h1, h2⟩]
    unfold create_defered_links_to_skipped
    rw [if_neg h3, hrem]
    simp only
    cases copyin_regular_file ext (cpio_set_c_name file_hdr d.c_name)
      { st with deferments := rest } <;> simp

/-- C7, amended, at the record with the unterminated name `x` when nothing is deferred:
the name is reported, `c_namesize` is 0, and the payload `abc` and its padding byte are
discarded with nothing reported. -/
theorem malformed_name_skip_path_witness :
    read_name_from_file sample_bad_name_hdr (initial_state [120, 97, 98, 99, 0]) 1
      = some ({ sample_bad_name_hdr with
                c_name := (initial_state [120, 97, 98, 99, 0]).tape.take 1, c_namesize := 0 },
          report { initial_state [120, 97, 98, 99, 0] with
                   tape := (initial_state [120, 97, 98, 99, 0]).tape.drop 1 }
            [Event.name_not_nul_terminated]) ∧
    process_skipped sample_extern sample_bad_name_hdr
        { sample_bad_name_state with deferments := [] }
      = some (sample_bad_name_hdr,
          { sample_bad_name_state with deferments := [], tape := [1, 2] }) := by
  constructor
  · exact (malformed_name_skip_path sample_extern sample_bad_name_hdr
      (initial_state [120, 97, 98, 99, 0]) 1).2.1 (by decide) (by decide) (by decide)
  · rw [(malformed_name_skip_path sample_extern sample_bad_name_hdr
      { sample_bad_name_state with deferments := [] } 1).2.2.2.2.1 (by decide)]
    decide

/-! ## Alignment of a new-ascii header whose name is well formed -/

theorem decode_field_tape (st : Globals) (buf : List Nat) (off len logbase : Nat) :
    (decode_field st buf off len logbase).2.tape = st.tape ∧
    (decode_field st buf off len logbase).2.archive_format = st.archive_format := by
  simp [decode_field, report]

theorem read_name_from_file_consumed (fh fh1 : cpio_file_stat) (st st1 : Globals) (len : Nat)
    (h : read_name_from_file fh st len = some (fh1, st1)) (hn : fh1.c_namesize ≠ 0) :
    fh1.c_namesize = len ∧ len ≤ st.tape.length ∧ st1.tape = st.tape.drop len ∧
    st1.archive_format = st.archive_format := by
  unfold read_name_from_file tape_buffered_read at h
  split_ifs at h with h0 h1
  · simp only [Option.some.injEq, Prod.mk.injEq] at h
    rw [← h.1] at hn
    exact absurd rfl hn
  · simp only at h
    split_ifs at h with h2
    · simp only [Option.some.injEq, Prod.mk.injEq] at h
      rw [← h.1] at hn
      exact absurd rfl hn
    · simp only [Option.some.injEq, Prod.mk.injEq] at h
      rw [← h.1, ← h.2]
      exact ⟨rfl, h1, rfl, rfl⟩

/-- When `read_in_new_ascii` returns with a name accepted (`c_namesize` not 0), the magic,
the header, the name and the padding tossed make a multiple of 4 bytes. -/
theorem read_in_new_ascii_aligned (fh fh1 : cpio_file_stat) (st st1 : Globals)
    (hf : st.archive_format = arf_newascii ∨ st.archive_format = arf_crcascii)
    (h : read_in_new_ascii fh st = some (fh1, st1)) (hn : fh1.c_namesize ≠ 0) :
    ∃ n, n ≤ st.tape.length ∧ st1.tape = st.tape.drop n ∧ (6 + n) % 4 = 0 := by
  unfold read_in_new_ascii at h
  cases hr : tape_buffered_read st 104 with
  | none => rw [hr] at h; simp at h
  | some p =>
    obtain ⟨buf, st2⟩ := p
    rw [hr] at h
    simp only at h
    have h2 : 104 ≤ st.tape.length ∧ st2.tape = st.tape.drop 104 ∧
        st2.archive_format = st.archive_format := by
      unfold tape_buffered_read at hr
      split_ifs at hr with hl
      simp only [Option.some.injEq, Prod.mk.injEq] at hr
      rw [← hr.2]
      exact ⟨hl, rfl, rfl⟩
    split at h
    · simp at h
    · rename_i fh2 st3 hname
      split at h
      · simp at h
      · rename_i st4 hpad
        simp only [Option.some.injEq, Prod.mk.injEq] at h
        obtain ⟨e1, e2⟩ := h
        subst e1 e2
        obtain ⟨n1, n2, n3, n4⟩ := read_name_from_file_consumed _ _ _ _ _ hname hn
        simp only [decode_field_tape] at n2 n3 n4
        have hfmt : st3.archive_format = arf_newascii ∨ st3.archive_format = arf_crcascii := by
          rw [n4, h2.2.2]; exact hf
        have hp : padding st3.archive_format ((fh2.c_namesize : Int) + 110)
            = (4 - ((fh2.c_namesize : Int) + 110) % 4) % 4 := by
          rw [← padding_tmod _ 4 (by omega) (by norm_num)]
          rcases hfmt with hh | hh <;> simp [padding, hh]
        have ht := tape_skip_padding_of_pad st3 _ _ hp
        rw [hpad] at ht
        simp only [Option.map_some'] at ht
        split_ifs at ht with hle
        simp only [Option.some.injEq] at ht
        refine ⟨104 + fh2.c_namesize
          + ((4 - ((fh2.c_namesize : Int) + 110) % 4) % 4).toNat, ?_, ?_, ?_⟩
        · rw [n3, h2.2.1, List.length_drop, List.length_drop] at hle
          rw [h2.2.1, List.length_drop] at n2
          omega
        · rw [ht, n3, h2.2.1, n1, List.drop_drop, List.drop_drop]
          congr 1
          omega
        · omega

/-! ## The old-binary decoder and byte order -/

theorem read_name_from_file_erase_magic (fh : cpio_file_stat) (m : Nat) (st st1 : Globals)
    (len : Nat) (ht : st1.tape = st.tape) :
    (read_name_from_file { fh with c_magic := m } st1 len).map
        (fun p => (({ p.1 with c_magic := 0 } : cpio_file_stat), p.2.tape))
      = (read_name_from_file fh st len).map
        (fun p => (({ p.1 with c_magic := 0 } : cpio_file_stat), p.2.tape)) := by
  unfold read_name_from_file tape_buffered_read
  rw [ht]
  by_cases h0 : len = 0
  · simp [h0, report, ht]
  · by_cases hl : len ≤ st.tape.length
    · simp only [if_neg h0, if_pos hl]
      split_ifs <;> simp [report]
    · simp [h0, hl]

theorem hp_fixup_erase_magic (ext : Extern) (fh fh1 : cpio_file_stat)
    (hfh : ({ fh1 with c_magic := 0 } : cpio_file_stat) = { fh with c_magic := 0 }) :
    ({ hp_fixup ext fh1 with c_magic := 0 } : cpio_file_stat)
      = { hp_fixup ext fh with c_magic := 0 } := by
  cases fh
  cases fh1
  simp only [cpio_file_stat.mk.injEq] at hfh
  obtain ⟨-, h2, h3, h4, h5, h6, h7, h8, h9, h10, h11, h12, h13, h14, h15, h16⟩ := hfh
  subst h2 h3 h4 h5 h6 h7 h8 h9 h10 h11 h12 h13 h14 h15 h16
  unfold hp_fixup
  simp only
  split_ifs <;> rfl

/-- Two runs of the end of `read_in_binary` (name, padding byte, HP/UX fix) from
descriptors that agree but for `c_magic` and states with the same archive give
descriptors that agree but for `c_magic` and the same archive. -/
theorem read_in_binary_tail_erase_magic (ext : Extern) (fh : cpio_file_stat) (m : Nat)
    (st st1 : Globals) (len : Nat) (ht : st1.tape = st.tape) :
    (match read_name_from_file { fh with c_magic := m } st1 len with
      | none => none
      | some (file_hdr, st) =>
        match (if file_hdr.c_namesize % 2 ≠ 0 then tape_toss_input st 1 else some st) with
        | none => none
        | some st => some (hp_fixup ext file_hdr, st) : Option (cpio_file_stat × Globals)).map
        (fun p => (({ p.1 with c_magic := 0 } : cpio_file_stat), p.2.tape))
      = (match read_name_from_file fh st len with
      | none => none
      | some (file_hdr, st) =>
        match (if file_hdr.c_namesize % 2 ≠ 0 then tape_toss_input st 1 else some st) with
        | none => none
        | some st => some (hp_fixup ext file_hdr, st) : Option (cpio_file_stat × Globals)).map
        (fun p => (({ p.1 with c_magic := 0 } : cpio_file_stat), p.2.tape)) := by
  have hv := read_name_from_file_erase_magic fh m st st1 len ht
  cases h1 : read_name_from_file { fh with c_magic := m } st1 len with
  | none =>
    rw [h1] at hv
    cases h2 : read_name_from_file fh st len with
    | none => rfl
    | some p => rw [h2] at hv; simp at hv
  | some p1 =>
    rw [h1] at hv
    cases h2 : read_name_from_file fh st len with
    | none => rw [h2] at hv; simp at hv
    | some p =>
      rw [h2] at hv
      obtain ⟨a1, s1⟩ := p1
      obtain ⟨a, s⟩ := p
      simp only [Option.map_some', Option.some.injEq, Prod.mk.injEq] at hv
      obtain ⟨hv1, hv2⟩ := hv
      have hn : a1.c_namesize = a.c_namesize := by
        have := congrArg cpio_file_stat.c_namesize hv1
        simpa using this
      have hfix := hp_fixup_erase_magic ext a a1 hv1
      simp only [hn]
      split_ifs with hodd
      · have htoss := tape_toss_input_tape s1 1
        have htoss' := tape_toss_input_tape s 1
        rw [hv2] at htoss
        cases h3 : tape_toss_input s1 1 with
        | none =>
          rw [h3] at htoss
          cases h4 : tape_toss_input s 1 with
          | none => rfl
          | some q => rw [h4] at htoss'; rw [← htoss] at htoss'; simp at htoss'
        | some q1 =>
          rw [h3] at htoss
          cases h4 : tape_toss_input s 1 with
          | none => rw [h4] at htoss'; rw [← htoss'] at htoss; simp at htoss
          | some q =>
            rw [h4] at htoss'
            rw [← htoss'] at htoss
            simp only [Option.map_some', Option.some.injEq] at htoss
            simp [hfix, htoss]
      · simp [hfix, hv2]


theorem list_of_length_26 (H : List Nat) (h : H.length = 26) :
    ∃ b0 b1 b2 b3 b4 b5 b6 b7 b8 b9 b10 b11 b12 b13 b14 b15 b16 b17 b18 b19 b20 b21 b22 b23
      b24 b25, H = [b0, b1, b2, b3, b4, b5, b6, b7, b8, b9, b10, b11, b12, b13, b14, b15, b16,
        b17, b18, b19, b20, b21, b22, b23, b24, b25] := by
  match H, h with
  | [b0, b1, b2, b3, b4, b5, b6, b7, b8, b9, b10, b11, b12, b13, b14, b15, b16, b17, b18, b19,
      b20, b21, b22, b23, b24, b25], _ =>
    exact ⟨b0, b1, b2, b3, b4, b5, b6, b7, b8, b9, b10, b11, b12, b13, b14, b15, b16, b17, b18,
      b19, b20, b21, b22, b23, b24, b25, rfl⟩

theorem to_int64_of_lt (n : Nat) (h : n < 2 ^ 63) : to_int64 n = (n : Int) := by
  unfold to_int64
  have h1 : n % 2 ^ 64 = n := Nat.mod_eq_of_lt (by omega)
  rw [h1, if_pos h]

theorem compose_shorts (hi lo : Nat) (hhi : hi < 65536) (hlo : lo < 65536) :
    to_int64 ((hi <<< 16) ||| lo) = ((hi * 65536 + lo : Nat) : Int) := by
  have h1 : (hi <<< 16) ||| lo = hi * 65536 + lo := by
    rw [Nat.shiftLeft_eq, Nat.mul_comm hi, ← Nat.mul_add_lt_is_or (by simpa using hlo)]
  rw [h1]
  exact to_int64_of_lt _ (by omega)

/-- The decoder `read_in_binary` once the 20 bytes after the first six are read: `hh` is the
header after the byte swap, if any, and `stt` the state after the warning, if any. -/
theorem read_in_binary_unfold (ext : Extern) (fh : cpio_file_stat)
    (first6 more rest hh : List Nat) (st stt : Globals) (hm : more.length = 20)
    (hhh : hh = if short_at first6 0 = swab_short 0o070707
      then swab_array (first6 ++ more) 13 else first6 ++ more)
    (hstt : stt = if short_at first6 0 = swab_short 0o070707 ∧ st.warned = false
      then report { st with warned := true, tape := rest } [Event.reverse_byte_order]
      else { st with tape := rest }) :
    read_in_binary ext fh first6 { st with tape := more ++ rest } =
      match read_name_from_file
        { fh with
          c_magic := short_at first6 0
          c_dev_maj := ext.major (short_at hh 1), c_dev_min := ext.minor (short_at hh 1),
          c_ino := short_at hh 2, c_mode := short_at hh 3, c_uid := short_at hh 4,
          c_gid := short_at hh 5, c_nlink := short_at hh 6,
          c_rdev_maj := ext.major (short_at hh 7), c_rdev_min := ext.minor (short_at hh 7),
          c_mtime := to_int64 ((short_at hh 8 <<< 16) ||| short_at hh 9),
          c_filesize := to_int64 ((short_at hh 11 <<< 16) ||| short_at hh 12) }
        stt (short_at hh 10) with
      | none => none
      | some (file_hdr, st) =>
        match (if file_hdr.c_namesize % 2 ≠ 0 then tape_toss_input st 1 else some st) with
        | none => none
        | some st => some (hp_fixup ext file_hdr, st) := by
  subst hhh hstt
  unfold read_in_binary tape_buffered_read
  have h20 : 20 ≤ (more ++ rest).length := by simp [hm]
  have ht : (more ++ rest).take 20 = more := by
    rw [← hm]; exact List.take_left' rfl
  have hd : (more ++ rest).drop 20 = rest := by
    rw [← hm]; exact List.drop_left' rfl
  simp only [if_pos h20, ht, hd]
  by_cases hsw : short_at first6 0 = swab_short 0o070707
  · by_cases hw : st.warned = false
    · simp only [hsw, hw, decide_True, and_self, if_true]
    · simp only [hsw, hw, decide_True, and_false, true_and, if_true, if_false]
  · simp only [hsw, decide_False, false_and, if_false, Bool.false_eq_true]

theorem short_at_lt (h : List Nat) (i : Nat) (hb : ∀ b ∈ h, b < 256) : short_at h i < 65536 := by
  unfold short_at
  have key : ∀ j, h.getD j 0 < 256 := by
    intro j
    rw [List.getD_eq_getElem?_getD]
    cases hj : h[j]? with
    | none => simp
    | some v =>
      simp only [Option.getD_some]
      exact hb v (List.getElem?_mem hj)
  have h1 := key (2 * i)
  have h2 := key (2 * i + 1)
  omega

/-- C11: let `H` be a 26-byte old-binary header with the canonical magic and `H1` the same
header with the two bytes of each of its 13 words exchanged.  On the same archive after
the header, `read_in_binary` fails on both or returns on both, with descriptors that
agree on every member but `c_magic` (so on dev_major, dev_minor, ino, mode, uid, gid,
nlink, rdev_major, rdev_minor, mtime, filesize and namesize) and with the archive at the
same position.  On `H` what it returns has `c_mtime` equal to high word times 65536 plus
low word, and `c_filesize` equal to the same composition unless the HP/UX fix for a
device, FIFO or socket has set it to 0. -/
theorem read_in_binary_swap_transparent (ext : Extern) (fh : cpio_file_stat)
    (H rest : List Nat) (st : Globals)
    (hlen : H.length = 26) (hbytes : ∀ b ∈ H, b < 256) (hmagic : short_at H 0 = 0o070707) :
    (read_in_binary ext fh ((swab_array H 13).take 6)
        { st with tape := (swab_array H 13).drop 6 ++ rest }).map
        (fun p => (({ p.1 with c_magic := 0 } : cpio_file_stat), p.2.tape))
      = (read_in_binary ext fh (H.take 6) { st with tape := H.drop 6 ++ rest }).map
        (fun p => (({ p.1 with c_magic := 0 } : cpio_file_stat), p.2.tape)) ∧
    (read_in_binary ext fh ((swab_array H 13).take 6)
        { st with tape := (swab_array H 13).drop 6 ++ rest }).map
        (fun p => decoded_fields p.1)
      = (read_in_binary ext fh (H.take 6) { st with tape := H.drop 6 ++ rest }).map
        (fun p => decoded_fields p.1) ∧
    (∀ p, read_in_binary ext fh (H.take 6) { st with tape := H.drop 6 ++ rest } = some p →
      p.1.c_mtime = ((short_at H 8 * 65536 + short_at H 9 : Nat) : Int) ∧
      (p.1.c_filesize = ((short_at H 11 * 65536 + short_at H 12 : Nat) : Int) ∨
        (is_special_mode (short_at H 3) ∧ p.1.c_filesize = 0))) := by
  have hsw : swab_short 0o070707 = 51057 := by decide
  have hH6 : (H.take 6).length = 6 := by rw [List.length_take]; omega
  have hHd : (H.drop 6).length = 20 := by rw [List.length_drop]; omega
  have hHH : H.take 6 ++ H.drop 6 = H := List.take_append_drop 6 H
  -- the plain header is not swapped
  have hm0 : short_at (H.take 6) 0 = 0o070707 := by
    rw [short_at_take_six H (by omega)]; exact hmagic
  have hns : ¬ short_at (H.take 6) 0 = swab_short 0o070707 := by
    rw [hm0, hsw]; decide
  have hR := read_in_binary_unfold ext fh (H.take 6) (H.drop 6) rest H st
    { st with tape := rest } hHd (by rw [if_neg hns, hHH])
    (by rw [if_neg (fun h => hns h.1)])
  -- the swapped header
  obtain ⟨b0, b1, b2, b3, b4, b5, b6, b7, b8, b9, b10, b11, b12, b13, b14, b15, b16, b17, b18,
    b19, b20, b21, b22, b23, b24, b25, hHeq⟩ := list_of_length_26 H hlen
  have hb0 : b0 < 256 := hbytes b0 (by rw [hHeq]; simp)
  have hb1 : b1 < 256 := hbytes b1 (by rw [hHeq]; simp)
  have hm : b0 = 199 ∧ b1 = 113 := by
    rw [hHeq] at hmagic
    simp [short_at] at hmagic
    constructor <;> omega
  have hs : swab_array H 13
      = [b1, b0, b3, b2, b5, b4, b7, b6, b9, b8, b11, b10, b13, b12, b15, b14, b17, b16,
          b19, b18, b21, b20, b23, b22, b25, b24] := by
    rw [hHeq]; simp [swab_array, swab_pairs]
  have hs2 : swab_array (swab_array H 13) 13 = H := by
    rw [hs, hHeq]; simp [swab_array, swab_pairs]
  have hS6 : ((swab_array H 13).take 6).length = 6 := by rw [hs]; rfl
  have hSd : ((swab_array H 13).drop 6).length = 20 := by rw [hs]; rfl
  have hSS : (swab_array H 13).take 6 ++ (swab_array H 13).drop 6 = swab_array H 13 :=
    List.take_append_drop 6 _
  have hms : short_at ((swab_array H 13).take 6) 0 = swab_short 0o070707 := by
    have hgen : ∀ (a b : Nat) (l : List Nat), short_at ((a :: b :: l).take 6) 0 = a + 256 * b := by
      intro a b l
      simp [short_at]
    rw [hs, hsw, hgen, hm.1, hm.2]
  have hL := read_in_binary_unfold ext fh ((swab_array H 13).take 6)
    ((swab_array H 13).drop 6) rest H st
    (if st.warned = false
      then report { st with warned := true, tape := rest } [Event.reverse_byte_order]
      else { st with tape := rest }) hSd (by rw [if_pos hms, hSS, hs2])
    (by
      by_cases hw : st.warned = false
      · rw [if_pos hw, if_pos ⟨hms, hw⟩]
      · rw [if_neg hw, if_neg (fun h => hw h.2)])
  have hview :
      (read_in_binary ext fh ((swab_array H 13).take 6)
        { st with tape := (swab_array H 13).drop 6 ++ rest }).map
        (fun p => (({ p.1 with c_magic := 0 } : cpio_file_stat), p.2.tape))
      = (read_in_binary ext fh (H.take 6) { st with tape := H.drop 6 ++ rest }).map
        (fun p => (({ p.1 with c_magic := 0 } : cpio_file_stat), p.2.tape)) := by
    rw [hL, hR, hms, hm0]
    exact read_in_binary_tail_erase_magic ext
      { fh with
        c_magic := 0o070707
        c_dev_maj := ext.major (short_at H 1), c_dev_min := ext.minor (short_at H 1),
        c_ino := short_at H 2, c_mode := short_at H 3, c_uid := short_at H 4,
        c_gid := short_at H 5, c_nlink := short_at H 6,
        c_rdev_maj := ext.major (short_at H 7), c_rdev_min := ext.minor (short_at H 7),
        c_mtime := to_int64 ((short_at H 8 <<< 16) ||| short_at H 9),
        c_filesize := to_int64 ((short_at H 11 <<< 16) ||| short_at H 12) }
      (swab_short 0o070707) { st with tape := rest } _ (short_at H 10)
      (by split_ifs <;> rfl)
  refine ⟨hview, ?_, ?_⟩
  · have := congrArg (Option.map (fun q : cpio_file_stat × List Nat =>
      decoded_fields q.1)) hview
    simpa [Option.map_map, Function.comp, decoded_fields] using this
  · intro p hp
    rw [hR] at hp
    have h8 := short_at_lt H 8 hbytes
    have h9 := short_at_lt H 9 hbytes
    have h11 := short_at_lt H 11 hbytes
    have h12 := short_at_lt H 12 hbytes
    split at hp
    · simp at hp
    · rename_i fh2 st2 hname
      split at hp
      · simp at hp
      · rename_i st3 _
        simp only [Option.some.injEq] at hp
        subst hp
        have hfields : fh2.c_mtime = ((short_at H 8 * 65536 + short_at H 9 : Nat) : Int) ∧
            fh2.c_filesize = ((short_at H 11 * 65536 + short_at H 12 : Nat) : Int) ∧
            fh2.c_mode = short_at H 3 := by
          unfold read_name_from_file at hname
          split_ifs at hname with h0
          · simp only [Option.some.injEq, Prod.mk.injEq] at hname
            rw [← hname.1]
            exact ⟨compose_shorts _ _ h8 h9, compose_shorts _ _ h11 h12, rfl⟩
          · split at hname
            · simp at hname
            · split_ifs at hname <;>
                simp only [Option.some.injEq, Prod.mk.injEq] at hname <;>
                rw [← hname.1] <;>
                exact ⟨compose_shorts _ _ h8 h9, compose_shorts _ _ h11 h12, rfl⟩
        obtain ⟨f1, f2, f3⟩ := hfields
        unfold hp_fixup
        simp only
        split_ifs with hs1 hs2
        · refine ⟨f1, Or.inr ⟨?_, rfl⟩⟩
          rw [← f3]; exact hs1
        · exact ⟨f1, Or.inl f2⟩
        · exact ⟨f1, Or.inl f2⟩

/-! ## Range of the decoded sizes -/

theorem strchr_from_lt (i : Nat) : ∀ (s : List Nat) (c d : Nat),
    strchr_from i s c = some d → d ≤ i + s.length := by
  intro s
  induction s generalizing i with
  | nil =>
    intro c d h
    simp only [strchr_from] at h
    split_ifs at h
    simp only [Option.some.injEq] at h
    simp [← h]
  | cons x xs ih =>
    intro c d h
    simp only [strchr_from] at h
    split_ifs at h
    · simp only [Option.some.injEq] at h
      simp [← h]
    · have := ih (i + 1) c d h
      simp only [List.length_cons]
      omega

theorem strchr_codetab_le (c d : Nat) (h : strchr codetab c = some d) : d ≤ 16 := by
  have := strchr_from_lt 0 codetab c d h
  simpa [codetab] using this

/-- The value at the end of the loop of `from_ascii` is bounded by the value at its
start and the number of bytes left. -/
theorem from_ascii_loop_bound (lb : Nat) (hlb : 1 ≤ lb) :
    ∀ (l : List Nat) (v : Nat) (ov : Int),
      (from_ascii_loop lb l v ov).1 + 32 ≤ (v + 32) * 2 ^ (lb * l.length) := by
  have h2 : 2 ≤ 2 ^ lb := by
    calc 2 = 2 ^ 1 := by norm_num
      _ ≤ 2 ^ lb := Nat.pow_le_pow_right (by norm_num) hlb
  intro l
  induction l with
  | nil =>
    intro v ov
    simp [from_ascii_loop]
  | cons c rest ih =>
    intro v ov
    have hpos : 1 ≤ 2 ^ (lb * rest.length) := Nat.one_le_two_pow
    have hexp : 2 ^ (lb * (c :: rest).length) = 2 ^ lb * 2 ^ (lb * rest.length) := by
      rw [List.length_cons, Nat.mul_succ, Nat.pow_add, Nat.mul_comm]
    have hbase : v + 32 ≤ (v + 32) * 2 ^ (lb * (c :: rest).length) :=
      Nat.le_mul_of_pos_right _ (Nat.two_pow_pos _)
    unfold from_ascii_loop
    cases hs : strchr codetab (toupper c) with
    | none => simpa using hbase
    | some d =>
      have hd : d ≤ 16 := strchr_codetab_le _ d hs
      simp only
      split_ifs with h1
      · simpa using hbase
      · have hv1 : (v + d) % 2 ^ 64 ≤ v + 16 := by
          calc (v + d) % 2 ^ 64 ≤ v + d := Nat.mod_le _ _
            _ ≤ v + 16 := by omega
        have hone : (v + d) % 2 ^ 64 + 32 ≤ (v + 32) * 2 ^ (lb * (c :: rest).length) := by
          rw [hexp]
          calc (v + d) % 2 ^ 64 + 32 ≤ (v + 32) * 2 := by omega
            _ ≤ (v + 32) * 2 ^ lb := Nat.mul_le_mul_left _ h2
            _ ≤ (v + 32) * (2 ^ lb * 2 ^ (lb * rest.length)) := by
              apply Nat.mul_le_mul_left
              exact Nat.le_mul_of_pos_right _ (Nat.two_pow_pos _)
        cases rest with
        | nil => simpa using hone
        | cons c1 t =>
          simp only
          split_ifs with h0
          · simpa using hone
          · have hrec := ih ((((v + d) % 2 ^ 64) <<< lb) % 2 ^ 64)
              (uintmax_to_int (int_to_uintmax ov |||
                ((v + d) % 2 ^ 64 ^^^ (((((v + d) % 2 ^ 64) <<< lb) % 2 ^ 64) >>> lb))))
            have hsh : (((v + d) % 2 ^ 64) <<< lb) % 2 ^ 64 ≤ (v + 16) * 2 ^ lb := by
              calc (((v + d) % 2 ^ 64) <<< lb) % 2 ^ 64
                  ≤ ((v + d) % 2 ^ 64) <<< lb := Nat.mod_le _ _
                _ = (v + d) % 2 ^ 64 * 2 ^ lb := Nat.shiftLeft_eq _ _
                _ ≤ (v + 16) * 2 ^ lb := Nat.mul_le_mul_right _ hv1
            have hstep : (((v + d) % 2 ^ 64) <<< lb) % 2 ^ 64 + 32 ≤ (v + 32) * 2 ^ lb := by
              have : (v + 16) * 2 ^ lb + 32 ≤ (v + 32) * 2 ^ lb := by
                have e : (v + 32) * 2 ^ lb = (v + 16) * 2 ^ lb + 16 * 2 ^ lb := by ring
                rw [e]
                omega
              omega
            calc _ ≤ ((((v + d) % 2 ^ 64) <<< lb) % 2 ^ 64 + 32)
                    * 2 ^ (lb * (c1 :: t).length) := hrec
              _ ≤ ((v + 32) * 2 ^ lb) * 2 ^ (lb * (c1 :: t).length) :=
                  Nat.mul_le_mul_right _ hstep
              _ = (v + 32) * 2 ^ (lb * (c :: c1 :: t).length) := by
                  rw [hexp, Nat.mul_assoc]

/-- A field of at most 11 digits decodes, in base 8 or 16, to a value below `2^50`. -/
theorem from_ascii_lt (where_ : List Nat) (digs lb : Nat) (hlb1 : 1 ≤ lb) (hlb : lb ≤ 4)
    (hd : digs ≤ 11) : (from_ascii where_ digs lb).1 < 2 ^ 50 := by
  unfold from_ascii
  simp only
  split
  · norm_num
  · rename_i c t heq
    by_cases h0 : c = 0
    · rw [if_pos h0]
      norm_num
    · rw [if_neg h0]
      show (from_ascii_loop lb ((List.take digs where_).dropWhile (fun c => c = 32)) 0 0).1
        < 2 ^ 50
      have hb := from_ascii_loop_bound lb hlb1
        ((List.take digs where_).dropWhile (fun c => c = 32)) 0 0
      have hlen : ((List.take digs where_).dropWhile (fun c => c = 32)).length ≤ 11 := by
        calc _ ≤ (List.take digs where_).length := (List.dropWhile_sublist _).length_le
          _ ≤ digs := by rw [List.length_take]; omega
          _ ≤ 11 := hd
      have hpow : 2 ^ (lb * ((List.take digs where_).dropWhile (fun c => c = 32)).length)
          ≤ 2 ^ 44 := by
        apply Nat.pow_le_pow_right (by norm_num)
        calc lb * _ ≤ 4 * 11 := Nat.mul_le_mul hlb hlen
          _ = 44 := by norm_num
      have : (0 + 32) * 2 ^ (lb * ((List.take digs where_).dropWhile
          (fun c => c = 32)).length) ≤ 32 * 2 ^ 44 := by
        rw [Nat.zero_add]
        exact Nat.mul_le_mul_left _ hpow
      have h50 : 32 * 2 ^ 44 < 2 ^ 50 := by norm_num
      omega


theorem read_name_from_file_frame (fh fh1 : cpio_file_stat) (st st1 : Globals) (len : Nat)
    (h : read_name_from_file fh st len = some (fh1, st1)) :
    ∃ name n, fh1 = { fh with c_name := name, c_namesize := n } := by
  unfold read_name_from_file at h
  split_ifs at h with h0
  · simp only [Option.some.injEq, Prod.mk.injEq] at h
    exact ⟨fh.c_name, 0, h.1.symm⟩
  · split at h
    · simp at h
    · rename_i name st2 _
      split_ifs at h <;> simp only [Option.some.injEq, Prod.mk.injEq] at h
      · exact ⟨name, 0, h.1.symm⟩
      · exact ⟨name, len, h.1.symm⟩

theorem read_name_from_file_returns (fh : cpio_file_stat) (st : Globals) (len : Nat)
    (h : len ≤ st.tape.length) :
    ∃ fh1 st1, read_name_from_file fh st len = some (fh1, st1) := by
  unfold read_name_from_file tape_buffered_read
  by_cases h0 : len = 0
  · rw [if_pos h0]; exact ⟨_, _, rfl⟩
  · rw [if_neg h0, if_pos h]
    simp only
    split_ifs <;> exact ⟨_, _, rfl⟩

theorem decode_field_fst (st : Globals) (buf : List Nat) (off len lb : Nat) :
    (decode_field st buf off len lb).1 = (from_ascii (buf.drop off) len lb).1 := rfl

theorem decode_field_snd (st : Globals) (buf : List Nat) (off len lb : Nat) :
    (decode_field st buf off len lb).2 = report st (from_ascii (buf.drop off) len lb).2 := rfl

/-- What `read_in_old_ascii` returns is the HP/UX fix of a descriptor that holds the
numbers decoded from the 70 bytes of the header. -/
theorem read_in_old_ascii_result (ext : Extern) (fh fh1 : cpio_file_stat) (st st1 : Globals)
    (h : read_in_old_ascii ext fh st = some (fh1, st1)) :
    70 ≤ st.tape.length ∧
    ∃ fh2 : cpio_file_stat, fh1 = hp_fixup ext fh2 ∧
      fh2.c_mode = (from_ascii ((st.tape.take 70).drop 12) 6 3).1 ∧
      fh2.c_rdev_maj = ext.major (from_ascii ((st.tape.take 70).drop 36) 6 3).1 ∧
      fh2.c_rdev_min = ext.minor (from_ascii ((st.tape.take 70).drop 36) 6 3).1 ∧
      fh2.c_mtime = to_int64 (from_ascii ((st.tape.take 70).drop 42) 11 3).1 ∧
      fh2.c_filesize = to_int64 (from_ascii ((st.tape.take 70).drop 59) 11 3).1 := by
  unfold read_in_old_ascii tape_buffered_read at h
  split_ifs at h with hl
  · simp only at h
    split at h
    · simp at h
    · rename_i fh2 st2 hname
      simp only [Option.some.injEq, Prod.mk.injEq] at h
      obtain ⟨name, n, hfr⟩ := read_name_from_file_frame _ _ _ _ _ hname
      refine ⟨hl, fh2, h.1.symm, ?_⟩
      rw [hfr]
      simp only [decode_field_fst]
      simp

/-- What `read_in_new_ascii` returns holds the numbers decoded from the 104 bytes of the
header. -/
theorem read_in_new_ascii_result (fh fh1 : cpio_file_stat) (st st1 : Globals)
    (h : read_in_new_ascii fh st = some (fh1, st1)) :
    104 ≤ st.tape.length ∧
    fh1.c_mode = (from_ascii ((st.tape.take 104).drop 8) 8 4).1 ∧
    fh1.c_rdev_maj = (from_ascii ((st.tape.take 104).drop 72) 8 4).1 ∧
    fh1.c_rdev_min = (from_ascii ((st.tape.take 104).drop 80) 8 4).1 ∧
    fh1.c_mtime = to_int64 (from_ascii ((st.tape.take 104).drop 40) 8 4).1 ∧
    fh1.c_filesize = to_int64 (from_ascii ((st.tape.take 104).drop 48) 8 4).1 := by
  unfold read_in_new_ascii tape_buffered_read at h
  split_ifs at h with hl
  · simp only at h
    split at h
    · simp at h
    · rename_i fh2 st2 hname
      split at h
      · simp at h
      · simp only [Option.some.injEq, Prod.mk.injEq] at h
        obtain ⟨name, n, hfr⟩ := read_name_from_file_frame _ _ _ _ _ hname
        refine ⟨hl, ?_⟩
        rw [← h.1, hfr]
        simp only [decode_field_fst]
        simp

/-- What `read_in_binary` returns is the HP/UX fix of a descriptor that holds the numbers
decoded from the 13 words of the header. -/
theorem read_in_binary_result (ext : Extern) (fh fh1 : cpio_file_stat) (first6 : List Nat)
    (st st1 : Globals) (h : read_in_binary ext fh first6 st = some (fh1, st1)) :
    20 ≤ st.tape.length ∧
    ∃ fh2 : cpio_file_stat, fh1 = hp_fixup ext fh2 ∧
      fh2.c_mode = short_at (binary_header_words first6 st.tape) 3 ∧
      fh2.c_rdev_maj = ext.major (short_at (binary_header_words first6 st.tape) 7) ∧
      fh2.c_rdev_min = ext.minor (short_at (binary_header_words first6 st.tape) 7) ∧
      fh2.c_mtime = to_int64 ((short_at (binary_header_words first6 st.tape) 8 <<< 16)
        ||| short_at (binary_header_words first6 st.tape) 9) ∧
      fh2.c_filesize = to_int64 ((short_at (binary_header_words first6 st.tape) 11 <<< 16)
        ||| short_at (binary_header_words first6 st.tape) 12) := by
  have hl : 20 ≤ st.tape.length := by
    by_contra hc
    unfold read_in_binary tape_buffered_read at h
    simp [hc] at h
  have hst : st = { st with tape := st.tape.take 20 ++ st.tape.drop 20 } := by
    rw [List.take_append_drop]
  rw [hst, read_in_binary_unfold ext fh first6 (st.tape.take 20) (st.tape.drop 20)
    (binary_header_words first6 st.tape) st _ (by rw [List.length_take]; omega) rfl rfl] at h
  split at h
  · simp at h
  · rename_i fh2 st2 hname
    split at h
    · simp at h
    · simp only [Option.some.injEq, Prod.mk.injEq] at h
      obtain ⟨name, n, hfr⟩ := read_name_from_file_frame _ _ _ _ _ hname
      refine ⟨hl, fh2, h.1.symm, ?_⟩
      rw [hfr]
      exact ⟨rfl, rfl, rfl, rfl, rfl⟩


theorem mem_swab_pairs : ∀ (n : Nat) (l : List Nat) (x : Nat), x ∈ swab_pairs l n → x ∈ l := by
  intro n
  induction n with
  | zero =>
    intro l x h
    cases l with
    | nil => simpa [swab_pairs] using h
    | cons a t =>
      cases t with
      | nil => simpa [swab_pairs] using h
      | cons b r => simpa [swab_pairs] using h
  | succ n ih =>
    intro l x h
    cases l with
    | nil => simpa [swab_pairs] using h
    | cons a t =>
      cases t with
      | nil => simpa [swab_pairs] using h
      | cons b r =>
        simp only [swab_pairs, List.mem_cons] at h ⊢
        rcases h with h | h | h
        · exact Or.inr (Or.inl h)
        · exact Or.inl h
        · exact Or.inr (Or.inr (ih r x h))

theorem binary_header_words_bytes (first6 tape : List Nat)
    (hb : ∀ b ∈ first6 ++ tape.take 20, b < 256) :
    ∀ b ∈ binary_header_words first6 tape, b < 256 := by
  intro b hmem
  unfold binary_header_words at hmem
  split_ifs at hmem
  · exact hb b (mem_swab_pairs _ _ _ hmem)
  · exact hb b hmem

theorem hp_fixup_sizes (ext : Extern) (fh : cpio_file_stat) :
    (hp_fixup ext fh).c_mtime = fh.c_mtime ∧
    ((hp_fixup ext fh).c_filesize = fh.c_filesize ∨ (hp_fixup ext fh).c_filesize = 0) := by
  unfold hp_fixup
  simp only
  split_ifs
  · exact ⟨rfl, Or.inr rfl⟩
  · exact ⟨rfl, Or.inl rfl⟩
  · exact ⟨rfl, Or.inl rfl⟩

theorem to_int64_range (n : Nat) (h : n < 2 ^ 50) : 0 ≤ to_int64 n ∧ to_int64 n < 2 ^ 50 := by
  rw [to_int64_of_lt n (by omega)]
  constructor
  · exact Int.natCast_nonneg n
  · exact_mod_cast h

theorem int_to_uintmax_of_nonneg (i : Int) (h0 : 0 ≤ i) (h1 : i < 2 ^ 64) :
    int_to_uintmax i = i.toNat := by
  unfold int_to_uintmax
  rw [Int.emod_eq_of_lt h0 h1]

/-- C13: whatever the bytes of the header, the descriptor that `read_in_new_ascii`,
`read_in_old_ascii` or `read_in_binary` returns has `c_mtime` and `c_filesize` that are
not negative, and `c_filesize` is at most `SIZE_MAX - 1`; so `get_link_name` on it never
takes the branch "stored filename length is out of range": it reads `c_filesize` bytes
and skips the padding. -/
theorem decoded_sizes_in_range (ext : Extern) (fh fh1 : cpio_file_stat) (first6 : List Nat)
    (st st1 : Globals)
    (h : read_in_new_ascii fh st = some (fh1, st1) ∨
      read_in_old_ascii ext fh st = some (fh1, st1) ∨
      (read_in_binary ext fh first6 st = some (fh1, st1) ∧
        ∀ b ∈ first6 ++ st.tape.take 20, b < 256)) :
    0 ≤ fh1.c_mtime ∧ 0 ≤ fh1.c_filesize ∧ fh1.c_filesize ≤ 2 ^ 64 - 1 - 1 ∧
    ∀ s : Globals, get_link_name fh1 s =
      match tape_buffered_read s fh1.c_filesize.toNat with
      | none => none
      | some (link_name, s1) =>
        match tape_skip_padding s1 fh1.c_filesize with
        | none => none
        | some s2 => some (some (link_name ++ [0]), s2) := by
  have hrange : 0 ≤ fh1.c_mtime ∧ 0 ≤ fh1.c_filesize ∧ fh1.c_filesize < 2 ^ 50 := by
    rcases h with h | h | ⟨h, hb⟩
    · obtain ⟨_, _, _, _, hm, hf⟩ := read_in_new_ascii_result fh fh1 st st1 h
      have r1 := to_int64_range _ (from_ascii_lt ((st.tape.take 104).drop 40) 8 4
        (by norm_num) (by norm_num) (by norm_num))
      have r2 := to_int64_range _ (from_ascii_lt ((st.tape.take 104).drop 48) 8 4
        (by norm_num) (by norm_num) (by norm_num))
      rw [hm, hf]
      exact ⟨r1.1, r2.1, r2.2⟩
    · obtain ⟨_, fh2, hfix, _, _, _, hm, hf⟩ := read_in_old_ascii_result ext fh fh1 st st1 h
      have r1 := to_int64_range _ (from_ascii_lt ((st.tape.take 70).drop 42) 11 3
        (by norm_num) (by norm_num) (by norm_num))
      have r2 := to_int64_range _ (from_ascii_lt ((st.tape.take 70).drop 59) 11 3
        (by norm_num) (by norm_num) (by norm_num))
      obtain ⟨k1, k2⟩ := hp_fixup_sizes ext fh2
      rw [hfix, k1, hm]
      rw [← hf] at r2
      rcases k2 with k2 | k2 <;> rw [k2]
      · exact ⟨r1.1, r2.1, r2.2⟩
      · exact ⟨r1.1, le_refl _, by norm_num⟩
    · obtain ⟨_, fh2, hfix, _, _, _, hm, hf⟩ := read_in_binary_result ext fh fh1 first6 st st1 h
      have hw := binary_header_words_bytes first6 st.tape hb
      have w8 := short_at_lt _ 8 hw
      have w9 := short_at_lt _ 9 hw
      have w11 := short_at_lt _ 11 hw
      have w12 := short_at_lt _ 12 hw
      rw [compose_shorts _ _ w8 w9] at hm
      rw [compose_shorts _ _ w11 w12] at hf
      obtain ⟨k1, k2⟩ := hp_fixup_sizes ext fh2
      rw [hfix, k1, hm]
      rcases k2 with k2 | k2 <;> rw [k2]
      · rw [hf]
        refine ⟨Int.natCast_nonneg _, Int.natCast_nonneg _, ?_⟩
        have : short_at (binary_header_words first6 st.tape) 11 * 65536
            + short_at (binary_header_words first6 st.tape) 12 < 2 ^ 50 := by omega
        exact_mod_cast this
      · exact ⟨Int.natCast_nonneg _, le_refl _, by norm_num⟩
  obtain ⟨h1, h2, h3⟩ := hrange
  refine ⟨h1, h2, by omega, ?_⟩
  intro s
  have hc : ¬ (fh1.c_filesize < 0 ∨ int_to_uintmax fh1.c_filesize > 2 ^ 64 - 1 - 1) := by
    rintro (hneg | hbig)
    · omega
    · rw [int_to_uintmax_of_nonneg _ h2 (by omega)] at hbig
      have : fh1.c_filesize.toNat < 2 ^ 50 := by omega
      omega
  unfold get_link_name
  rw [if_neg hc]


/-! ## The HP/UX fix -/

/-- C12: what `read_in_old_ascii` and `read_in_binary` return is fixed the HP/UX way: when
the decoded mode is that of a character device, a block device, a socket or a FIFO, the
decoded filesize `f` is not 0 and the decoded rdev has major 0 and minor 1, the
descriptor has `c_filesize = 0` and rdev `(major (f), minor (f))`; in every other case
`c_filesize` and rdev are as decoded.  What `read_in_new_ascii` returns always has
`c_filesize` and rdev as decoded. -/
theorem hp_fixup_applied (ext : Extern) (fh fh1 : cpio_file_stat) (first6 : List Nat)
    (st st1 : Globals) :
    (read_in_old_ascii ext fh st = some (fh1, st1) →
      (is_special_mode (from_ascii ((st.tape.take 70).drop 12) 6 3).1 ∧
        to_int64 (from_ascii ((st.tape.take 70).drop 59) 11 3).1 ≠ 0 ∧
        ext.major (from_ascii ((st.tape.take 70).drop 36) 6 3).1 = 0 ∧
        ext.minor (from_ascii ((st.tape.take 70).drop 36) 6 3).1 = 1 →
        fh1.c_filesize = 0 ∧
        fh1.c_rdev_maj = ext.major
          (int_to_uintmax (to_int64 (from_ascii ((st.tape.take 70).drop 59) 11 3).1)) ∧
        fh1.c_rdev_min = ext.minor
          (int_to_uintmax (to_int64 (from_ascii ((st.tape.take 70).drop 59) 11 3).1))) ∧
      (¬ (is_special_mode (from_ascii ((st.tape.take 70).drop 12) 6 3).1 ∧
        to_int64 (from_ascii ((st.tape.take 70).drop 59) 11 3).1 ≠ 0 ∧
        ext.major (from_ascii ((st.tape.take 70).drop 36) 6 3).1 = 0 ∧
        ext.minor (from_ascii ((st.tape.take 70).drop 36) 6 3).1 = 1) →
        fh1.c_filesize = to_int64 (from_ascii ((st.tape.take 70).drop 59) 11 3).1 ∧
        fh1.c_rdev_maj = ext.major (from_ascii ((st.tape.take 70).drop 36) 6 3).1 ∧
        fh1.c_rdev_min = ext.minor (from_ascii ((st.tape.take 70).drop 36) 6 3).1)) ∧
    (read_in_binary ext fh first6 st = some (fh1, st1) →
      (is_special_mode (short_at (binary_header_words first6 st.tape) 3) ∧
        to_int64 ((short_at (binary_header_words first6 st.tape) 11 <<< 16)
          ||| short_at (binary_header_words first6 st.tape) 12) ≠ 0 ∧
        ext.major (short_at (binary_header_words first6 st.tape) 7) = 0 ∧
        ext.minor (short_at (binary_header_words first6 st.tape) 7) = 1 →
        fh1.c_filesize = 0 ∧
        fh1.c_rdev_maj = ext.major (int_to_uintmax
          (to_int64 ((short_at (binary_header_words first6 st.tape) 11 <<< 16)
            ||| short_at (binary_header_words first6 st.tape) 12))) ∧
        fh1.c_rdev_min = ext.minor (int_to_uintmax
          (to_int64 ((short_at (binary_header_words first6 st.tape) 11 <<< 16)
            ||| short_at (binary_header_words first6 st.tape) 12)))) ∧
      (¬ (is_special_mode (short_at (binary_header_words first6 st.tape) 3) ∧
        to_int64 ((short_at (binary_header_words first6 st.tape) 11 <<< 16)
          ||| short_at (binary_header_words first6 st.tape) 12) ≠ 0 ∧
        ext.major (short_at (binary_header_words first6 st.tape) 7) = 0 ∧
        ext.minor (short_at (binary_header_words first6 st.tape) 7) = 1) →
        fh1.c_filesize = to_int64 ((short_at (binary_header_words first6 st.tape) 11 <<< 16)
          ||| short_at (binary_header_words first6 st.tape) 12) ∧
        fh1.c_rdev_maj = ext.major (short_at (binary_header_words first6 st.tape) 7) ∧
        fh1.c_rdev_min = ext.minor (short_at (binary_header_words first6 st.tape) 7))) ∧
    (read_in_new_ascii fh st = some (fh1, st1) →
      fh1.c_filesize = to_int64 (from_ascii ((st.tape.take 104).drop 48) 8 4).1 ∧
      fh1.c_rdev_maj = (from_ascii ((st.tape.take 104).drop 72) 8 4).1 ∧
      fh1.c_rdev_min = (from_ascii ((st.tape.take 104).drop 80) 8 4).1) := by
  have key : ∀ fh2 : cpio_file_stat,
      (is_special_mode fh2.c_mode ∧ fh2.c_filesize ≠ 0 ∧ fh2.c_rdev_maj = 0 ∧
        fh2.c_rdev_min = 1 →
        (hp_fixup ext fh2).c_filesize = 0 ∧
        (hp_fixup ext fh2).c_rdev_maj = ext.major (int_to_uintmax fh2.c_filesize) ∧
        (hp_fixup ext fh2).c_rdev_min = ext.minor (int_to_uintmax fh2.c_filesize)) ∧
      (¬ (is_special_mode fh2.c_mode ∧ fh2.c_filesize ≠ 0 ∧ fh2.c_rdev_maj = 0 ∧
        fh2.c_rdev_min = 1) → hp_fixup ext fh2 = fh2) := by
    intro fh2
    unfold hp_fixup is_special_mode
    simp only
    constructor
    · rintro ⟨hs, hrest⟩
      rw [if_pos hs, if_pos hrest]
      exact ⟨rfl, rfl, rfl⟩
    · intro hn
      split_ifs with hs hrest
      · exact absurd ⟨hs, hrest⟩ hn
      · rfl
      · rfl
  refine ⟨?_, ?_, ?_⟩
  · intro h
    obtain ⟨_, fh2, hfix, hmode, hmaj, hmin, _, hf⟩ := read_in_old_ascii_result ext fh fh1 st st1 h
    obtain ⟨k1, k2⟩ := key fh2
    rw [hmode, hf, hmaj, hmin] at k1 k2
    constructor
    · intro hc
      rw [hfix]
      exact k1 hc
    · intro hc
      rw [hfix, k2 hc]
      exact ⟨hf, hmaj, hmin⟩
  · intro h
    obtain ⟨_, fh2, hfix, hmode, hmaj, hmin, _, hf⟩ :=
      read_in_binary_result ext fh fh1 first6 st st1 h
    obtain ⟨k1, k2⟩ := key fh2
    rw [hmode, hf, hmaj, hmin] at k1 k2
    constructor
    · intro hc
      rw [hfix]
      exact k1 hc
    · intro hc
      rw [hfix, k2 hc]
      exact ⟨hf, hmaj, hmin⟩
  · intro h
    obtain ⟨_, _, hmaj, hmin, _, hf⟩ := read_in_new_ascii_result fh fh1 st st1 h
    exact ⟨hf, hmaj, hmin⟩


/-- C11 on the header of `sample_binary_record` followed by its name: the byte-swapped
header gives the same descriptor, `c_magic` apart, and leaves the archive at the same
position. -/
theorem read_in_binary_swap_transparent_witness :
    (read_in_binary sample_extern CPIO_FILE_STAT_INITIALIZER
        ((swab_array sample_binary_header 13).take 6)
        { initial_state [] with
          tape := (swab_array sample_binary_header 13).drop 6 ++ [97, 0, 120, 0] }).map
        (fun p => (({ p.1 with c_magic := 0 } : cpio_file_stat), p.2.tape))
      = (read_in_binary sample_extern CPIO_FILE_STAT_INITIALIZER (sample_binary_header.take 6)
        { initial_state [] with tape := sample_binary_header.drop 6 ++ [97, 0, 120, 0] }).map
        (fun p => (({ p.1 with c_magic := 0 } : cpio_file_stat), p.2.tape)) :=
  (read_in_binary_swap_transparent sample_extern CPIO_FILE_STAT_INITIALIZER
    sample_binary_header [97, 0, 120, 0] (initial_state []) (by decide) (by decide)
    (by decide)).1

/-- C12 on the HP/UX style old-ascii header `sample_hp_old_ascii`: the character device
gets filesize 0 and the device number (2, 5) that the filesize field holds. -/
theorem hp_fixup_applied_witness :
    ∃ fh1 st1,
      read_in_old_ascii sample_extern CPIO_FILE_STAT_INITIALIZER
        (initial_state sample_hp_old_ascii) = some (fh1, st1) ∧
      fh1.c_filesize = 0 ∧ fh1.c_rdev_maj = 2 ∧ fh1.c_rdev_min = 5 := by
  have hex : ∃ p, read_in_old_ascii sample_extern CPIO_FILE_STAT_INITIALIZER
      (initial_state sample_hp_old_ascii) = some p := by
    rw [Option.isSome_iff_exists.symm]
    decide
  obtain ⟨⟨fh1, st1⟩, hp⟩ := hex
  have h := ((hp_fixup_applied sample_extern CPIO_FILE_STAT_INITIALIZER fh1 []
    (initial_state sample_hp_old_ascii) st1).1 hp).1 (by decide)
  refine ⟨fh1, st1, hp, h.1, ?_, ?_⟩
  · rw [h.2.1]; decide
  · rw [h.2.2]; decide

/-- C13 on the header of `sample_binary_record`: mtime and filesize are in range and
`get_link_name` takes its reading branch. -/
theorem decoded_sizes_in_range_witness :
    ∃ fh1 st1,
      read_in_binary sample_extern CPIO_FILE_STAT_INITIALIZER (sample_binary_header.take 6)
        (initial_state (sample_binary_record.drop 6)) = some (fh1, st1) ∧
      0 ≤ fh1.c_mtime ∧ 0 ≤ fh1.c_filesize ∧ fh1.c_filesize ≤ 2 ^ 64 - 1 - 1 := by
  have hex : ∃ p, read_in_binary sample_extern CPIO_FILE_STAT_INITIALIZER
      (sample_binary_header.take 6) (initial_state (sample_binary_record.drop 6)) = some p := by
    rw [Option.isSome_iff_exists.symm]
    decide
  obtain ⟨⟨fh1, st1⟩, hp⟩ := hex
  have h := decoded_sizes_in_range sample_extern CPIO_FILE_STAT_INITIALIZER fh1
    (sample_binary_header.take 6) (initial_state (sample_binary_record.drop 6)) st1
    (Or.inr (Or.inr ⟨hp, by decide⟩))
  exact ⟨fh1, st1, hp, h.1, h.2.1, h.2.2.1⟩


/-! ## Dynamic strings -/

theorem x2nrealloc_spec (ext : Extern) (s : dynamic_string)
    (hgrow : ∀ n, n < ext.x2nrealloc_size n) (hwf : s.ds_string.length = s.ds_size) :
    (x2nrealloc ext s).ds_idx = s.ds_idx ∧ s.ds_size < (x2nrealloc ext s).ds_size ∧
      (x2nrealloc ext s).ds_string.length = (x2nrealloc ext s).ds_size := by
  have h := hgrow s.ds_size
  unfold x2nrealloc
  refine ⟨rfl, h, ?_⟩
  simp only [List.length_append, List.length_map, List.length_range]
  omega

theorem ds_resize_loop_spec (ext : Extern) (hgrow : ∀ n, n < ext.x2nrealloc_size n)
    (len : Nat) :
    ∀ (fuel : Nat) (s : dynamic_string), s.ds_string.length = s.ds_size →
      len + s.ds_idx < fuel + s.ds_size →
      (ds_resize_loop ext fuel s len).ds_idx = s.ds_idx ∧
      len + s.ds_idx < (ds_resize_loop ext fuel s len).ds_size ∧
      (ds_resize_loop ext fuel s len).ds_string.length
        = (ds_resize_loop ext fuel s len).ds_size := by
  intro fuel
  induction fuel with
  | zero =>
    intro s hwf hf
    unfold ds_resize_loop
    exact ⟨rfl, by omega, hwf⟩
  | succ n ih =>
    intro s hwf hf
    unfold ds_resize_loop
    by_cases hc : len + s.ds_idx ≥ s.ds_size
    · rw [if_pos hc]
      obtain ⟨h1, h2, h3⟩ := x2nrealloc_spec ext s hgrow hwf
      have := ih (x2nrealloc ext s) h3 (by rw [h1]; omega)
      rw [h1] at this
      exact this
    · rw [if_neg hc]
      exact ⟨rfl, by omega, hwf⟩

theorem ds_resize_spec (ext : Extern) (hgrow : ∀ n, n < ext.x2nrealloc_size n)
    (s : dynamic_string) (len : Nat) (hwf : s.ds_string.length = s.ds_size) :
    (ds_resize ext s len).ds_idx = s.ds_idx ∧
      len + s.ds_idx < (ds_resize ext s len).ds_size ∧
      (ds_resize ext s len).ds_string.length = (ds_resize ext s len).ds_size := by
  unfold ds_resize
  exact ds_resize_loop_spec ext hgrow len _ s hwf (by omega)

theorem ds_store_zero_terminated (s : dynamic_string) (c : Nat) (hc : c % 256 = 0)
    (hidx : s.ds_idx < s.ds_size) (hwf : s.ds_string.length = s.ds_size) :
    ds_terminated (ds_store s s.ds_idx c) := by
  unfold ds_terminated ds_store
  refine ⟨hidx, by simpa using hwf, ?_⟩
  simp only [List.get?_eq_getElem?]
  rw [List.getElem?_set_self (by omega), hc]

theorem ds_memcpy_frame : ∀ (str : List Nat) (s : dynamic_string) (i : Nat),
    (ds_memcpy s i str).ds_idx = s.ds_idx ∧ (ds_memcpy s i str).ds_size = s.ds_size ∧
      (ds_memcpy s i str).ds_string.length = s.ds_string.length := by
  intro str
  induction str with
  | nil => intro s i; exact ⟨rfl, rfl, rfl⟩
  | cons c cs ih =>
    intro s i
    unfold ds_memcpy
    obtain ⟨h1, h2, h3⟩ := ih (ds_store s i c) (i + 1)
    refine ⟨h1, h2, ?_⟩
    rw [h3]
    simp [ds_store]

theorem ds_fgetstr_loop_wf (ext : Extern) (hgrow : ∀ n, n < ext.x2nrealloc_size n)
    (eos : Int) : ∀ (f : List Nat) (s : dynamic_string), s.ds_string.length = s.ds_size →
      (ds_fgetstr_loop ext eos f s).1.ds_string.length
        = (ds_fgetstr_loop ext eos f s).1.ds_size := by
  intro f
  induction f with
  | nil => intro s hwf; exact hwf
  | cons c rest ih =>
    intro s hwf
    unfold ds_fgetstr_loop
    by_cases hc : (c : Int) = eos
    · rw [if_pos hc]; exact hwf
    · rw [if_neg hc]
      apply ih
      obtain ⟨_, _, h3⟩ := ds_resize_spec ext hgrow s 0 hwf
      simpa [ds_store] using h3

theorem ds_resize_store_terminated (ext : Extern) (hgrow : ∀ n, n < ext.x2nrealloc_size n)
    (s : dynamic_string) (hwf : s.ds_string.length = s.ds_size) :
    ds_terminated (ds_store (ds_resize ext s 0) (ds_resize ext s 0).ds_idx 0) := by
  obtain ⟨h1, h2, h3⟩ := ds_resize_spec ext hgrow s 0 hwf
  exact ds_store_zero_terminated _ 0 (by decide) (by omega) h3

theorem ds_resize_loop_prefix (ext : Extern) (len : Nat) :
    ∀ (fuel : Nat) (s : dynamic_string) (i : Nat), i < s.ds_string.length →
      (ds_resize_loop ext fuel s len).ds_string.get? i = s.ds_string.get? i := by
  intro fuel
  induction fuel with
  | zero => intro s i _; rfl
  | succ n ih =>
    intro s i hi
    unfold ds_resize_loop
    by_cases hc : len + s.ds_idx ≥ s.ds_size
    · rw [if_pos hc]
      have hx : (x2nrealloc ext s).ds_string.get? i = s.ds_string.get? i := by
        unfold x2nrealloc
        simp only [List.get?_eq_getElem?]
        rw [List.getElem?_append_left hi]
      rw [ih (x2nrealloc ext s) i ?_, hx]
      unfold x2nrealloc
      simp only [List.length_append]
      omega
    · rw [if_neg hc]

/-- C20, the part that does not hold: `ds_init` leaves a string with no storage at all
(`ds_idx = ds_size = 0`), and `ds_reset` stores no zero byte: after `abc` has been
appended to an empty string, `ds_reset (s, 1)` leaves the byte `b` at index `ds_idx`. -/
theorem ds_init_ds_reset_not_terminated :
    ¬ ds_terminated ds_init ∧
    ds_terminated (ds_concat sample_extern ds_init [97, 98, 99, 0]) ∧
    ¬ ds_terminated (ds_reset sample_extern (ds_concat sample_extern ds_init [97, 98, 99, 0]) 1) ∧
    (ds_reset sample_extern (ds_concat sample_extern ds_init [97, 98, 99, 0]) 1).ds_string.get?
      (ds_reset sample_extern (ds_concat sample_extern ds_init [97, 98, 99, 0]) 1).ds_idx
      = some 98 := by
  decide

/-- C20, amended: when every reallocation grows the storage, `ds_append`, `ds_concat`,
`ds_fgetstr` and its wrappers `ds_fgets` and `ds_fgetname` each leave a zero byte at index
`ds_idx`, with `ds_idx < ds_size`, also when the string is empty; `ds_reset (s, len)`
leaves `ds_idx = len < ds_size` and stores nothing. -/
theorem ds_operations_terminated (ext : Extern) (s : dynamic_string)
    (hgrow : ∀ n, n < ext.x2nrealloc_size n) (hwf : s.ds_string.length = s.ds_size) :
    (∀ c, ds_terminated (ds_append ext s c)) ∧
    (∀ str, ds_terminated (ds_concat ext s str)) ∧
    (∀ f eos, ds_terminated (ds_fgetstr ext f s eos).2.1) ∧
    (∀ f, ds_terminated (ds_fgets ext f s).2.1) ∧
    (∀ f, ds_terminated (ds_fgetname ext f s).2.1) ∧
    (∀ len, (ds_reset ext s len).ds_idx = len ∧
      (ds_reset ext s len).ds_idx < (ds_reset ext s len).ds_size ∧
      ∀ i, i < s.ds_string.length →
        (ds_reset ext s len).ds_string.get? i = s.ds_string.get? i) := by
  have hfg : ∀ f eos, ds_terminated (ds_fgetstr ext f s eos).2.1 := by
    intro f eos
    unfold ds_fgetstr
    simp only
    have hwf1 := ds_fgetstr_loop_wf ext hgrow eos f { s with ds_idx := 0 } hwf
    obtain ⟨h1, h2, h3⟩ := ds_resize_spec ext hgrow _ 0 hwf1
    exact ds_store_zero_terminated _ 0 (by decide) (by omega) h3
  refine ⟨?_, ?_, hfg, fun f => hfg f 10, fun f => hfg f 0, ?_⟩
  · intro c
    unfold ds_append
    simp only
    obtain ⟨h1, h2, h3⟩ := ds_resize_spec ext hgrow s 0 hwf
    by_cases hc : c ≠ 0
    · rw [if_pos hc]
      exact ds_resize_store_terminated ext hgrow _ (by simpa [ds_store] using h3)
    · rw [if_neg hc]
      have hc0 : c = 0 := by omega
      subst hc0
      exact ds_store_zero_terminated _ 0 (by decide) (by omega) h3
  · intro str
    unfold ds_concat
    simp only
    obtain ⟨h1, h2, h3⟩ := ds_resize_spec ext hgrow s (cstr str).length hwf
    obtain ⟨m1, m2, m3⟩ := ds_memcpy_frame (cstr str) (ds_resize ext s (cstr str).length)
      (ds_resize ext s (cstr str).length).ds_idx
    have := ds_store_zero_terminated
      { ds_memcpy (ds_resize ext s (cstr str).length)
          (ds_resize ext s (cstr str).length).ds_idx (cstr str) with
        ds_idx := (ds_memcpy (ds_resize ext s (cstr str).length)
          (ds_resize ext s (cstr str).length).ds_idx (cstr str)).ds_idx + (cstr str).length }
      0 (by decide) (by simp only; omega) (by simp only; omega)
    exact this
  · intro len
    obtain ⟨h1, h2, h3⟩ := ds_resize_spec ext hgrow s len hwf
    refine ⟨rfl, ?_, ?_⟩
    · show len < (ds_resize ext s len).ds_size
      omega
    · intro i hi
      exact ds_resize_loop_prefix ext len _ s i hi

/-- C20, amended, on the empty string of `ds_init` with the allocator of `sample_extern`:
appending `a`, and reading a line from an empty file, each leave a terminated string. -/
theorem ds_operations_terminated_witness :
    ds_terminated (ds_append sample_extern ds_init 97) ∧
    ds_terminated (ds_fgets sample_extern [] ds_init).2.1 ∧
    (ds_fgets sample_extern [] ds_init).2.1.ds_idx = 0 :=
  ⟨(ds_operations_terminated sample_extern ds_init
      (by intro n; show n < 2 * n + 1; omega) rfl).1 97,
    (ds_operations_terminated sample_extern ds_init
      (by intro n; show n < 2 * n + 1; omega) rfl).2.2.2.1 [],
    by decide⟩


/-! ## The trailer and the patterns -/

/-- C14: when `read_in_header` has decoded a record with a non-zero `c_namesize` whose
name is `TRAILER!!!`, the main loop is left at once, whatever the options and patterns
and however many iterations it is given: the state in which it is left is the state in
which `read_in_header` returned, so no byte of the archive is consumed after the header,
nothing is listed, verified, extracted, deferred or reported for the record, and no
later record is read. -/
theorem trailer_leaves_main_loop (ext : Extern) (fuel : Nat) (file_hdr file_hdr1 : cpio_file_stat)
    (st st1 : Globals)
    (hread : read_in_header ext file_hdr
      { st with swapping_halfwords := false, swapping_bytes := false } = some (file_hdr1, st1))
    (hsize : file_hdr1.c_namesize ≠ 0)
    (hname : cstr file_hdr1.c_name = CPIO_TRAILER_NAME) :
    select_record ext file_hdr1 st1 = Selection.trailer ∧
    main_loop ext (fuel + 1) file_hdr st = Run.left file_hdr1 st1 ∧
    process_copy_in ext (fuel + 1) file_hdr st = Run.left file_hdr1 (finish_copy_in ext st1) := by
  have hsel : select_record ext file_hdr1 st1 = Selection.trailer := by
    unfold select_record
    rw [if_neg hsize, if_pos hname]
  have hloop : main_loop ext (fuel + 1) file_hdr st = Run.left file_hdr1 st1 := by
    unfold main_loop
    simp only [hread, hsel]
  refine ⟨hsel, hloop, ?_⟩
  unfold process_copy_in
  rw [hloop]

/-- C14 on a trailer record followed by the bytes 1, 2, 3, with listing, checksum
verification and a pattern asked for: the loop is left with those three bytes unread and
nothing reported. -/
theorem trailer_leaves_main_loop_witness :
    ∃ file_hdr1 st1,
      main_loop sample_extern 5 CPIO_FILE_STAT_INITIALIZER sample_trailer_state
        = Run.left file_hdr1 st1 ∧
      st1.tape = [1, 2, 3] ∧ st1.log = [] ∧ st1.deferments = [] := by
  have hex : ∃ p, read_in_header sample_extern CPIO_FILE_STAT_INITIALIZER
      { sample_trailer_state with swapping_halfwords := false, swapping_bytes := false }
        = some p ∧ p.1.c_namesize ≠ 0 ∧ cstr p.1.c_name = CPIO_TRAILER_NAME ∧
        p.2.tape = [1, 2, 3] ∧ p.2.log = [] ∧ p.2.deferments = [] := by
    decide
  obtain ⟨⟨file_hdr1, st1⟩, hp, hs, hn, h1, h2, h3⟩ := hex
  exact ⟨file_hdr1, st1,
    (trailer_leaves_main_loop sample_extern 4 CPIO_FILE_STAT_INITIALIZER file_hdr1
      sample_trailer_state st1 hp hs hn).2.1, h1, h2, h3⟩

theorem match_patterns_eq (ext : Extern) (cmf : Bool) (name : List Nat) :
    ∀ ps : List (List Nat),
      match_patterns ext cmf name ps cmf
        = if ∃ p ∈ ps, ext.fnmatch p name = 0 then !cmf else cmf := by
  intro ps
  induction ps with
  | nil => simp [match_patterns]
  | cons p ps ih =>
    unfold match_patterns
    simp only [if_true]
    by_cases hp : ext.fnmatch p name = 0
    · rw [if_pos hp, if_pos ⟨p, List.mem_cons_self _ _, hp⟩]
      cases ps with
      | nil => simp [match_patterns]
      | cons q qs =>
        unfold match_patterns
        cases cmf <;> simp
    · rw [if_neg hp, ih]
      have hiff : (∃ q ∈ p :: ps, ext.fnmatch q name = 0) ↔ ∃ q ∈ ps, ext.fnmatch q name = 0 := by
        constructor
        · rintro ⟨q, hq, hm⟩
          rcases List.mem_cons.mp hq with rfl | hq
          · exact absurd hm hp
          · exact ⟨q, hq, hm⟩
        · rintro ⟨q, hq, hm⟩
          exact ⟨q, List.mem_cons_of_mem _ hq, hm⟩
      simp only [hiff]

/-- C15: for a record with a non-zero `c_namesize` whose name is not `TRAILER!!!`, the
main loop goes on with the sanitized name and `skip_file = false` when there are no
patterns; with patterns, `skip_file = false` if and only if `copy_matching_files` is
true and some pattern matches the sanitized name by `fnmatch`, or `copy_matching_files`
is false and no pattern matches it. -/
theorem pattern_selection (ext : Extern) (file_hdr : cpio_file_stat) (st : Globals)
    (hsize : file_hdr.c_namesize ≠ 0)
    (hname : cstr file_hdr.c_name ≠ CPIO_TRAILER_NAME) :
    ∃ skip_file,
      select_record ext file_hdr st
        = Selection.record
            { file_hdr with
              c_name := ext.cpio_safer_name_suffix file_hdr.c_name (!st.no_abs_paths_flag) }
            skip_file ∧
      (st.save_patterns = [] → skip_file = false) ∧
      (st.save_patterns ≠ [] →
        (skip_file = false ↔
          (st.copy_matching_files = true ∧
            ∃ p ∈ st.save_patterns, ext.fnmatch p
              (ext.cpio_safer_name_suffix file_hdr.c_name (!st.no_abs_paths_flag)) = 0) ∨
          (st.copy_matching_files = false ∧
            ∀ p ∈ st.save_patterns, ext.fnmatch p
              (ext.cpio_safer_name_suffix file_hdr.c_name (!st.no_abs_paths_flag)) ≠ 0))) := by
  unfold select_record
  rw [if_neg hsize, if_neg hname]
  simp only
  by_cases hp : st.save_patterns.length ≤ 0
  · have hnil : st.save_patterns = [] := List.length_eq_zero.mp (by omega)
    rw [if_pos hp]
    exact ⟨false, rfl, fun _ => rfl, fun h => absurd hnil h⟩
  · rw [if_neg hp]
    refine ⟨_, rfl, ?_, ?_⟩
    · intro hnil
      rw [hnil] at hp
      simp at hp
    · intro _
      rw [match_patterns_eq]
      by_cases hm : ∃ p ∈ st.save_patterns, ext.fnmatch p
          (ext.cpio_safer_name_suffix file_hdr.c_name (!st.no_abs_paths_flag)) = 0
      · rw [if_pos hm]
        have hnall : ¬ ∀ p ∈ st.save_patterns, ext.fnmatch p
            (ext.cpio_safer_name_suffix file_hdr.c_name (!st.no_abs_paths_flag)) ≠ 0 := by
          obtain ⟨p, hp1, hp2⟩ := hm
          exact fun h => h p hp1 hp2
        cases hc : st.copy_matching_files <;> simp [hm, hnall]
      · rw [if_neg hm]
        have hall : ∀ p ∈ st.save_patterns, ext.fnmatch p
            (ext.cpio_safer_name_suffix file_hdr.c_name (!st.no_abs_paths_flag)) ≠ 0 :=
          fun p hp1 hp2 => hm ⟨p, hp1, hp2⟩
        cases hc : st.copy_matching_files
        · simpa using hall
        · simp [hm]

/-- C15 on the record `link` with the patterns `x` and `link`: the second one matches,
so the record is selected. -/
theorem pattern_selection_witness :
    ∃ skip_file,
      select_record sample_extern sample_deferred
          { initial_state [] with save_patterns := [[120, 0], [108, 105, 110, 107, 0]] }
        = Selection.record
            { sample_deferred with
              c_name := sample_extern.cpio_safer_name_suffix sample_deferred.c_name true }
            skip_file ∧
      skip_file = false := by
  obtain ⟨skip_file, h1, _, h3⟩ := pattern_selection sample_extern sample_deferred
    { initial_state [] with save_patterns := [[120, 0], [108, 105, 110, 107, 0]] }
    (by decide) (by decide)
  exact ⟨skip_file, h1,
    (h3 (by decide)).mpr (Or.inl ⟨rfl, [108, 105, 110, 107, 0], by decide, by decide⟩)⟩


/-! ## What the steps of the main loop keep -/

theorem Frame.refl (st : Globals) : Frame st st :=
  { options := rfl, format := rfl, log := ⟨[], by simp, by simp⟩,
    deferments := fun h => Or.inl h, no_deferment := id, sublist := List.Sublist.refl _ }

theorem Step.step_trans {st st1 st2 : Globals} (h1 : Step st st1) (h2 : Step st1 st2) :
    Step st st2 := by
  obtain ⟨evs1, hl1, hs1⟩ := h1.log
  obtain ⟨evs2, hl2, hs2⟩ := h2.log
  have hopt := h1.options
  unfold loop_options at hopt
  simp only [Prod.mk.injEq] at hopt
  refine { options := h2.options.trans h1.options, format := h2.format.trans h1.format,
           log := ⟨evs1 ++ evs2, by rw [hl2, hl1, List.append_assoc], ?_⟩, deferments := ?_ }
  · intro hn e he
    rcases List.mem_append.mp he with he | he
    · exact hs1 hn e he
    · exact hs2 (by rw [hopt.2.2.2.2]; exact hn) e he
  · intro hd
    rcases h2.deferments hd with h | ⟨hf, hs⟩
    · exact h1.deferments h
    · right
      unfold new_format at hf ⊢
      rw [h1.format] at hf
      rw [hopt.2.2.2.1] at hs
      exact ⟨hf, hs⟩

theorem Frame.trans {st st1 st2 : Globals} (h1 : Frame st st1) (h2 : Frame st1 st2) :
    Frame st st2 :=
  { Step.step_trans h1.toStep h2.toStep with
    no_deferment := fun h => h1.no_deferment (h2.no_deferment h)
    sublist := h2.sublist.trans h1.sublist }

/-- A state that differs from `st` in none of the options, the format, the log and
`deferments` is a frame step away. -/
theorem Frame.of_eq {st st1 : Globals} (ho : loop_options st1 = loop_options st)
    (hf : st1.archive_format = st.archive_format) (hl : st1.log = st.log)
    (hd : st1.deferments = st.deferments) : Frame st st1 :=
  { options := ho, format := hf, log := ⟨[], by simp [hl], by simp⟩,
    deferments := fun h => Or.inl (by rw [← hd]; exact h),
    no_deferment := fun h => by rw [← hd]; exact h,
    sublist := by rw [hd] }

/-- Events that are no call of `UMASKED_SYMLINK` are a frame step. -/
theorem report_frame (st : Globals) (evs : List Event)
    (h : ∀ e ∈ evs, is_symlink_call e = false) : Frame st (report st evs) :=
  { options := rfl, format := rfl, log := ⟨evs, rfl, fun _ => h⟩,
    deferments := fun h => Or.inl h, no_deferment := id, sublist := List.Sublist.refl _ }

theorem tape_toss_input_frame {st st1 : Globals} {n : Int}
    (h : tape_toss_input st n = some st1) : Frame st st1 := by
  unfold tape_toss_input at h
  by_cases hc : n.toNat ≤ st.tape.length
  · rw [if_pos hc] at h
    cases h
    exact Frame.of_eq rfl rfl rfl rfl
  · rw [if_neg hc] at h
    cases h

theorem tape_skip_padding_frame {st st1 : Globals} {n : Int}
    (h : tape_skip_padding st n = some st1) : Frame st st1 := by
  unfold tape_skip_padding at h
  simp only at h
  split_ifs at h
  · exact tape_toss_input_frame h
  · cases h
    exact Frame.refl _

theorem toss_payload_frame {st st1 : Globals} {file_hdr : cpio_file_stat}
    (h : toss_payload st file_hdr = some st1) : Frame st st1 := by
  unfold toss_payload at h
  split at h
  · cases h
  · rename_i st2 h2
    exact (tape_toss_input_frame h2).trans (tape_skip_padding_frame h)

theorem tape_buffered_read_frame {st st1 : Globals} {n : Nat} {bytes : List Nat}
    (h : tape_buffered_read st n = some (bytes, st1)) : Frame st st1 := by
  unfold tape_buffered_read at h
  split_ifs at h
  cases h
  exact Frame.of_eq rfl rfl rfl rfl

theorem do_call_frame (ext : Extern) (st : Globals) (c : Call)
    (h : ∀ res, is_symlink_call (Event.call c res) = false) : Frame st (do_call ext st c).2 := by
  unfold do_call
  apply report_frame
  intro e he
  simp only [List.mem_singleton] at he
  subst he
  exact h _

theorem frame_ite {st a b : Globals} (c : Prop) [Decidable c] (h1 : Frame st a)
    (h2 : Frame st b) : Frame st (if c then a else b) := by
  split_ifs
  · exact h1
  · exact h2

theorem frame_ite_snd {α : Type} {st : Globals} {a b : α × Globals} (c : Prop) [Decidable c]
    (h1 : Frame st a.2) (h2 : Frame st b.2) : Frame st (if c then a else b).2 := by
  split_ifs
  · exact h1
  · exact h2

theorem report_if_frame (st : Globals) (c : Prop) [Decidable c] (evs : List Event)
    (h : ∀ e ∈ evs, is_symlink_call e = false) :
    Frame st (if c then report st evs else st) :=
  frame_ite c (report_frame _ _ h) (Frame.refl _)

theorem do_stat_frame (ext : Extern) (st : Globals) (c : Call) :
    Frame st (do_stat ext st c).2 := by
  unfold do_stat
  apply report_frame
  intro e he
  simp only [List.mem_singleton] at he
  subst he
  rfl

theorem do_close_frame (ext : Extern) (st : Globals) (fd : Int) :
    Frame st (do_close ext st fd).2 := by
  unfold do_close
  apply report_frame
  intro e he
  simp only [List.mem_singleton] at he
  subst he
  rfl

theorem link_to_maj_min_ino_frame (ext : Extern) (st : Globals) (name : List Nat)
    (maj min ino : Nat) : Frame st (link_to_maj_min_ino ext st name maj min ino).2 := by
  unfold link_to_maj_min_ino
  apply report_frame
  intro e he
  simp only [List.mem_singleton] at he
  subst he
  rfl

theorem link_to_name_frame (ext : Extern) (st : Globals) (a b : List Nat) :
    Frame st (link_to_name ext st a b).2 := by
  unfold link_to_name
  apply report_frame
  intro e he
  simp only [List.mem_singleton] at he
  subst he
  rfl

theorem chown_or_report_frame (ext : Extern) (st : Globals) (c : Call) (name : List Nat)
    (uid gid : Nat) (h : ∀ res, is_symlink_call (Event.call c res) = false) :
    Frame st (chown_or_report ext st c name uid gid) := by
  unfold chown_or_report
  simp only
  split_ifs
  · exact (do_call_frame ext st c h).trans (report_frame _ _ (by simp [is_symlink_call]))
  · exact do_call_frame ext st c h

theorem from_ascii_events (w : List Nat) (d lb : Nat) :
    ∀ e ∈ (from_ascii w d lb).2, is_symlink_call e = false := by
  intro e he
  unfold from_ascii at he
  simp only at he
  split at he
  · simp at he
  · split_ifs at he <;> simp at he <;>
      first
      | (rcases he with he | he <;> subst he <;> rfl)
      | (subst he; rfl)

theorem decode_field_frame (st : Globals) (buf : List Nat) (off len lb : Nat) :
    Frame st (decode_field st buf off len lb).2 :=
  report_frame _ _ (from_ascii_events _ _ _)

theorem read_name_from_file_step {fh fh1 : cpio_file_stat} {st st1 : Globals} {len : Nat}
    (h : read_name_from_file fh st len = some (fh1, st1)) : Frame st st1 := by
  unfold read_name_from_file at h
  split_ifs at h with h0
  · simp only [Option.some.injEq, Prod.mk.injEq] at h
    rw [← h.2]
    exact report_frame _ _ (by simp [is_symlink_call])
  · split at h
    · simp at h
    · rename_i name st2 hr
      have hf := tape_buffered_read_frame hr
      split_ifs at h <;> simp only [Option.some.injEq, Prod.mk.injEq] at h <;> rw [← h.2]
      · exact hf.trans (report_frame _ _ (by simp [is_symlink_call]))
      · exact hf


theorem read_in_new_ascii_frame {fh fh1 : cpio_file_stat} {st st1 : Globals}
    (h : read_in_new_ascii fh st = some (fh1, st1)) : Frame st st1 := by
  unfold read_in_new_ascii at h
  split at h
  · cases h
  · rename_i hd st0 hr
    simp only at h
    split at h
    · cases h
    · rename_i fh2 st2 hn
      split at h
      · cases h
      · rename_i st3 hp
        simp only [Option.some.injEq, Prod.mk.injEq] at h
        rw [← h.2]
        refine Frame.trans ?_ (tape_skip_padding_frame hp)
        refine Frame.trans ?_ (read_name_from_file_step hn)
        refine Frame.trans (tape_buffered_read_frame hr) ?_
        iterate 13 refine Frame.trans ?_ (decode_field_frame _ _ _ _ _)
        exact Frame.refl _

theorem read_in_old_ascii_frame {ext : Extern} {fh fh1 : cpio_file_stat} {st st1 : Globals}
    (h : read_in_old_ascii ext fh st = some (fh1, st1)) : Frame st st1 := by
  unfold read_in_old_ascii at h
  split at h
  · cases h
  · rename_i hd st0 hr
    simp only at h
    split at h
    · cases h
    · rename_i fh2 st2 hn
      simp only [Option.some.injEq, Prod.mk.injEq] at h
      rw [← h.2]
      refine Frame.trans ?_ (read_name_from_file_step hn)
      refine Frame.trans (tape_buffered_read_frame hr) ?_
      iterate 10 refine Frame.trans ?_ (decode_field_frame _ _ _ _ _)
      exact Frame.refl _

theorem read_in_binary_frame {ext : Extern} {fh fh1 : cpio_file_stat} {first6 : List Nat}
    {st st1 : Globals} (h : read_in_binary ext fh first6 st = some (fh1, st1)) :
    Frame st st1 := by
  unfold read_in_binary at h
  simp only at h
  split at h
  · cases h
  · rename_i more st0 hr
    split at h
    · cases h
    · rename_i fh2 st2 hn
      split at h
      · cases h
      · rename_i st3 hp
        simp only [Option.some.injEq, Prod.mk.injEq] at h
        rw [← h.2]
        have h3 : Frame st2 st3 := by
          split_ifs at hp
          · exact tape_toss_input_frame hp
          · cases hp; exact Frame.refl _
        refine Frame.trans ?_ h3
        refine Frame.trans ?_ (read_name_from_file_step hn)
        refine Frame.trans (tape_buffered_read_frame hr) ?_
        split_ifs
        · exact Frame.trans (@Frame.of_eq st0 { st0 with warned := true } rfl rfl rfl rfl)
            (report_frame _ _ (by simp [is_symlink_call]))
        · exact Frame.refl _

theorem decode_header_frame {ext : Extern} {fh fh1 : cpio_file_stat} {magic : List Nat}
    {st st1 : Globals} (h : decode_header ext fh magic st = some (fh1, st1)) :
    Frame st st1 := by
  unfold decode_header at h
  split_ifs at h
  · exact read_in_new_ascii_frame h
  · exact read_in_old_ascii_frame h
  · exact read_in_binary_frame h

theorem warn_junk_frame (st : Globals) (n : Nat) : Frame st (warn_junk st n) := by
  unfold warn_junk
  split_ifs
  · exact report_frame _ _ (by simp [is_symlink_call])
  · exact Frame.refl _

/-- What `find_magic` changes in the state it is entered with: the format, `crc_i_flag`
and nothing else but the position in the archive. -/
theorem find_magic_keeps (ext : Extern) (st : Globals) :
    ∀ (tape : List Nat) (n : Nat) (st1 : Globals) (m : Nat),
      find_magic ext st tape n = some (st1, m) →
      loop_options st1 = loop_options st ∧ st1.log = st.log ∧
        st1.deferments = st.deferments := by
  intro tape
  induction tape with
  | nil => intro n st1 m h; simp [find_magic] at h
  | cons b rest ih =>
    intro n st1 m h
    unfold find_magic at h
    simp only at h
    split_ifs at h
    split at h
    · simp only [Option.some.injEq, Prod.mk.injEq] at h
      rw [← h.1]
      exact ⟨rfl, rfl, rfl⟩
    · exact ih _ _ _ h

/-- What `read_in_header` keeps: the options, `deferments`, and the format when it is
known; it only adds to the log, and no call of `UMASKED_SYMLINK`. -/
theorem read_in_header_keeps (ext : Extern) (htar : tar_reader_frame ext)
    {fh fh1 : cpio_file_stat} {st st1 : Globals}
    (h : read_in_header ext fh st = some (fh1, st1)) :
    loop_options st1 = loop_options st ∧
    (st.archive_format ≠ arf_unknown → st1.archive_format = st.archive_format) ∧
    (∃ evs, st1.log = st.log ++ evs ∧
      (st.no_abs_paths_flag = true → ∀ e ∈ evs, is_symlink_call e = false)) ∧
    (st1.deferments ≠ [] → st.deferments ≠ []) := by
  unfold read_in_header at h
  simp only at h
  split at h
  · cases h
  · rename_i st0 n hfound
    have h0 : loop_options st0 = loop_options st ∧
        (st.archive_format ≠ arf_unknown → st0.archive_format = st.archive_format) ∧
        st0.log = st.log ∧ st0.deferments = st.deferments := by
      split_ifs at hfound with hu
      · obtain ⟨a, b, c⟩ := find_magic_keeps ext st _ _ _ _ hfound
        exact ⟨a, fun hn => absurd hu hn, b, c⟩
      · simp only [Option.some.injEq, Prod.mk.injEq] at hfound
        rw [← hfound.1]
        exact ⟨rfl, fun _ => rfl, rfl, rfl⟩
    have hrest : Frame st0 st1 := by
      split_ifs at h
      · exact (warn_junk_frame _ _).trans (htar _ _ _ _ h)
      · split at h
        · cases h
        · rename_i magic st2 hr
          split at h
          · cases h
          · rename_i m magic1 tape n1 hs
            have hd := decode_header_frame h
            refine Frame.trans (tape_buffered_read_frame hr) ?_
            refine Frame.trans ?_ hd
            exact Frame.trans (@Frame.of_eq st2 { st2 with tape := tape } rfl rfl rfl rfl)
              (warn_junk_frame _ _)
    obtain ⟨a, b, c, d⟩ := h0
    obtain ⟨evs, hl, hs⟩ := hrest.log
    have hopt := a
    unfold loop_options at hopt
    simp only [Prod.mk.injEq] at hopt
    refine ⟨hrest.options.trans a, fun hn => hrest.format.trans (b hn), ⟨evs, ?_, ?_⟩, ?_⟩
    · rw [hl, c]
    · intro hn
      exact hs (by rw [hopt.2.2.2.2]; exact hn)
    · intro hne
      rw [← d]
      exact hrest.no_deferment hne


/-- Events reported when `no_abs_paths_flag` is off are a frame step whatever they are. -/
theorem report_frame_of (st : Globals) (evs : List Event)
    (h : st.no_abs_paths_flag = true → ∀ e ∈ evs, is_symlink_call e = false) :
    Frame st (report st evs) :=
  { options := rfl, format := rfl, log := ⟨evs, rfl, h⟩,
    deferments := fun h => Or.inl h, no_deferment := id, sublist := List.Sublist.refl _ }

theorem do_call_frame_of (ext : Extern) (st : Globals) (c : Call)
    (h : st.no_abs_paths_flag = true → ∀ res, is_symlink_call (Event.call c res) = false) :
    Frame st (do_call ext st c).2 := by
  unfold do_call
  apply report_frame_of
  intro hn e he
  simp only [List.mem_singleton] at he
  subst he
  exact h hn _

/-- A call that is made again after `create_all_directories` when it has failed and
`create_dir_flag` is set. -/
theorem retry_frame (ext : Extern) (st : Globals) (c : Call) (name : List Nat) (p : Prop)
    [Decidable p]
    (h : st.no_abs_paths_flag = true → ∀ res, is_symlink_call (Event.call c res) = false) :
    Frame st (if p then
      do_call ext (report (do_call ext st c).2 [Event.create_all_directories name]) c
      else do_call ext st c).2 :=
  frame_ite_snd _
    (((do_call_frame_of ext st c h).trans
      (report_frame _ _ (by simp [is_symlink_call]))).trans
      (do_call_frame_of ext _ c h))
    (do_call_frame_of ext st c h)

theorem get_link_name_frame {fh : cpio_file_stat} {st st1 : Globals}
    {r : Option (List Nat)} (h : get_link_name fh st = some (r, st1)) : Frame st st1 := by
  unfold get_link_name at h
  split_ifs at h
  · simp only [Option.some.injEq, Prod.mk.injEq] at h
    rw [← h.2]
    exact report_frame _ _ (by simp [is_symlink_call])
  · split at h
    · cases h
    · rename_i link_name st2 hr
      split at h
      · cases h
      · rename_i st3 hp
        simp only [Option.some.injEq, Prod.mk.injEq] at h
        rw [← h.2]
        exact (tape_buffered_read_frame hr).trans (tape_skip_padding_frame hp)

theorem list_file_frame {fh : cpio_file_stat} {st st1 : Globals}
    (h : list_file fh st = some st1) : Frame st st1 := by
  unfold list_file at h
  by_cases hc : st.verbose_flag = true ∧ fh.c_mode &&& CP_IFMT = CP_IFLNK
  · rw [if_pos hc] at h
    by_cases hf : st.archive_format ≠ arf_tar ∧ st.archive_format ≠ arf_ustar
    · rw [if_pos hf] at h
      split at h
      · cases h
      · rename_i st2 hg
        cases h
        exact get_link_name_frame hg
      · rename_i link_name st2 hg
        cases h
        exact (get_link_name_frame hg).trans (report_frame _ _ (by simp [is_symlink_call]))
    · rw [if_neg hf] at h
      cases h
      exact report_frame _ _ (by simp [is_symlink_call])
  · rw [if_neg hc] at h
    simp only at h
    split at h
    · cases h
    · rename_i st2 ht
      have h0 : Frame st (if st.verbose_flag = true then
          report st [Event.long_format fh.c_name none]
          else report st [Event.print_name fh.c_name st.name_end]) := by
        split_ifs <;> exact report_frame _ _ (by simp [is_symlink_call])
      have h1 : Frame st st2 := by
        refine Frame.trans ?_ (toss_payload_frame ht)
        exact h0.trans (Frame.of_eq rfl rfl rfl rfl)
      split_ifs at h <;> cases h
      · exact h1
      · exact h1.trans (report_frame _ _ (by simp [is_symlink_call]))
      · exact h1
      · exact h1

theorem verify_crc_frame {fh : cpio_file_stat} {st st1 : Globals}
    (h : verify_crc fh st = some st1) : Frame st st1 := by
  unfold verify_crc at h
  split_ifs at h
  · exact toss_payload_frame h
  · split at h
    · cases h
    · rename_i st2 ht
      simp only [Option.some.injEq] at h
      rw [← h]
      have h1 : Frame st st2 :=
        Frame.trans (@Frame.of_eq st { st with crc := 0 } rfl rfl rfl rfl)
          (toss_payload_frame ht)
      refine Frame.trans ?_ (report_if_frame _ _ _ (by simp [is_symlink_call]))
      refine Frame.trans ?_ (report_if_frame _ _ _ (by simp [is_symlink_call]))
      exact Frame.trans h1 (report_if_frame _ _ _ (by simp [is_symlink_call]))

theorem try_existing_file_frame {ext : Extern} {fh : cpio_file_stat} {st st1 : Globals}
    {res : Int} {dir : Bool} (h : try_existing_file ext fh st = some (res, dir, st1)) :
    Frame st st1 := by
  unfold try_existing_file at h
  simp only at h
  have h0 := do_stat_frame ext st (Call.lstat fh.c_name)
  split at h
  · rename_i file_stat hs
    have hu := h0.trans (do_call_frame ext _
      (if S_ISDIR file_stat.st_mode then Call.rmdir fh.c_name else Call.unlink fh.c_name)
      (fun _ => by split_ifs <;> rfl))
    by_cases c1 : S_ISDIR file_stat.st_mode ∧ fh.c_mode &&& CP_IFMT = CP_IFDIR
    · rw [if_pos c1] at h
      simp only [Option.some.injEq, Prod.mk.injEq] at h
      rw [← h.2.2]; exact h0
    · rw [if_neg c1] at h
      by_cases c2 : ¬ st.unconditional_flag = true ∧ fh.c_mtime ≤ file_stat.st_mtime
      · rw [if_pos c2] at h
        split at h
        · cases h
        · rename_i st2 ht
          simp only [Option.some.injEq, Prod.mk.injEq] at h
          rw [← h.2.2]
          exact (h0.trans (report_frame _ _ (by simp [is_symlink_call]))).trans
            (toss_payload_frame ht)
      · rw [if_neg c2] at h
        by_cases c3 : (do_call ext (do_stat ext st (Call.lstat fh.c_name)).2
            (if S_ISDIR file_stat.st_mode then Call.rmdir fh.c_name
              else Call.unlink fh.c_name)).1 ≠ 0
        · rw [if_pos c3] at h
          split at h
          · cases h
          · rename_i st2 ht
            simp only [Option.some.injEq, Prod.mk.injEq] at h
            rw [← h.2.2]
            exact (hu.trans (report_frame _ _ (by simp [is_symlink_call]))).trans
              (toss_payload_frame ht)
        · rw [if_neg c3] at h
          simp only [Option.some.injEq, Prod.mk.injEq] at h
          rw [← h.2.2]; exact hu
  · simp only [Option.some.injEq, Prod.mk.injEq] at h
    rw [← h.2.2]; exact h0

theorem copyin_device_mknod_frame (ext : Extern) (fh : cpio_file_stat) (st : Globals) :
    Frame st (copyin_device_mknod ext fh st) := by
  unfold copyin_device_mknod
  simp only
  have h1 := retry_frame ext st
    (Call.mknod fh.c_name fh.c_mode fh.c_rdev_maj fh.c_rdev_min) fh.c_name
    ((do_call ext st (Call.mknod fh.c_name fh.c_mode fh.c_rdev_maj fh.c_rdev_min)).1 < 0 ∧
      st.create_dir_flag) (fun _ _ => rfl)
  apply frame_ite
  · exact h1.trans (report_frame _ _ (by simp [is_symlink_call]))
  · refine Frame.trans ?_ (frame_ite _
      (do_call_frame ext _ (Call.set_file_times fh.c_name fh.c_mtime false) (fun _ => rfl))
      (Frame.refl _))
    refine Frame.trans ?_ (report_if_frame _ _ _ (by simp [is_symlink_call]))
    refine Frame.trans ?_ (do_call_frame ext _ (Call.chmod fh.c_name fh.c_mode) (fun _ => rfl))
    exact Frame.trans h1 (frame_ite _
      (chown_or_report_frame ext _
        (Call.chown fh.c_name (owner_of st fh.c_uid) (group_of st fh.c_gid))
        fh.c_name (owner_of st fh.c_uid) (group_of st fh.c_gid) (fun _ => rfl))
      (Frame.refl _))

theorem copyin_device_frame (ext : Extern) (fh : cpio_file_stat) (st : Globals) :
    Frame st (copyin_device ext fh st) := by
  unfold copyin_device
  apply frame_ite _ (Frame.refl _)
  apply frame_ite
  · exact frame_ite _ (link_to_maj_min_ino_frame _ _ _ _ _ _)
      ((link_to_maj_min_ino_frame _ _ _ _ _ _).trans (copyin_device_mknod_frame _ _ _))
  · split
    · apply frame_ite _ _ (copyin_device_mknod_frame _ _ _)
      exact frame_ite _
        ((link_to_name_frame _ _ _ _).trans (report_frame _ _ (by simp [is_symlink_call])))
        (link_to_name_frame _ _ _ _)
    · exact copyin_device_mknod_frame _ _ _


theorem Step.no_abs {st st1 : Globals} (h : Step st st1) :
    st1.no_abs_paths_flag = st.no_abs_paths_flag := by
  have := h.options
  unfold loop_options at this
  simp only [Prod.mk.injEq] at this
  exact this.2.2.2.2

theorem Step.flags {st st1 : Globals} (h : Step st st1) :
    st1.append_flag = st.append_flag ∧ st1.table_flag = st.table_flag ∧
      st1.only_verify_crc_flag = st.only_verify_crc_flag ∧
      st1.to_stdout_option = st.to_stdout_option := by
  have := h.options
  unfold loop_options at this
  simp only [Prod.mk.injEq] at this
  exact ⟨this.1, this.2.1, this.2.2.1, this.2.2.2.1⟩

theorem symlink_placeholder_frame (ext : Extern) (oldpath newpath : List Nat)
    (fs : cpio_file_stat) (st : Globals) :
    Frame st (symlink_placeholder ext oldpath newpath fs st).2 := by
  unfold symlink_placeholder
  simp only
  have h1 := retry_frame ext st (Call.open_excl newpath) newpath
    ((do_call ext st (Call.open_excl newpath)).1 < 0 ∧ st.create_dir_flag) (fun _ _ => rfl)
  apply frame_ite_snd
  · exact h1.trans (report_frame _ _ (by simp [is_symlink_call]))
  · split
    · exact ((h1.trans (do_stat_frame _ _ _)).trans
        (report_frame _ _ (by simp [is_symlink_call]))).trans (do_close_frame _ _ _)
    · exact ((h1.trans (do_stat_frame _ _ _)).trans (do_close_frame _ _ _)).trans
        (Frame.of_eq rfl rfl rfl rfl)

theorem copyin_link_create_frame (ext : Extern) (fh : cpio_file_stat) (link_name : List Nat)
    (st : Globals) : Frame st (copyin_link_create ext fh link_name st) := by
  unfold copyin_link_create
  by_cases hn : st.no_abs_paths_flag = true
  · rw [if_pos hn]
    exact symlink_placeholder_frame _ _ _ _ _
  · rw [if_neg hn]
    simp only
    have h1 := retry_frame ext st (Call.symlink link_name fh.c_name fh.c_mode) fh.c_name
      ((do_call ext st (Call.symlink link_name fh.c_name fh.c_mode)).1 < 0 ∧
        st.create_dir_flag) (fun h => absurd h hn)
    refine Frame.trans ?_ (frame_ite _
      (do_call_frame ext _ (Call.set_file_times fh.c_name fh.c_mtime true) (fun _ => rfl))
      (Frame.refl _))
    refine Frame.trans h1 ?_
    apply frame_ite
    · exact report_frame _ _ (by simp [is_symlink_call])
    · exact frame_ite _
        (chown_or_report_frame ext _
          (Call.lchown fh.c_name (owner_of st fh.c_uid) (group_of st fh.c_gid))
          fh.c_name (owner_of st fh.c_uid) (group_of st fh.c_gid) (fun _ => rfl))
        (Frame.refl _)

theorem copyin_link_frame {ext : Extern} {fh : cpio_file_stat} {st st1 : Globals}
    (h : copyin_link ext fh st = some st1) : Frame st st1 := by
  unfold copyin_link at h
  by_cases hf : st.archive_format ≠ arf_tar ∧ st.archive_format ≠ arf_ustar
  · rw [if_pos hf] at h
    by_cases ho : st.to_stdout_option = true
    · rw [if_pos ho] at h
      exact toss_payload_frame h
    · rw [if_neg ho] at h
      split at h
      · cases h
      · rename_i st2 hg
        cases h
        exact get_link_name_frame hg
      · rename_i link_name st2 hg
        cases h
        exact (get_link_name_frame hg).trans (copyin_link_create_frame _ _ _ _)
  · rw [if_neg hf] at h
    by_cases ho : st.to_stdout_option = true
    · rw [if_pos ho] at h
      cases h
      exact Frame.refl _
    · rw [if_neg ho] at h
      split at h
      · cases h
      · cases h
        exact copyin_link_create_frame _ _ _ _

theorem create_defered_links_loop_frame (ext : Extern) (hdr : cpio_file_stat) :
    ∀ (ds : List cpio_file_stat) (st : Globals),
      Frame st (create_defered_links_loop ext hdr ds st).2 ∧
      (create_defered_links_loop ext hdr ds st).1
        = ds.filter (fun d => ¬ same_file d hdr) := by
  intro ds
  induction ds with
  | nil => intro st; exact ⟨Frame.refl _, rfl⟩
  | cons d ds ih =>
    intro st
    unfold create_defered_links_loop
    by_cases hs : same_file d hdr
    · simp only [if_pos hs]
      obtain ⟨h1, h2⟩ := ih (if (link_to_name ext st d.c_name hdr.c_name).1 < 0 then
          report (link_to_name ext st d.c_name hdr.c_name).2
            [Event.cannot_link d.c_name hdr.c_name]
        else (link_to_name ext st d.c_name hdr.c_name).2)
      refine ⟨Frame.trans ?_ h1, ?_⟩
      · exact (link_to_name_frame _ _ _ _).trans
          (report_if_frame _ _ _ (by simp [is_symlink_call]))
      · rw [h2]
        simp [hs]
    · simp only [if_neg hs]
      obtain ⟨h1, h2⟩ := ih st
      refine ⟨h1, ?_⟩
      rw [h2]
      simp [hs]

theorem create_defered_links_deferments (ext : Extern) (hdr : cpio_file_stat) (st : Globals) :
    (create_defered_links ext hdr st).deferments
      = st.deferments.filter (fun d => ¬ same_file d hdr) :=
  (create_defered_links_loop_frame ext hdr st.deferments st).2

theorem create_defered_links_frame (ext : Extern) (hdr : cpio_file_stat) (st : Globals) :
    Frame st (create_defered_links ext hdr st) := by
  obtain ⟨h1, h2⟩ := create_defered_links_loop_frame ext hdr st.deferments st
  have hd : (create_defered_links ext hdr st).deferments ≠ [] → st.deferments ≠ [] := by
    rw [create_defered_links_deferments]
    intro hne hnil
    rw [hnil] at hne
    exact hne rfl
  exact { options := h1.options, format := h1.format, log := h1.log,
          deferments := fun h => Or.inl (hd h), no_deferment := hd,
          sublist := by
            rw [create_defered_links_deferments]
            exact List.filter_sublist _ }

theorem copy_files_tape_to_disk_frame {st st1 : Globals} {fd n : Int}
    (h : copy_files_tape_to_disk st fd n = some st1) : Frame st st1 := by
  unfold copy_files_tape_to_disk at h
  by_cases hc : n.toNat ≤ st.tape.length
  · rw [if_pos hc] at h
    cases h
    refine Frame.trans ?_ (report_frame _ _ (by simp [is_symlink_call]))
    exact Frame.of_eq rfl rfl rfl rfl
  · rw [if_neg hc] at h
    cases h

theorem check_crc_frame (st : Globals) (fh : cpio_file_stat) : Frame st (check_crc st fh) :=
  report_if_frame _ _ _ (by simp [is_symlink_call])


theorem swap_flags_frame (st : Globals) (c d : Prop) [Decidable c] [Decidable d]
    (a : Globals) (evs : List Event) (ha : Frame st a)
    (hevs : ∀ e ∈ evs, is_symlink_call e = false) :
    Frame st (if c then (if d then a else report st evs) else st) :=
  frame_ite _ (frame_ite _ ha (report_frame _ _ hevs)) (Frame.refl _)

theorem copyin_regular_file_data_frame {ext : Extern} {fh : cpio_file_stat} {fd : Int}
    {st st1 : Globals} (h : copyin_regular_file_data ext fh fd st = some st1) :
    Frame st st1 := by
  unfold copyin_regular_file_data at h
  simp only at h
  split at h
  · cases h
  · rename_i st2 hcopy
    have h2 : Frame st st2 := by
      refine Frame.trans ?_ (copy_files_tape_to_disk_frame hcopy)
      refine Frame.trans ?_ (swap_flags_frame _ _ _ _ _ ?ha (by simp [is_symlink_call]))
      case ha => exact Frame.of_eq rfl rfl rfl rfl
      refine Frame.trans ?_ (swap_flags_frame _ _ _ _ _ ?hb (by simp [is_symlink_call]))
      case hb => exact Frame.of_eq rfl rfl rfl rfl
      exact Frame.of_eq rfl rfl rfl rfl
    have h3 := h2.trans (report_frame st2 [Event.disk_empty_output_buffer fd]
      (by simp [is_symlink_call]))
    by_cases ho : (report st2 [Event.disk_empty_output_buffer fd]).to_stdout_option = true
    · rw [if_pos ho] at h
      exact (h3.trans (check_crc_frame _ _)).trans (tape_skip_padding_frame h)
    · rw [if_neg ho] at h
      split at h
      · cases h
      · rename_i st3 hp
        have h4 : Frame st st3 := by
          refine Frame.trans ?_ (tape_skip_padding_frame hp)
          refine Frame.trans ?_ (check_crc_frame _ _)
          refine Frame.trans ?_ (report_if_frame _ _ _ (by simp [is_symlink_call]))
          refine Frame.trans ?_ (report_frame _ _ (by simp [is_symlink_call]))
          exact h3.trans (report_frame _ _ (by simp [is_symlink_call]))
        split_ifs at h <;> cases h
        · exact h4.trans (create_defered_links_frame _ _ _)
        · exact h4

theorem report_frame1 (st : Globals) (e : Event) (h : is_symlink_call e = false) :
    Frame st (report st [e]) :=
  report_frame _ _ (by intro x hx; simp only [List.mem_singleton] at hx; subst hx; exact h)

theorem copyin_regular_file_open_frame {ext : Extern} {fh : cpio_file_stat}
    {st st1 : Globals} (h : copyin_regular_file_open ext fh st = some st1) :
    Frame st st1 := by
  unfold copyin_regular_file_open at h
  simp only at h
  have h1 := report_frame1 st (Event.open_file fh.c_name (ext.sys_open st.log fh.c_name)) rfl
  have h2 := (h1.trans (report_frame1 _ (Event.create_all_directories fh.c_name) rfl)).trans
    (report_frame1 _ (Event.open_file fh.c_name (ext.sys_open
      (report (report st [Event.open_file fh.c_name (ext.sys_open st.log fh.c_name)])
        [Event.create_all_directories fh.c_name]).log fh.c_name)) rfl)
  split_ifs at h
  · exact (h2.trans (report_frame1 _ (Event.open_error fh.c_name) rfl)).trans
      (toss_payload_frame h)
  · exact h2.trans (copyin_regular_file_data_frame h)
  · exact (h1.trans (report_frame1 _ (Event.open_error fh.c_name) rfl)).trans
      (toss_payload_frame h)
  · exact h1.trans (copyin_regular_file_data_frame h)

/-- Unless it defers the record, `copyin_regular_file` is a frame step. -/
theorem copyin_regular_file_frame {ext : Extern} {fh : cpio_file_stat} {st st1 : Globals}
    (h : copyin_regular_file ext fh st = some st1)
    (hnd : ¬ (st.to_stdout_option = false ∧ fh.c_nlink > 1 ∧ new_format st ∧
      fh.c_filesize = 0)) : Frame st st1 := by
  unfold copyin_regular_file at h
  have hl := link_to_maj_min_ino_frame ext st fh.c_name fh.c_dev_maj fh.c_dev_min fh.c_ino
  by_cases ho : st.to_stdout_option = true
  · rw [if_pos ho] at h
    exact copyin_regular_file_data_frame h
  · rw [if_neg ho] at h
    by_cases hn : fh.c_nlink > 1 ∧
        (st.archive_format = arf_newascii ∨ st.archive_format = arf_crcascii)
    · rw [if_pos hn] at h
      by_cases h0 : fh.c_filesize = 0
      · exact absurd ⟨by simpa using ho, hn.1, hn.2, h0⟩ hnd
      · rw [if_neg h0] at h
        simp only at h
        split_ifs at h
        · exact hl.trans (toss_payload_frame h)
        · exact hl.trans (copyin_regular_file_open_frame h)
    · rw [if_neg hn] at h
      by_cases hn2 : fh.c_nlink > 1 ∧ st.archive_format ≠ arf_tar ∧
          st.archive_format ≠ arf_ustar
      · rw [if_pos hn2] at h
        simp only at h
        split_ifs at h
        · exact hl.trans (toss_payload_frame h)
        · exact hl.trans (copyin_regular_file_open_frame h)
      · rw [if_neg hn2] at h
        split at h
        · rename_i c linkname hlink
          by_cases ht : (st.archive_format = arf_tar ∨ st.archive_format = arf_ustar) ∧ c ≠ 0
          · rw [if_pos ht] at h
            simp only at h
            by_cases hr : (link_to_name ext st fh.c_name (c :: linkname)).1 < 0
            · rw [if_pos hr] at h
              cases h
              exact (link_to_name_frame _ _ _ _).trans
                (report_frame1 _ (Event.cannot_link (c :: linkname) fh.c_name) rfl)
            · rw [if_neg hr] at h
              cases h
              exact link_to_name_frame _ _ _ _
          · rw [if_neg ht] at h
            exact copyin_regular_file_open_frame h
        · exact copyin_regular_file_open_frame h

theorem copyin_regular_file_step {ext : Extern} {fh : cpio_file_stat} {st st1 : Globals}
    (h : copyin_regular_file ext fh st = some st1) : Step st st1 := by
  by_cases hd : st.to_stdout_option = false ∧ fh.c_nlink > 1 ∧ new_format st ∧
      fh.c_filesize = 0
  · unfold copyin_regular_file at h
    rw [if_neg (by simp [hd.1]), if_pos ⟨hd.2.1, hd.2.2.1⟩, if_pos hd.2.2.2] at h
    have h1 : Step st (defer_copyin st fh) :=
      { options := rfl, format := rfl, log := ⟨[], by simp [defer_copyin], by simp⟩,
        deferments := fun _ => Or.inr ⟨hd.2.2.1, hd.1⟩ }
    exact h1.step_trans (toss_payload_frame h).toStep
  · exact (copyin_regular_file_frame h hd).toStep

theorem remove_first_same_file_sublist (fh : cpio_file_stat) :
    ∀ (l : List cpio_file_stat) (d : cpio_file_stat) (rest : List cpio_file_stat),
      remove_first_same_file fh l = some (d, rest) → rest.Sublist l := by
  intro l
  induction l with
  | nil => intro d rest h; simp [remove_first_same_file] at h
  | cons x xs ih =>
    intro d rest h
    unfold remove_first_same_file at h
    split_ifs at h
    · simp only [Option.some.injEq, Prod.mk.injEq] at h
      rw [← h.2]
      exact List.sublist_cons_self _ _
    · split at h
      · cases h
      · rename_i e r hr
        simp only [Option.some.injEq, Prod.mk.injEq] at h
        rw [← h.2]
        exact (ih e r hr).cons₂ x

theorem remove_first_same_file_ne_nil (fh : cpio_file_stat) :
    ∀ (l : List cpio_file_stat) (d : cpio_file_stat) (rest : List cpio_file_stat),
      remove_first_same_file fh l = some (d, rest) → l ≠ [] := by
  intro l d rest h hl
  rw [hl] at h
  simp [remove_first_same_file] at h

theorem create_defered_links_to_skipped_frame {ext : Extern} {fh fh1 : cpio_file_stat}
    {st st1 : Globals} {res : Int}
    (h : create_defered_links_to_skipped ext fh st = some (res, fh1, st1)) :
    Frame st st1 := by
  unfold create_defered_links_to_skipped at h
  by_cases h0 : fh.c_filesize = 0
  · rw [if_pos h0] at h
    simp only [Option.some.injEq, Prod.mk.injEq] at h
    rw [← h.2.2]; exact Frame.refl _
  · rw [if_neg h0] at h
    split at h
    · simp only [Option.some.injEq, Prod.mk.injEq] at h
      rw [← h.2.2]; exact Frame.refl _
    · rename_i d rest hr
      have hne := remove_first_same_file_ne_nil fh _ _ _ hr
      simp only at h
      split at h
      · cases h
      · rename_i st2 hc
        simp only [Option.some.injEq, Prod.mk.injEq] at h
        rw [← h.2.2]
        have hs := copyin_regular_file_step hc
        have hfr := copyin_regular_file_frame hc (fun hx => h0 hx.2.2.2)
        exact { options := hs.options, format := hs.format, log := hs.log,
                deferments := fun _ => Or.inl hne, no_deferment := fun _ => hne,
                sublist := hfr.sublist.trans (remove_first_same_file_sublist fh _ _ _ hr) }

theorem process_skipped_frame {ext : Extern} {fh fh1 : cpio_file_stat} {st st1 : Globals}
    (h : process_skipped ext fh st = some (fh1, st1)) : Frame st st1 := by
  unfold process_skipped at h
  split_ifs at h
  · split at h
    · cases h
    · rename_i res fh2 st2 hc
      have h2 := create_defered_links_to_skipped_frame hc
      split_ifs at h
      · split at h
        · cases h
        · rename_i st3 ht
          simp only [Option.some.injEq, Prod.mk.injEq] at h
          rw [← h.2]
          exact h2.trans (toss_payload_frame ht)
      · simp only [Option.some.injEq, Prod.mk.injEq] at h
        rw [← h.2]
        exact h2
  · split at h
    · cases h
    · rename_i st2 ht
      simp only [Option.some.injEq, Prod.mk.injEq] at h
      rw [← h.2]
      exact toss_payload_frame ht

theorem copyin_file_step {ext : Extern} {fh : cpio_file_stat} {st st1 : Globals}
    (h : copyin_file ext fh st = some st1) : Step st st1 := by
  unfold copyin_file at h
  simp only at h
  split at h
  · cases h
  · rename_i res dir st2 hpre
    have h2 : Frame st st2 := by
      by_cases ho : ¬ st.to_stdout_option = true
      · rw [if_pos ho] at hpre
        exact try_existing_file_frame hpre
      · rw [if_neg ho] at hpre
        simp only [Option.some.injEq, Prod.mk.injEq] at hpre
        rw [← hpre.2.2]; exact Frame.refl _
    split_ifs at h
    · cases h; exact h2.toStep
    · exact h2.toStep.step_trans (copyin_regular_file_step h)
    · cases h
      exact (h2.trans (do_call_frame ext _
        (Call.cpio_create_dir fh.c_name fh.c_mode dir) (fun _ => rfl))).toStep
    · cases h
      exact (h2.trans (copyin_device_frame _ _ _)).toStep
    · exact (h2.trans (copyin_link_frame h)).toStep
    · exact (h2.trans ((report_frame1 _ (Event.unknown_file_type fh.c_name) rfl).trans
        (toss_payload_frame h))).toStep

theorem frame_ite_map {α : Type} {st : Globals} (f : α → Globals) (c : Prop) [Decidable c]
    {a b : α} (h1 : Frame st (f a)) (h2 : Frame st (f b)) :
    Frame st (f (if c then a else b)) := by
  split_ifs
  · exact h1
  · exact h2

theorem query_rename_frame (ext : Extern) (fh : cpio_file_stat) (st : Globals) :
    Frame st (query_rename ext fh st).2.2 := by
  unfold query_rename
  simp only
  have h1 : Frame st (if st.rename_flag = true then report st [Event.rename_prompt fh.c_name]
      else st) := report_if_frame _ _ _ (by simp [is_symlink_call])
  apply frame_ite_map (fun q : Int × cpio_file_stat × Globals => q.2.2)
  · exact h1.trans (Frame.of_eq rfl rfl rfl rfl)
  · exact h1.trans (Frame.of_eq rfl rfl rfl rfl)

theorem extract_record_step {ext : Extern} {fh fh1 : cpio_file_stat} {st st1 : Globals}
    (h : extract_record ext fh st = some (fh1, st1)) : Step st st1 := by
  unfold extract_record at h
  simp only at h
  have hq : Frame st (if st.rename_flag = true ∨ st.rename_batch_file = true then
      query_rename ext fh st else (0, fh, st)).2.2 :=
    frame_ite_map (fun q : Int × cpio_file_stat × Globals => q.2.2) _
      (query_rename_frame _ _ _) (Frame.refl _)
  generalize (if st.rename_flag = true ∨ st.rename_batch_file = true then
      query_rename ext fh st else (0, fh, st)) = q at h hq
  split_ifs at h
  · split at h
    · cases h
    · rename_i st2 ht
      simp only [Option.some.injEq, Prod.mk.injEq] at h
      rw [← h.2]
      exact (hq.trans (toss_payload_frame ht)).toStep
  · split at h
    · cases h
    · rename_i st2 hc
      simp only [Option.some.injEq, Prod.mk.injEq] at h
      rw [← h.2]
      refine Step.step_trans ?_ (report_if_frame _ _ _ (by simp [is_symlink_call])).toStep
      refine Step.step_trans ?_ (report_if_frame _ _ _ (by simp [is_symlink_call])).toStep
      exact hq.toStep.step_trans (copyin_file_step hc)


/-! ## The main loop -/

theorem dispatch_record_step {ext : Extern} {fh fh1 : cpio_file_stat} {skip : Bool}
    {st st1 : Globals} (h : dispatch_record ext fh skip st = some (fh1, st1)) :
    Step st st1 ∧
    (st1.deferments ≠ [] → st.deferments = [] →
      st.table_flag = false ∧ st.append_flag = false ∧ st.only_verify_crc_flag = false) := by
  unfold dispatch_record at h
  have frame_case : Frame st st1 → Step st st1 ∧
      (st1.deferments ≠ [] → st.deferments = [] →
        st.table_flag = false ∧ st.append_flag = false ∧ st.only_verify_crc_flag = false) :=
    fun hf => ⟨hf.toStep, fun h1 h0 => absurd h0 (hf.no_deferment h1)⟩
  by_cases hs : skip = true
  · rw [if_pos hs] at h
    exact frame_case (process_skipped_frame h)
  · rw [if_neg hs] at h
    by_cases ht : st.table_flag = true
    · rw [if_pos ht] at h
      split at h
      · cases h
      · rename_i st2 hl
        simp only [Option.some.injEq, Prod.mk.injEq] at h
        obtain ⟨-, rfl⟩ := h
        exact frame_case (list_file_frame hl)
    · rw [if_neg ht] at h
      by_cases ha : st.append_flag = true
      · rw [if_pos ha] at h
        split at h
        · cases h
        · rename_i st2 hl
          simp only [Option.some.injEq, Prod.mk.injEq] at h
          obtain ⟨-, rfl⟩ := h
          exact frame_case (toss_payload_frame hl)
      · rw [if_neg ha] at h
        by_cases hv : st.only_verify_crc_flag = true
        · rw [if_pos hv] at h
          split at h
          · cases h
          · rename_i st2 hl
            simp only [Option.some.injEq, Prod.mk.injEq] at h
            obtain ⟨-, rfl⟩ := h
            exact frame_case (verify_crc_frame hl)
        · rw [if_neg hv] at h
          exact ⟨extract_record_step h, fun _ _ =>
            ⟨by simpa using ht, by simpa using ha, by simpa using hv⟩⟩

theorem dispatch_record_invariant {ext : Extern} {fh fh1 : cpio_file_stat} {skip : Bool}
    {st st1 : Globals} (h : dispatch_record ext fh skip st = some (fh1, st1))
    (hinv : deferments_invariant st) : deferments_invariant st1 := by
  obtain ⟨hstep, hflags⟩ := dispatch_record_step h
  obtain ⟨f1, f2, f3, f4⟩ := hstep.flags
  intro hne
  unfold new_format
  rw [hstep.format, f1, f2, f3, f4]
  by_cases h0 : st.deferments = []
  · rcases hstep.deferments hne with h1 | ⟨hf, ho⟩
    · exact absurd h0 h1
    · obtain ⟨a, b, c⟩ := hflags hne h0
      exact ⟨hf, b, a, c, ho⟩
  · exact hinv h0

/-- What a run of the main loop keeps, whether it has been left at the trailer or is
still running: the options; it only adds to the log, and no call of `UMASKED_SYMLINK`
when `no_abs_paths_flag` is set; and the invariant on `deferments`. -/
theorem main_loop_keeps (ext : Extern) (htar : tar_reader_frame ext) :
    ∀ (fuel : Nat) (fh : cpio_file_stat) (st : Globals) (fh1 : cpio_file_stat) (st1 : Globals),
      (main_loop ext fuel fh st = Run.left fh1 st1 ∨
        main_loop ext fuel fh st = Run.running fh1 st1) →
      loop_options st1 = loop_options st ∧
      (∃ evs, st1.log = st.log ++ evs ∧
        (st.no_abs_paths_flag = true → ∀ e ∈ evs, is_symlink_call e = false)) ∧
      (deferments_invariant st → deferments_invariant st1) := by
  intro fuel
  induction fuel with
  | zero =>
    intro fh st fh1 st1 h
    unfold main_loop at h
    rcases h with h | h
    · cases h
    · cases h
      exact ⟨rfl, ⟨[], by simp, by simp⟩, id⟩
  | succ n ih =>
    intro fh st fh1 st1 h
    unfold main_loop at h
    split at h
    · rcases h with h | h <;> cases h
    · rename_i fh2 st2 hread
      obtain ⟨r1, r2, ⟨evs1, r3, r4⟩, r5⟩ := read_in_header_keeps ext htar hread
      have hinv2 : deferments_invariant st → deferments_invariant st2 := by
        intro hinv hne
        have hne0 : st.deferments ≠ [] := r5 hne
        obtain ⟨a, b, c, d, e⟩ := hinv hne0
        have hfmt : st.archive_format ≠ arf_unknown := by
          unfold new_format at a
          rcases a with a | a <;> rw [a] <;> decide
        have r2' := r2 hfmt
        have ro := r1
        unfold loop_options at ro
        simp only [Prod.mk.injEq] at ro
        unfold new_format
        rw [r2', ro.1, ro.2.1, ro.2.2.1, ro.2.2.2.1]
        exact ⟨a, b, c, d, e⟩
      split at h
      · rcases h with h | h
        · cases h
          exact ⟨r1, ⟨evs1, r3, r4⟩, hinv2⟩
        · cases h
      · rename_i fh3 skip hsel
        split at h
        · rcases h with h | h <;> cases h
        · rename_i fh4 st3 hdisp
          obtain ⟨i1, ⟨evs3, i2, i3⟩, i4⟩ := ih fh4 st3 fh1 st1 h
          obtain ⟨hstep, _⟩ := dispatch_record_step hdisp
          obtain ⟨evs2, d1, d2⟩ := hstep.log
          have ro := r1
          unfold loop_options at ro
          simp only [Prod.mk.injEq] at ro
          refine ⟨i1.trans (hstep.options.trans r1), ⟨evs1 ++ (evs2 ++ evs3), ?_, ?_⟩, ?_⟩
          · rw [i2, d1, r3]
            simp [List.append_assoc]
          · intro hn e he
            have hn2 : st2.no_abs_paths_flag = true := by rw [ro.2.2.2.2]; exact hn
            have hn3 : st3.no_abs_paths_flag = true := by rw [hstep.no_abs]; exact hn2
            rcases List.mem_append.mp he with he | he
            · exact r4 hn e he
            · rcases List.mem_append.mp he with he | he
              · exact d2 hn2 e he
              · exact i3 hn3 e he
          · intro hinv
            exact i4 (dispatch_record_invariant hdisp (hinv2 hinv))


/-! ## The end of `process_copy_in` -/

theorem link_to_maj_min_ino_calls_append (a b : List Event) :
    link_to_maj_min_ino_calls (a ++ b)
      = link_to_maj_min_ino_calls a ++ link_to_maj_min_ino_calls b := by
  induction a with
  | nil => rfl
  | cons e a ih =>
    cases e <;> simp [link_to_maj_min_ino_calls, ih]

theorem open_output_log (ext : Extern) (st : Globals) (name : List Nat) :
    (open_output ext st name).2.deferments = st.deferments ∧
    ∃ evs, (open_output ext st name).2.log = st.log ++ evs ∧
      link_to_maj_min_ino_calls evs = [] := by
  unfold open_output
  simp only
  split_ifs
  · refine ⟨rfl, ?_⟩
    simp only [report, List.append_assoc]
    exact ⟨_, rfl, rfl⟩
  · exact ⟨rfl, _, rfl, rfl⟩

theorem create_final_defer_file_log (ext : Extern) (d : cpio_file_stat) (fd : Int)
    (st : Globals) :
    (create_final_defer_file ext d fd st).deferments = st.deferments ∧
    ∃ evs, (create_final_defer_file ext d fd st).log = st.log ++ evs ∧
      link_to_maj_min_ino_calls evs = [] := by
  unfold create_final_defer_file
  simp only
  split_ifs
  · exact ⟨rfl, _, rfl, rfl⟩
  · refine ⟨rfl, ?_⟩
    simp only [report, do_close, List.append_assoc]
    exact ⟨_, rfl, rfl⟩
  · refine ⟨rfl, ?_⟩
    simp only [report, do_close, List.append_assoc]
    exact ⟨_, rfl, rfl⟩

theorem create_final_defer_log (ext : Extern) (d : cpio_file_stat) (st : Globals) :
    (create_final_defer ext d st).deferments = st.deferments ∧
    ∃ res evs,
      (create_final_defer ext d st).log
        = st.log ++ Event.link_to_maj_min_ino d.c_name d.c_dev_maj d.c_dev_min d.c_ino res :: evs ∧
      link_to_maj_min_ino_calls evs = [] := by
  unfold create_final_defer
  simp only
  have hr : (link_to_maj_min_ino ext st d.c_name d.c_dev_maj d.c_dev_min d.c_ino).2.deferments
        = st.deferments ∧
      (link_to_maj_min_ino ext st d.c_name d.c_dev_maj d.c_dev_min d.c_ino).2.log
        = st.log ++ [Event.link_to_maj_min_ino d.c_name d.c_dev_maj d.c_dev_min d.c_ino
            (link_to_maj_min_ino ext st d.c_name d.c_dev_maj d.c_dev_min d.c_ino).1] :=
    ⟨rfl, rfl⟩
  generalize link_to_maj_min_ino ext st d.c_name d.c_dev_maj d.c_dev_min d.c_ino = r at hr ⊢
  by_cases h1 : r.1 = 0
  · rw [if_pos h1]
    exact ⟨hr.1, r.1, [], hr.2, rfl⟩
  · rw [if_neg h1]
    obtain ⟨o1, evs1, o2, o3⟩ := open_output_log ext r.2 d.c_name
    obtain ⟨f1, evs2, f2, f3⟩ := create_final_defer_file_log ext d
      (open_output ext r.2 d.c_name).1 (open_output ext r.2 d.c_name).2
    refine ⟨by rw [f1, o1, hr.1], r.1, evs1 ++ evs2, ?_, ?_⟩
    · rw [f2, o2, hr.2]
      simp [List.append_assoc]
    · rw [link_to_maj_min_ino_calls_append, o3, f3]
      rfl

/-- The loop of `create_final_defers` calls `link_to_maj_min_ino` once for every entry of
the list, in order, and leaves `deferments` as it is. -/
theorem create_final_defers_loop_log (ext : Extern) :
    ∀ (ds : List cpio_file_stat) (st : Globals),
      (create_final_defers_loop ext ds st).deferments = st.deferments ∧
      ∃ evs, (create_final_defers_loop ext ds st).log = st.log ++ evs ∧
        link_to_maj_min_ino_calls evs
          = ds.map (fun d => (d.c_name, d.c_dev_maj, d.c_dev_min, d.c_ino)) := by
  intro ds
  induction ds with
  | nil => intro st; exact ⟨rfl, [], by simp [create_final_defers_loop], rfl⟩
  | cons d ds ih =>
    intro st
    unfold create_final_defers_loop
    obtain ⟨a1, res, evs1, a2, a3⟩ := create_final_defer_log ext d st
    obtain ⟨b1, evs2, b2, b3⟩ := ih (create_final_defer ext d st)
    refine ⟨by rw [b1, a1], Event.link_to_maj_min_ino d.c_name d.c_dev_maj d.c_dev_min d.c_ino res
      :: (evs1 ++ evs2), ?_, ?_⟩
    · rw [b2, a2]
      simp [List.append_assoc]
    · simp only [link_to_maj_min_ino_calls, link_to_maj_min_ino_calls_append, a3, b3,
        List.nil_append, List.map_cons]


theorem kept_report (st : Globals) (evs : List Event) :
    kept_at_end (report st evs) = kept_at_end st := rfl

theorem kept_do_call (ext : Extern) (st : Globals) (c : Call) :
    kept_at_end (do_call ext st c).2 = kept_at_end st := rfl

theorem kept_do_stat (ext : Extern) (st : Globals) (c : Call) :
    kept_at_end (do_stat ext st c).2 = kept_at_end st := rfl

theorem kept_chown_or_report (ext : Extern) (st : Globals) (c : Call) (name : List Nat)
    (uid gid : Nat) : kept_at_end (chown_or_report ext st c name uid gid) = kept_at_end st := by
  unfold chown_or_report
  simp only
  split_ifs <;> rfl

theorem replace_symlink_placeholder_kept (ext : Extern) (dl : delayed_link) (st : Globals) :
    kept_at_end (replace_symlink_placeholder ext dl st) = kept_at_end st := by
  unfold replace_symlink_placeholder
  simp only
  split
  · rfl
  · split_ifs <;>
      simp only [kept_report, kept_do_call, kept_do_stat, kept_chown_or_report]

theorem replace_symlink_placeholders_loop_kept (ext : Extern) :
    ∀ (l : List delayed_link) (st : Globals),
      kept_at_end (replace_symlink_placeholders_loop ext l st) = kept_at_end st := by
  intro l
  induction l with
  | nil => intro st; rfl
  | cons dl rest ih =>
    intro st
    unfold replace_symlink_placeholders_loop
    rw [ih, replace_symlink_placeholder_kept]

theorem finish_symlinks_kept (ext : Extern) (st : Globals) :
    kept_at_end (finish_symlinks ext st) = kept_at_end st := by
  unfold finish_symlinks replace_symlink_placeholders
  simp only
  show kept_at_end (replace_symlink_placeholders_loop ext _ _) = _
  rw [replace_symlink_placeholders_loop_kept]
  split_ifs <;> rfl

/-- C19: in a run of the main loop that starts with nothing deferred and is left at the
trailer, the list `deferments` is not empty only when the format is new-ascii or new-crc
and `append_flag`, `table_flag`, `only_verify_crc_flag` and `to_stdout_option` are all
off; so when it is not empty, the end of `process_copy_in` runs `create_final_defers`
on that list, and `create_final_defers` calls `link_to_maj_min_ino` for every entry of
it, in order.  The tar reader, which is not part of the sources, is asked to keep the
options, the format and the list. -/
theorem deferments_never_lost (ext : Extern) (fuel : Nat) (fh fh1 : cpio_file_stat)
    (st st1 : Globals) (htar : tar_reader_frame ext) (h0 : st.deferments = [])
    (hrun : main_loop ext fuel fh st = Run.left fh1 st1) :
    deferments_invariant st1 ∧
    (st1.deferments ≠ [] →
      (finish_symlinks ext st1).deferments = st1.deferments ∧
      finish_copy_in ext st1
        = (if ¬ (create_final_defers ext (finish_symlinks ext st1)).quiet_flag then
            report (create_final_defers ext (finish_symlinks ext st1)) [Event.blocks_message]
          else create_final_defers ext (finish_symlinks ext st1)) ∧
      ∃ evs,
        (create_final_defers ext (finish_symlinks ext st1)).log
          = (finish_symlinks ext st1).log ++ evs ∧
        link_to_maj_min_ino_calls evs
          = st1.deferments.map (fun d => (d.c_name, d.c_dev_maj, d.c_dev_min, d.c_ino))) := by
  obtain ⟨_, _, hinv⟩ := main_loop_keeps ext htar fuel fh st fh1 st1 (Or.inl hrun)
  have hinv1 : deferments_invariant st1 := hinv (fun hne => absurd h0 hne)
  refine ⟨hinv1, ?_⟩
  intro hne
  obtain ⟨hfmt, happ, _, _, _⟩ := hinv1 hne
  have hk := finish_symlinks_kept ext st1
  unfold kept_at_end at hk
  simp only [Prod.mk.injEq] at hk
  obtain ⟨k1, k2, k3⟩ := hk
  refine ⟨k1, ?_, ?_⟩
  · unfold finish_copy_in
    simp only
    unfold new_format at hfmt
    have hf2 : (finish_symlinks ext st1).archive_format = arf_newascii ∨
        (finish_symlinks ext st1).archive_format = arf_crcascii := by rw [k2]; exact hfmt
    have ha2 : ¬ (finish_symlinks ext st1).append_flag = true := by rw [k3, happ]; simp
    simp only [if_neg ha2, if_pos hf2]
  · obtain ⟨_, evs, e1, e2⟩ := create_final_defers_loop_log ext
      (finish_symlinks ext st1).deferments (finish_symlinks ext st1)
    refine ⟨evs, e1, ?_⟩
    rw [e2, k1]


/-! ## Delayed symbolic links -/

/-- C17, the part that does not hold: with `no_abs_paths_flag` and `to_stdout_option` set,
`copyin_link` on the symbolic link `l` to `/etc` only skips the payload: it opens no
placeholder and records nothing in the delayed-link table. -/
theorem copyin_link_stdout_no_placeholder :
    (copyin_link sample_extern sample_symlink
        { sample_symlink_state with to_stdout_option := true }).map
      (fun s => (s.delayed_link_table, s.log, s.tape)) = some ([], [], [1, 2]) := by
  decide

/-- What `symlink_placeholder` does: its first call is the `open` with `O_EXCL`; it
returns 0 after an `fstat` that succeeded, with the entry recorded by `hash_insert`, or
-1 after the report of the failed `open` or `fstat`, with the table as it was. -/
theorem symlink_placeholder_spec (ext : Extern) (oldpath newpath : List Nat)
    (fs : cpio_file_stat) (st : Globals) :
    (∃ res evs, (symlink_placeholder ext oldpath newpath fs st).2.log
        = st.log ++ Event.call (Call.open_excl newpath) res :: evs) ∧
    (((symlink_placeholder ext oldpath newpath fs st).1 = 0 ∧
        ∃ fd fst, Event.call_stat (Call.fstat fd) (some fst)
            ∈ (symlink_placeholder ext oldpath newpath fs st).2.log ∧
          (symlink_placeholder ext oldpath newpath fs st).2.delayed_link_table
            = hash_insert st.delayed_link_table
                { dev := fst.st_dev, ino := fst.st_ino, mode := fs.c_mode, uid := fs.c_uid,
                  gid := fs.c_gid, mtime := fs.c_mtime, source := cstr oldpath,
                  target := cstr newpath }) ∨
      ((symlink_placeholder ext oldpath newpath fs st).1 = -1 ∧
        (symlink_placeholder ext oldpath newpath fs st).2.delayed_link_table
          = st.delayed_link_table ∧
        (Event.open_error newpath ∈ (symlink_placeholder ext oldpath newpath fs st).2.log ∨
          Event.stat_error newpath
            ∈ (symlink_placeholder ext oldpath newpath fs st).2.log))) := by
  unfold symlink_placeholder
  simp only
  have hr : (∃ res evs, (if (do_call ext st (Call.open_excl newpath)).1 < 0 ∧
          st.create_dir_flag = true then
        do_call ext (report (do_call ext st (Call.open_excl newpath)).2
          [Event.create_all_directories newpath]) (Call.open_excl newpath)
        else do_call ext st (Call.open_excl newpath)).2.log
          = st.log ++ Event.call (Call.open_excl newpath) res :: evs) ∧
      (if (do_call ext st (Call.open_excl newpath)).1 < 0 ∧ st.create_dir_flag = true then
        do_call ext (report (do_call ext st (Call.open_excl newpath)).2
          [Event.create_all_directories newpath]) (Call.open_excl newpath)
        else do_call ext st (Call.open_excl newpath)).2.delayed_link_table
          = st.delayed_link_table := by
    split_ifs
    · refine ⟨?_, rfl⟩
      simp only [do_call, report, List.append_assoc]
      exact ⟨_, _, rfl⟩
    · exact ⟨⟨_, [], rfl⟩, rfl⟩
  generalize (if (do_call ext st (Call.open_excl newpath)).1 < 0 ∧
          st.create_dir_flag = true then
        do_call ext (report (do_call ext st (Call.open_excl newpath)).2
          [Event.create_all_directories newpath]) (Call.open_excl newpath)
        else do_call ext st (Call.open_excl newpath)) = r at hr ⊢
  obtain ⟨⟨res, evs, hlog⟩, htab⟩ := hr
  by_cases hneg : r.1 < 0
  · simp only [if_pos hneg]
    refine ⟨⟨res, evs ++ [Event.open_error newpath], ?_⟩, Or.inr ⟨by first | rfl | trivial, htab, Or.inl ?_⟩⟩
    · simp [report, hlog]
    · simp [report]
  · simp only [if_neg hneg]
    cases hs : (do_stat ext r.2 (Call.fstat r.1)).1 with
    | none =>
      simp only
      constructor
      · simp only [do_close, do_stat, report, hlog, List.append_assoc, List.cons_append]
        exact ⟨_, _, rfl⟩
      · refine Or.inr ⟨by first | rfl | trivial, htab, Or.inr ?_⟩
        simp [do_close, do_stat, report]
    | some fst =>
      simp only
      constructor
      · simp only [do_close, do_stat, report, hlog, List.append_assoc, List.cons_append]
        exact ⟨_, _, rfl⟩
      · refine Or.inl ⟨by first | rfl | trivial, r.1, fst, ?_, ?_⟩
        · have hs2 : ext.sys_stat r.2.log (Call.fstat r.1) = some fst := hs
          simp [do_close, do_stat, report, hs2]
        · simp only [do_close, do_stat, report, htab]

/-- C17, amended: with `no_abs_paths_flag` set, the main loop calls no `UMASKED_SYMLINK`,
however long it runs; the symbolic links are made after it, by
`replace_symlink_placeholders` in the end of `process_copy_in`.  For a symbolic link of a
cpio archive, unless `to_stdout_option` is set or the link name is not read,
`copyin_link` does what `symlink_placeholder` does: the target is opened with
`O_WRONLY | O_CREAT | O_EXCL` and mode 0 first; when that and the `fstat` succeed the
entry (dev, ino, mode, uid, gid, mtime, source, target) goes to the delayed-link table
through `hash_insert`, and when one of them fails the failure is reported and the table
is left as it is. -/
theorem symlinks_delayed (ext : Extern) (fuel : Nat) (fh fh1 : cpio_file_stat)
    (st st1 : Globals) (htar : tar_reader_frame ext) (hflag : st.no_abs_paths_flag = true)
    (hrun : main_loop ext fuel fh st = Run.left fh1 st1 ∨
      main_loop ext fuel fh st = Run.running fh1 st1) :
    (∃ evs, st1.log = st.log ++ evs ∧ ∀ e ∈ evs, is_symlink_call e = false) ∧
    (main_loop ext fuel fh st = Run.left fh1 st1 →
      process_copy_in ext fuel fh st = Run.left fh1 (finish_copy_in ext st1)) ∧
    (∀ (fh2 : cpio_file_stat) (s s2 : Globals) (link_name : List Nat),
      s.no_abs_paths_flag = true → s.to_stdout_option = false →
      s.archive_format ≠ arf_tar → s.archive_format ≠ arf_ustar →
      get_link_name fh2 s = some (some link_name, s2) →
      copyin_link ext fh2 s = some (symlink_placeholder ext link_name fh2.c_name fh2 s2).2) ∧
    (∀ (oldpath newpath : List Nat) (fs : cpio_file_stat) (s : Globals),
      (∃ res evs, (symlink_placeholder ext oldpath newpath fs s).2.log
          = s.log ++ Event.call (Call.open_excl newpath) res :: evs) ∧
      (((symlink_placeholder ext oldpath newpath fs s).1 = 0 ∧
          ∃ fd fst, Event.call_stat (Call.fstat fd) (some fst)
              ∈ (symlink_placeholder ext oldpath newpath fs s).2.log ∧
            (symlink_placeholder ext oldpath newpath fs s).2.delayed_link_table
              = hash_insert s.delayed_link_table
                  { dev := fst.st_dev, ino := fst.st_ino, mode := fs.c_mode, uid := fs.c_uid,
                    gid := fs.c_gid, mtime := fs.c_mtime, source := cstr oldpath,
                    target := cstr newpath }) ∨
        ((symlink_placeholder ext oldpath newpath fs s).1 = -1 ∧
          (symlink_placeholder ext oldpath newpath fs s).2.delayed_link_table
            = s.delayed_link_table ∧
          (Event.open_error newpath ∈ (symlink_placeholder ext oldpath newpath fs s).2.log ∨
            Event.stat_error newpath
              ∈ (symlink_placeholder ext oldpath newpath fs s).2.log)))) := by
  obtain ⟨_, ⟨evs, h1, h2⟩, _⟩ := main_loop_keeps ext htar fuel fh st fh1 st1 hrun
  refine ⟨⟨evs, h1, h2 hflag⟩, ?_, ?_, symlink_placeholder_spec ext⟩
  · intro hl
    unfold process_copy_in
    rw [hl]
  · intro fh2 s s2 link_name hn ho ht hu hg
    have hn2 : s2.no_abs_paths_flag = true := by
      rw [(get_link_name_frame hg).toStep.no_abs]; exact hn
    unfold copyin_link
    rw [if_pos ⟨ht, hu⟩, if_neg (by simp [ho]), hg]
    simp only
    unfold copyin_link_create
    rw [if_pos hn2]

theorem sample_extern_tar_reader : tar_reader_frame sample_extern := by
  intro fh st fh1 st1 h
  cases h

theorem sample_extern_placeholders_tar_reader :
    tar_reader_frame sample_extern_placeholders := by
  intro fh st fh1 st1 h
  cases h

theorem left_state_eq_some {r : Run} {st : Globals} (h : r.left_state = some st) :
    ∃ fh, r = Run.left fh st := by
  cases r with
  | fatal => cases h
  | running fh s => cases h
  | left fh s =>
    simp only [Run.left_state, Option.some.injEq] at h
    exact ⟨fh, by rw [h]⟩

/-- C17, amended, on the archive that holds the symbolic link `l` to `/etc`: the main
loop opens the placeholder and calls no `UMASKED_SYMLINK`; the end of `process_copy_in`
then makes the link. -/
theorem symlinks_delayed_witness :
    ∃ fh1 st1,
      main_loop sample_extern_placeholders 3 CPIO_FILE_STAT_INITIALIZER
          { initial_state sample_symlink_archive with no_abs_paths_flag := true }
        = Run.left fh1 st1 ∧
      (∃ evs, st1.log = [] ++ evs ∧ ∀ e ∈ evs, is_symlink_call e = false) ∧
      st1.log.any (created_exclusively [108, 0]) = true ∧
      (finish_copy_in sample_extern_placeholders st1).log.any is_symlink_call = true := by
  have hev : (main_loop sample_extern_placeholders 3 CPIO_FILE_STAT_INITIALIZER
      { initial_state sample_symlink_archive with no_abs_paths_flag := true }).left_state.map
        (fun s => (s.log.any (created_exclusively [108, 0]),
          (finish_copy_in sample_extern_placeholders s).log.any is_symlink_call))
      = some (true, true) := by decide
  cases hm : (main_loop sample_extern_placeholders 3 CPIO_FILE_STAT_INITIALIZER
      { initial_state sample_symlink_archive with no_abs_paths_flag := true }).left_state with
  | none => rw [hm] at hev; cases hev
  | some st1 =>
    rw [hm] at hev
    simp only [Option.map_some', Option.some.injEq, Prod.mk.injEq] at hev
    obtain ⟨fh1, hl⟩ := left_state_eq_some hm
    exact ⟨fh1, st1, hl,
      (symlinks_delayed sample_extern_placeholders 3 CPIO_FILE_STAT_INITIALIZER fh1
        { initial_state sample_symlink_archive with no_abs_paths_flag := true } st1
        sample_extern_placeholders_tar_reader rfl (Or.inl hl)).1, hev.1, hev.2⟩

/-- C19 on the archive that holds the record `x` with two links and no payload: the
loop is left with `x` deferred, and the end of `process_copy_in` visits it. -/
theorem deferments_never_lost_witness :
    ∃ fh1 st1,
      main_loop sample_extern 3 CPIO_FILE_STAT_INITIALIZER
          (initial_state sample_deferred_archive) = Run.left fh1 st1 ∧
      st1.deferments ≠ [] ∧ deferments_invariant st1 ∧
      ∃ evs,
        (create_final_defers sample_extern (finish_symlinks sample_extern st1)).log
          = (finish_symlinks sample_extern st1).log ++ evs ∧
        link_to_maj_min_ino_calls evs = [([120, 0], 0, 1, 7)] := by
  have hev : (main_loop sample_extern 3 CPIO_FILE_STAT_INITIALIZER
      (initial_state sample_deferred_archive)).left_state.map
        (fun s => s.deferments.map (fun d => (d.c_name, d.c_dev_maj, d.c_dev_min, d.c_ino)))
      = some [([120, 0], 0, 1, 7)] := by decide
  cases hm : (main_loop sample_extern 3 CPIO_FILE_STAT_INITIALIZER
      (initial_state sample_deferred_archive)).left_state with
  | none => rw [hm] at hev; cases hev
  | some st1 =>
    rw [hm] at hev
    simp only [Option.map_some', Option.some.injEq] at hev
    obtain ⟨fh1, hl⟩ := left_state_eq_some hm
    have hne : st1.deferments ≠ [] := by
      intro h0
      rw [h0] at hev
      cases hev
    obtain ⟨hinv, hrest⟩ := deferments_never_lost sample_extern 3 CPIO_FILE_STAT_INITIALIZER fh1
      (initial_state sample_deferred_archive) st1 sample_extern_tar_reader rfl hl
    obtain ⟨_, _, evs, e1, e2⟩ := hrest hne
    exact ⟨fh1, st1, hl, hne, hinv, evs, e1, by rw [e2, hev]⟩


/-! ## Checksum verification and deferred links -/

/-- C16: on the new-crc archive that holds the record `f` with payload 1, 2, 3 and
checksum 6, a run with `only_verify_crc_flag` reports no checksum error when the padding
byte after the payload is 0, and reports one (0x7, should be 0x6) when the padding byte
is 1, although the payload sums to 6: the test of `crc` comes after `tape_skip_padding`.
Extraction of the same archive, which tests `crc` before `tape_skip_padding`, reports
none.  In every case the archive is read to its end. -/
theorem only_verify_crc_sums_padding :
    (main_loop sample_extern 3 CPIO_FILE_STAT_INITIALIZER
        { initial_state (sample_crc_archive 0) with only_verify_crc_flag := true }).left_state.map
      (fun st => (st.log, st.tape)) = some ([], []) ∧
    (main_loop sample_extern 3 CPIO_FILE_STAT_INITIALIZER
        { initial_state (sample_crc_archive 1) with only_verify_crc_flag := true }).left_state.map
      (fun st => (st.log, st.tape)) = some ([Event.checksum_error [102, 0] 7 6], []) ∧
    (main_loop sample_extern 3 CPIO_FILE_STAT_INITIALIZER
        (initial_state (sample_crc_archive 1))).left_state.map
      (fun st => (checksum_errors st.log, st.tape)) = some ([], []) := by
  refine ⟨?_, ?_, ?_⟩ <;> decide

theorem link_requests_append (a b : List Event) :
    link_requests (a ++ b) = link_requests a ++ link_requests b := by
  induction a with
  | nil => rfl
  | cons e a ih =>
    cases e <;> simp [link_requests, ih]

theorem create_defered_links_loop_requests (ext : Extern) (hdr : cpio_file_stat) :
    ∀ (ds : List cpio_file_stat) (st : Globals),
      ∃ evs, (create_defered_links_loop ext hdr ds st).2.log = st.log ++ evs ∧
        link_requests evs
          = (ds.filter (fun d => same_file d hdr)).map (fun d => (d.c_name, hdr.c_name)) := by
  intro ds
  induction ds with
  | nil => intro st; exact ⟨[], by simp [create_defered_links_loop], rfl⟩
  | cons d ds ih =>
    intro st
    unfold create_defered_links_loop
    by_cases hs : same_file d hdr
    · simp only [if_pos hs]
      obtain ⟨evs, h1, h2⟩ := ih (if (link_to_name ext st d.c_name hdr.c_name).1 < 0 then
          report (link_to_name ext st d.c_name hdr.c_name).2
            [Event.cannot_link d.c_name hdr.c_name]
        else (link_to_name ext st d.c_name hdr.c_name).2)
      have h0 : ∃ evs0, (if (link_to_name ext st d.c_name hdr.c_name).1 < 0 then
          report (link_to_name ext st d.c_name hdr.c_name).2
            [Event.cannot_link d.c_name hdr.c_name]
          else (link_to_name ext st d.c_name hdr.c_name).2).log = st.log ++ evs0 ∧
          link_requests evs0 = [(d.c_name, hdr.c_name)] := by
        split_ifs
        · simp only [link_to_name, report, List.append_assoc]
          exact ⟨_, rfl, rfl⟩
        · simp only [link_to_name, report]
          exact ⟨_, rfl, rfl⟩
      obtain ⟨evs0, h3, h4⟩ := h0
      refine ⟨evs0 ++ evs, ?_, ?_⟩
      · rw [h1, h3, List.append_assoc]
      · rw [link_requests_append, h4, h2]
        simp [hs]
    · simp only [if_neg hs]
      obtain ⟨evs, h1, h2⟩ := ih st
      refine ⟨evs, h1, ?_⟩
      rw [h2]
      simp [hs]

theorem report_deferments (st : Globals) (evs : List Event) :
    (report st evs).deferments = st.deferments := rfl

theorem report_archive_format (st : Globals) (evs : List Event) :
    (report st evs).archive_format = st.archive_format := rfl

theorem tape_skip_padding_deferments {st st1 : Globals} {n : Int}
    (h : tape_skip_padding st n = some st1) : st1.deferments = st.deferments := by
  unfold tape_skip_padding at h
  simp only at h
  split_ifs at h
  · unfold tape_toss_input at h
    by_cases hc : (padding st.archive_format n).toNat ≤ st.tape.length
    · rw [if_pos hc] at h
      cases h
      rfl
    · rw [if_neg hc] at h
      cases h
  · cases h
    rfl

theorem copy_files_tape_to_disk_deferments {st st1 : Globals} {fd n : Int}
    (h : copy_files_tape_to_disk st fd n = some st1) : st1.deferments = st.deferments := by
  unfold copy_files_tape_to_disk at h
  by_cases hc : n.toNat ≤ st.tape.length
  · rw [if_pos hc] at h
    cases h
    rfl
  · rw [if_neg hc] at h
    cases h

theorem check_crc_deferments (st : Globals) (fh : cpio_file_stat) :
    (check_crc st fh).deferments = st.deferments := by
  unfold check_crc
  split_ifs <;> rfl

/-- What `copyin_regular_file_data` leaves on `deferments` when the record has several
links, the format is new-ascii or new-crc and the output is a file. -/
theorem copyin_regular_file_data_deferments {ext : Extern} {fh : cpio_file_stat} {fd : Int}
    {st st1 : Globals} (h : copyin_regular_file_data ext fh fd st = some st1)
    (ho : st.to_stdout_option = false) (hn : fh.c_nlink > 1) (hf : new_format st) :
    st1.deferments = st.deferments.filter (fun d => ¬ same_file d fh) := by
  have hframe := copyin_regular_file_data_frame h
  unfold copyin_regular_file_data at h
  simp only at h
  split at h
  · cases h
  · rename_i st2 hcopy
    have hf2 := copy_files_tape_to_disk_frame hcopy
    have hd2 : st2.deferments = st.deferments := by
      rw [copy_files_tape_to_disk_deferments hcopy]
      split_ifs <;> rfl
    have hopt2 : st2.to_stdout_option = st.to_stdout_option := by
      rw [hf2.toStep.flags.2.2.2]
      split_ifs <;> rfl
    have hfmt2 : st2.archive_format = st.archive_format := by
      rw [hf2.format]
      split_ifs <;> rfl
    have hno : ¬ (report st2 [Event.disk_empty_output_buffer fd]).to_stdout_option = true := by
      show ¬ st2.to_stdout_option = true
      rw [hopt2, ho]
      simp
    rw [if_neg hno] at h
    split at h
    · cases h
    · rename_i st3 hp
      have hd3 : st3.deferments = st.deferments := by
        rw [tape_skip_padding_deferments hp, check_crc_deferments]
        refine Eq.trans ?_ hd2
        split_ifs <;> simp only [report_deferments]
      have hfmt3 : st3.archive_format = st.archive_format := by
        rw [(tape_skip_padding_frame hp).format, (check_crc_frame _ _).format]
        refine Eq.trans ?_ hfmt2
        split_ifs <;> simp only [report_archive_format]
      unfold new_format at hf
      rw [if_pos ⟨hn, by rw [hfmt3]; exact hf⟩] at h
      cases h
      rw [create_defered_links_deferments, hd3]

/-- C18: `create_defered_links (hdr)` leaves on `deferments` exactly the entries whose
`(c_ino, c_dev_maj, c_dev_min)` is not that of `hdr`, in their order; for the entries it
removes, in list order (the most recently deferred is at the head), it asks
`link_to_name` for one hard link from the name of the entry to the name of `hdr`, and
the entry is removed whatever the result of that call.  Hence when
`copyin_regular_file` has written the payload of a record with several links to a file
(new-ascii or new-crc), no entry of its group is deferred any more. -/
theorem create_defered_links_removes_matching (ext : Extern) (hdr : cpio_file_stat)
    (st : Globals) :
    (create_defered_links ext hdr st).deferments
      = st.deferments.filter (fun d => ¬ same_file d hdr) ∧
    (∃ evs, (create_defered_links ext hdr st).log = st.log ++ evs ∧
      link_requests evs
        = (st.deferments.filter (fun d => same_file d hdr)).map
            (fun d => (d.c_name, hdr.c_name))) ∧
    (∀ d ∈ (create_defered_links ext hdr st).deferments, ¬ same_file d hdr) ∧
    (∀ (fd : Int) (st1 : Globals), st.to_stdout_option = false → hdr.c_nlink > 1 →
      new_format st → copyin_regular_file_data ext hdr fd st = some st1 →
      st1.deferments = st.deferments.filter (fun d => ¬ same_file d hdr) ∧
      ∀ d ∈ st1.deferments, ¬ same_file d hdr) := by
  have hmem : ∀ d ∈ st.deferments.filter (fun d => ¬ same_file d hdr), ¬ same_file d hdr := by
    intro d hd
    have := (List.mem_filter.mp hd).2
    simpa using this
  refine ⟨create_defered_links_deferments ext hdr st,
    create_defered_links_loop_requests ext hdr st.deferments st, ?_, ?_⟩
  · rw [create_defered_links_deferments]
    exact hmem
  · intro fd st1 ho hn hf h
    have hd := copyin_regular_file_data_deferments h ho hn hf
    refine ⟨hd, ?_⟩
    rw [hd]
    exact hmem

/-- C18 on the group of inode 7: with `y`, a record of another inode and `x` deferred,
`copyin_regular_file` on `z`, which has the payload, asks for the links of `y` and of
`x` to `z`, in that order, and leaves only the other record deferred. -/
theorem create_defered_links_removes_matching_witness :
    (copyin_regular_file sample_extern sample_group_data sample_group_state).map
      (fun s => (s.deferments.map (fun d => d.c_name), link_requests s.log))
      = some ([[119, 0]], [([121, 0], [122, 0]), ([120, 0], [122, 0])]) ∧
    ∃ st1,
      copyin_regular_file_data sample_extern sample_group_data 3 sample_group_state
        = some st1 ∧
      ∀ d ∈ st1.deferments, ¬ same_file d sample_group_data := by
  refine ⟨by decide, ?_⟩
  have hsome : (copyin_regular_file_data sample_extern sample_group_data 3
      sample_group_state).isSome = true := by decide
  cases hm : copyin_regular_file_data sample_extern sample_group_data 3 sample_group_state with
  | none => rw [hm] at hsome; cases hsome
  | some st1 =>
    exact ⟨st1, rfl,
      ((create_defered_links_removes_matching sample_extern sample_group_data
        sample_group_state).2.2.2 3 st1 rfl (by decide) (by decide) hm).2⟩


/-! ## The byte swap -/

theorem swab_pairs_length : ∀ (n : Nat) (l : List Nat), (swab_pairs l n).length = l.length := by
  intro n
  induction n with
  | zero =>
    intro l
    cases l with
    | nil => rfl
    | cons a t => cases t <;> rfl
  | succ n ih =>
    intro l
    match l with
    | [] => rfl
    | [_] => rfl
    | a :: b :: rest =>
      simp only [swab_pairs, List.length_cons, ih rest]

theorem swab_pairs_zero (l : List Nat) : swab_pairs l 0 = l := by
  cases l with
  | nil => rfl
  | cons a t => cases t <;> rfl

theorem swab_pairs_get : ∀ (n : Nat) (l : List Nat), 2 * n ≤ l.length →
    (∀ i, i < n → (swab_pairs l n).get? (2 * i) = l.get? (2 * i + 1) ∧
      (swab_pairs l n).get? (2 * i + 1) = l.get? (2 * i)) ∧
    (∀ j, 2 * n ≤ j → (swab_pairs l n).get? j = l.get? j) := by
  intro n
  induction n with
  | zero =>
    intro l _
    rw [swab_pairs_zero]
    exact ⟨fun i hi => absurd hi (Nat.not_lt_zero i), fun _ _ => rfl⟩
  | succ n ih =>
    intro l hl
    match l, hl with
    | [], hl => simp at hl
    | [_], hl => simp at hl; omega
    | a :: b :: rest, hl =>
      have hrest : 2 * n ≤ rest.length := by simp only [List.length_cons] at hl; omega
      obtain ⟨ih1, ih2⟩ := ih rest hrest
      simp only [swab_pairs]
      constructor
      · intro i hi
        cases i with
        | zero => exact ⟨rfl, rfl⟩
        | succ k =>
          have hk := ih1 k (by omega)
          have e1 : 2 * (k + 1) = (2 * k) + 1 + 1 := by ring
          rw [e1]
          simp only [List.get?_cons_succ]
          exact hk
      · intro j hj
        obtain ⟨m, rfl⟩ : ∃ m, j = m + 1 + 1 := ⟨j - 2, by omega⟩
        simp only [List.get?_cons_succ]
        exact ih2 m (by omega)

theorem swab_pairs_twice : ∀ (n : Nat) (l : List Nat), 2 * n ≤ l.length →
    swab_pairs (swab_pairs l n) n = l := by
  intro n
  induction n with
  | zero => intro l _; rw [swab_pairs_zero, swab_pairs_zero]
  | succ n ih =>
    intro l hl
    match l, hl with
    | [], _ => rfl
    | [_], _ => rfl
    | a :: b :: rest, hl =>
      have hrest : 2 * n ≤ rest.length := by simp only [List.length_cons] at hl; omega
      simp only [swab_pairs, ih rest hrest]

/-- C22: on a buffer that holds at least `2 * count` bytes, `swab_array (buf, count)`
exchanges the bytes `2 * i` and `2 * i + 1` for every `i < count` and leaves every byte
from index `2 * count` on, and the length, as they are; for `count ≤ 0` the buffer is
unchanged; and a second call with the same count gives the buffer back. -/
theorem swab_array_exchanges_pairs (buf : List Nat) (count : Int)
    (hlen : 2 * count ≤ (buf.length : Int)) :
    (swab_array buf count).length = buf.length ∧
    (∀ i : Nat, (i : Int) < count →
      (swab_array buf count).get? (2 * i) = buf.get? (2 * i + 1) ∧
      (swab_array buf count).get? (2 * i + 1) = buf.get? (2 * i)) ∧
    (∀ j : Nat, 2 * count ≤ (j : Int) → (swab_array buf count).get? j = buf.get? j) ∧
    (count ≤ 0 → swab_array buf count = buf) ∧
    swab_array (swab_array buf count) count = buf := by
  have hl : 2 * count.toNat ≤ buf.length := by omega
  obtain ⟨h1, h2⟩ := swab_pairs_get count.toNat buf hl
  unfold swab_array
  refine ⟨swab_pairs_length _ _, ?_, ?_, ?_, swab_pairs_twice _ _ hl⟩
  · intro i hi
    exact h1 i (by omega)
  · intro j hj
    exact h2 j (by omega)
  · intro hc
    have : count.toNat = 0 := by omega
    rw [this, swab_pairs_zero]

/-- C22 on six bytes with count 2: the first two pairs are exchanged, the third is not. -/
theorem swab_array_exchanges_pairs_witness :
    swab_array [1, 2, 3, 4, 5, 6] 2 = [2, 1, 4, 3, 5, 6] ∧
    swab_array (swab_array [1, 2, 3, 4, 5, 6] 2) 2 = [1, 2, 3, 4, 5, 6] :=
  ⟨by decide, (swab_array_exchanges_pairs [1, 2, 3, 4, 5, 6] 2 (by decide)).2.2.2.2⟩


/-! ## The position in the archive -/

theorem report_tape (st : Globals) (evs : List Event) : (report st evs).tape = st.tape := rfl

theorem do_call_tape (ext : Extern) (st : Globals) (c : Call) :
    (do_call ext st c).2.tape = st.tape := rfl

theorem do_stat_tape (ext : Extern) (st : Globals) (c : Call) :
    (do_stat ext st c).2.tape = st.tape := rfl

theorem do_close_tape (ext : Extern) (st : Globals) (fd : Int) :
    (do_close ext st fd).2.tape = st.tape := rfl

theorem link_to_maj_min_ino_tape (ext : Extern) (st : Globals) (name : List Nat)
    (maj min ino : Nat) : (link_to_maj_min_ino ext st name maj min ino).2.tape = st.tape := rfl

theorem link_to_name_tape (ext : Extern) (st : Globals) (a b : List Nat) :
    (link_to_name ext st a b).2.tape = st.tape := rfl

theorem chown_or_report_tape (ext : Extern) (st : Globals) (c : Call) (name : List Nat)
    (uid gid : Nat) : (chown_or_report ext st c name uid gid).tape = st.tape := by
  unfold chown_or_report
  simp only
  split_ifs <;> rfl

theorem copyin_device_mknod_tape (ext : Extern) (fh : cpio_file_stat) (st : Globals) :
    (copyin_device_mknod ext fh st).tape = st.tape := by
  unfold copyin_device_mknod
  simp only
  split_ifs <;>
    simp only [report_tape, do_call_tape, chown_or_report_tape]

theorem copyin_device_tape (ext : Extern) (fh : cpio_file_stat) (st : Globals) :
    (copyin_device ext fh st).tape = st.tape := by
  unfold copyin_device
  simp only
  split_ifs
  · rfl
  · rfl
  · rw [copyin_device_mknod_tape]; rfl
  · split
    · split_ifs
      · rfl
      · rfl
      · exact copyin_device_mknod_tape _ _ _
    · exact copyin_device_mknod_tape _ _ _

theorem is_special_mode_not_reg_dir {mode : Nat} (h : is_special_mode mode) :
    mode &&& CP_IFMT ≠ CP_IFREG ∧ mode &&& CP_IFMT ≠ CP_IFDIR := by
  unfold is_special_mode at h
  rcases h with h | h | h | h <;> rw [h] <;> decide

/-- C27: `copyin_device` leaves the archive where it is, on every path and whatever
`c_filesize` is; so when `copyin_file` gets a record of a character device, block
device, FIFO or socket past `try_existing_file`, it returns with the archive where
`try_existing_file` (which is not called in stdout mode) has left it. -/
theorem copyin_device_consumes_nothing (ext : Extern) (fh : cpio_file_stat) (st : Globals) :
    (copyin_device ext fh st).tape = st.tape ∧
    (is_special_mode fh.c_mode → st.to_stdout_option = true →
      (copyin_file ext fh st).map (fun s => s.tape) = some st.tape) ∧
    (∀ (res : Int) (dir : Bool) (st0 : Globals), is_special_mode fh.c_mode →
      st.to_stdout_option = false → try_existing_file ext fh st = some (res, dir, st0) →
      0 ≤ res → (copyin_file ext fh st).map (fun s => s.tape) = some st0.tape) := by
  refine ⟨copyin_device_tape ext fh st, ?_, ?_⟩
  · intro hm ho
    obtain ⟨h1, h2⟩ := is_special_mode_not_reg_dir hm
    unfold copyin_file
    simp only [ho, not_true_eq_false, if_false, lt_self_iff_false, if_neg h1, if_neg h2,
      if_pos hm, Option.map_some', copyin_device_tape]
  · intro res dir st0 hm ho ht hres
    obtain ⟨h1, h2⟩ := is_special_mode_not_reg_dir hm
    unfold copyin_file
    simp only [ho, Bool.false_eq_true, not_false_eq_true, if_true, ht, if_neg (not_lt.mpr hres),
      if_neg h1, if_neg h2, if_pos hm, Option.map_some', copyin_device_tape]

/-- C27 on the character device `tty` whose record has a payload of 4 bytes: after
`copyin_file` the six bytes of the archive are still to be read. -/
theorem copyin_device_consumes_nothing_witness :
    (copyin_file sample_extern sample_device sample_symlink_state).map (fun s => s.tape)
      = some [47, 101, 116, 99, 1, 2] := by
  have hev : (try_existing_file sample_extern sample_device sample_symlink_state).map
      (fun p => (decide (0 ≤ p.1), p.2.2.tape)) = some (true, [47, 101, 116, 99, 1, 2]) := by
    decide
  cases hm : try_existing_file sample_extern sample_device sample_symlink_state with
  | none => rw [hm] at hev; cases hev
  | some p =>
    obtain ⟨res, dir, st0⟩ := p
    rw [hm] at hev
    simp only [Option.map_some', Option.some.injEq, Prod.mk.injEq, decide_eq_true_eq] at hev
    rw [(copyin_device_consumes_nothing sample_extern sample_device sample_symlink_state).2.2
      res dir st0 (by decide) rfl hm hev.1, hev.2]

/-! ## Files that exist already -/

/-- The five ways in which `try_existing_file` returns. -/
theorem try_existing_file_cases {ext : Extern} {fh : cpio_file_stat} {st st1 : Globals}
    {res : Int} {dir : Bool} (h : try_existing_file ext fh st = some (res, dir, st1)) :
    (ext.sys_stat st.log (Call.lstat fh.c_name) = none ∧ res = 0 ∧ dir = false ∧
      st1 = (do_stat ext st (Call.lstat fh.c_name)).2) ∨
    ∃ fs, ext.sys_stat st.log (Call.lstat fh.c_name) = some fs ∧
      ((S_ISDIR fs.st_mode ∧ fh.c_mode &&& CP_IFMT = CP_IFDIR) ∧ res = 0 ∧ dir = true ∧
          st1 = (do_stat ext st (Call.lstat fh.c_name)).2 ∨
        ¬ (S_ISDIR fs.st_mode ∧ fh.c_mode &&& CP_IFMT = CP_IFDIR) ∧
          (¬ st.unconditional_flag = true ∧ fh.c_mtime ≤ fs.st_mtime) ∧ res = -1 ∧
          dir = false ∧
          toss_payload (report (do_stat ext st (Call.lstat fh.c_name)).2
            [Event.newer_exists fh.c_name]) fh = some st1 ∨
        ¬ (S_ISDIR fs.st_mode ∧ fh.c_mode &&& CP_IFMT = CP_IFDIR) ∧
          ¬ (¬ st.unconditional_flag = true ∧ fh.c_mtime ≤ fs.st_mtime) ∧
          (do_call ext (do_stat ext st (Call.lstat fh.c_name)).2
            (if S_ISDIR fs.st_mode then Call.rmdir fh.c_name
              else Call.unlink fh.c_name)).1 ≠ 0 ∧
          res = -1 ∧ dir = false ∧
          toss_payload (report (do_call ext (do_stat ext st (Call.lstat fh.c_name)).2
            (if S_ISDIR fs.st_mode then Call.rmdir fh.c_name
              else Call.unlink fh.c_name)).2 [Event.cannot_remove fh.c_name]) fh = some st1 ∨
        ¬ (S_ISDIR fs.st_mode ∧ fh.c_mode &&& CP_IFMT = CP_IFDIR) ∧
          ¬ (¬ st.unconditional_flag = true ∧ fh.c_mtime ≤ fs.st_mtime) ∧
          (do_call ext (do_stat ext st (Call.lstat fh.c_name)).2
            (if S_ISDIR fs.st_mode then Call.rmdir fh.c_name
              else Call.unlink fh.c_name)).1 = 0 ∧
          res = 0 ∧ dir = false ∧
          st1 = (do_call ext (do_stat ext st (Call.lstat fh.c_name)).2
            (if S_ISDIR fs.st_mode then Call.rmdir fh.c_name
              else Call.unlink fh.c_name)).2) := by
  unfold try_existing_file at h
  simp only at h
  split at h
  · rename_i fs hs
    have hs2 : ext.sys_stat st.log (Call.lstat fh.c_name) = some fs := hs
    refine Or.inr ⟨fs, hs2, ?_⟩
    by_cases c1 : S_ISDIR fs.st_mode ∧ fh.c_mode &&& CP_IFMT = CP_IFDIR
    · rw [if_pos c1] at h
      simp only [Option.some.injEq, Prod.mk.injEq] at h
      exact Or.inl ⟨c1, h.1.symm, h.2.1.symm, h.2.2.symm⟩
    · rw [if_neg c1] at h
      by_cases c2 : ¬ st.unconditional_flag = true ∧ fh.c_mtime ≤ fs.st_mtime
      · rw [if_pos c2] at h
        split at h
        · cases h
        · rename_i st2 ht
          simp only [Option.some.injEq, Prod.mk.injEq] at h
          obtain ⟨r1, r2, rfl⟩ := h
          exact Or.inr (Or.inl ⟨c1, c2, r1.symm, r2.symm, ht⟩)
      · rw [if_neg c2] at h
        by_cases c3 : (do_call ext (do_stat ext st (Call.lstat fh.c_name)).2
            (if S_ISDIR fs.st_mode then Call.rmdir fh.c_name
              else Call.unlink fh.c_name)).1 ≠ 0
        · rw [if_pos c3] at h
          split at h
          · cases h
          · rename_i st2 ht
            simp only [Option.some.injEq, Prod.mk.injEq] at h
            obtain ⟨r1, r2, rfl⟩ := h
            exact Or.inr (Or.inr (Or.inl ⟨c1, c2, c3, r1.symm, r2.symm, ht⟩))
        · rw [if_neg c3] at h
          simp only [Option.some.injEq, Prod.mk.injEq] at h
          exact Or.inr (Or.inr (Or.inr ⟨c1, c2, not_not.mp c3, h.1.symm, h.2.1.symm,
            h.2.2.symm⟩))
  · rename_i hs
    have hs2 : ext.sys_stat st.log (Call.lstat fh.c_name) = none := hs
    simp only [Option.some.injEq, Prod.mk.injEq] at h
    exact Or.inl ⟨hs2, h.1.symm, h.2.1.symm, h.2.2.symm⟩

/-- C25: `try_existing_file` returns -1 or 0; it returns -1 exactly when `lstat` finds the
path, the existing file and the member are not both directories, and either
`unconditional_flag` is off and the mtime of the member is at most that of the file
(then the log gets the `lstat` and the report only: nothing is removed), or the removal,
`rmdir` for a directory and `unlink` otherwise, fails.  When it returns -1 the archive
has advanced by the payload and its padding, and when it returns 0 the archive is where
it was.  `existing_dir` is true exactly when both are directories, and then the value
returned is 0. -/
theorem try_existing_file_skips (ext : Extern) (fh : cpio_file_stat) (st st1 : Globals)
    (res : Int) (dir : Bool) (h : try_existing_file ext fh st = some (res, dir, st1)) :
    (res = -1 ∨ res = 0) ∧
    (res = -1 ↔ ∃ fs, ext.sys_stat st.log (Call.lstat fh.c_name) = some fs ∧
      ¬ (S_ISDIR fs.st_mode ∧ fh.c_mode &&& CP_IFMT = CP_IFDIR) ∧
      ((st.unconditional_flag = false ∧ fh.c_mtime ≤ fs.st_mtime) ∨
        (¬ (st.unconditional_flag = false ∧ fh.c_mtime ≤ fs.st_mtime) ∧
          (do_call ext (do_stat ext st (Call.lstat fh.c_name)).2
            (if S_ISDIR fs.st_mode then Call.rmdir fh.c_name
              else Call.unlink fh.c_name)).1 ≠ 0))) ∧
    (res = -1 → st1.tape = st.tape.drop
      (fh.c_filesize.toNat + (padding st.archive_format fh.c_filesize).toNat)) ∧
    (res = 0 → st1.tape = st.tape) ∧
    (dir = true ↔ ∃ fs, ext.sys_stat st.log (Call.lstat fh.c_name) = some fs ∧
      S_ISDIR fs.st_mode ∧ fh.c_mode &&& CP_IFMT = CP_IFDIR) ∧
    (dir = true → res = 0) ∧
    (∀ fs, ext.sys_stat st.log (Call.lstat fh.c_name) = some fs →
      ¬ (S_ISDIR fs.st_mode ∧ fh.c_mode &&& CP_IFMT = CP_IFDIR) →
      st.unconditional_flag = false → fh.c_mtime ≤ fs.st_mtime →
      st1.log = st.log ++ [Event.call_stat (Call.lstat fh.c_name) (some fs),
        Event.newer_exists fh.c_name]) := by
  have hu : ∀ b : Bool, (¬ b = true) ↔ b = false := by intro b; cases b <;> simp
  rcases try_existing_file_cases h with ⟨hn, r1, r2, r3⟩ |
    ⟨fs, hf, ⟨c1, r1, r2, r3⟩ | ⟨c1, c2, r1, r2, ht⟩ | ⟨c1, c2, c3, r1, r2, ht⟩ |
      ⟨c1, c2, c3, r1, r2, r3⟩⟩
  · subst r1 r2 r3
    refine ⟨Or.inr rfl, ⟨fun h => absurd h (by decide), ?_⟩, fun h => absurd h (by decide),
      fun _ => rfl, ⟨fun h => absurd h (by decide), ?_⟩, fun _ => rfl, ?_⟩
    · rintro ⟨fs, hf, _⟩
      rw [hn] at hf
      cases hf
    · rintro ⟨fs, hf, _⟩
      rw [hn] at hf
      cases hf
    · intro fs hf
      rw [hn] at hf
      cases hf
  · subst r1 r2 r3
    refine ⟨Or.inr rfl, ⟨fun h => absurd h (by decide), ?_⟩, fun h => absurd h (by decide),
      fun _ => rfl, ⟨fun _ => ⟨fs, hf, c1⟩, fun _ => rfl⟩, fun _ => rfl, ?_⟩
    · rintro ⟨fs2, hf2, hnb, _⟩
      rw [hf] at hf2
      cases hf2
      exact absurd c1 hnb
    · intro fs2 hf2 hnb
      rw [hf] at hf2
      cases hf2
      exact absurd c1 hnb
  · subst r1 r2
    obtain ⟨t1, _, _, t4⟩ := toss_payload_effect _ _ _ ht
    refine ⟨Or.inl rfl, ⟨fun _ => ⟨fs, hf, c1, Or.inl ⟨(hu _).mp c2.1, c2.2⟩⟩, fun _ => rfl⟩,
      fun _ => t4, fun h => absurd h (by decide), ⟨fun h => absurd h (by decide), ?_⟩,
      fun h => absurd h (by decide), ?_⟩
    · rintro ⟨fs2, hf2, hb⟩
      rw [hf] at hf2
      cases hf2
      exact absurd hb c1
    · intro fs2 hf2 _ _ _
      rw [hf] at hf2
      cases hf2
      rw [t1]
      simp only [report, do_stat, hf, List.append_assoc, List.singleton_append]
  · subst r1 r2
    obtain ⟨_, _, _, t4⟩ := toss_payload_effect _ _ _ ht
    have c2f : ¬ (st.unconditional_flag = false ∧ fh.c_mtime ≤ fs.st_mtime) := by
      rw [← hu]; exact c2
    refine ⟨Or.inl rfl, ⟨fun _ => ⟨fs, hf, c1, Or.inr ⟨c2f, c3⟩⟩, fun _ => rfl⟩,
      fun _ => t4, fun h => absurd h (by decide), ⟨fun h => absurd h (by decide), ?_⟩,
      fun h => absurd h (by decide), ?_⟩
    · rintro ⟨fs2, hf2, hb⟩
      rw [hf] at hf2
      cases hf2
      exact absurd hb c1
    · intro fs2 hf2 _ hun hle
      rw [hf] at hf2
      cases hf2
      exact absurd ⟨hun, hle⟩ c2f
  · subst r1 r2 r3
    have c2f : ¬ (st.unconditional_flag = false ∧ fh.c_mtime ≤ fs.st_mtime) := by
      rw [← hu]; exact c2
    refine ⟨Or.inr rfl, ⟨fun h => absurd h (by decide), ?_⟩, fun h => absurd h (by decide),
      fun _ => rfl, ⟨fun h => absurd h (by decide), ?_⟩, fun h => absurd h (by decide), ?_⟩
    · rintro ⟨fs2, hf2, _, hx | ⟨_, hx⟩⟩
      · rw [hf] at hf2
        cases hf2
        exact absurd hx c2f
      · rw [hf] at hf2
        cases hf2
        exact absurd c3 hx
    · rintro ⟨fs2, hf2, hb⟩
      rw [hf] at hf2
      cases hf2
      exact absurd hb c1
    · intro fs2 hf2 _ hun hle
      rw [hf] at hf2
      cases hf2
      exact absurd ⟨hun, hle⟩ c2f

/-- C25 on the record `tty` when a file of that name and of the same age exists: the
value is -1 and the 4 bytes of the payload are discarded. -/
theorem try_existing_file_skips_witness :
    ∃ dir st1,
      try_existing_file sample_extern_placeholders sample_device sample_existing_state
        = some (-1, dir, st1) ∧
      st1.tape = [1, 2] := by
  have hev : (try_existing_file sample_extern_placeholders sample_device
      sample_existing_state).map (fun p => p.1) = some (-1) := by decide
  cases hm : try_existing_file sample_extern_placeholders sample_device
      sample_existing_state with
  | none => rw [hm] at hev; cases hev
  | some p =>
    obtain ⟨res, dir, st1⟩ := p
    rw [hm] at hev
    simp only [Option.map_some', Option.some.injEq] at hev
    subst hev
    refine ⟨dir, st1, rfl, ?_⟩
    rw [(try_existing_file_skips sample_extern_placeholders sample_device
      sample_existing_state st1 (-1) dir hm).2.2.1 rfl]
    decide


/-! ## Deferring a record, and the payload of a skipped record -/

theorem tape_skip_padding_tape {st st1 : Globals} {n : Int}
    (h : tape_skip_padding st n = some st1) :
    st1.tape = st.tape.drop (padding st.archive_format n).toNat := by
  unfold tape_skip_padding at h
  simp only at h
  by_cases hp : padding st.archive_format n ≠ 0
  · rw [if_pos hp] at h
    unfold tape_toss_input at h
    by_cases hc : (padding st.archive_format n).toNat ≤ st.tape.length
    · rw [if_pos hc] at h
      cases h
      rfl
    · rw [if_neg hc] at h
      cases h
  · rw [if_neg hp] at h
    cases h
    rw [not_not.mp hp]
    rfl

theorem copy_files_tape_to_disk_tape {st st1 : Globals} {fd n : Int}
    (h : copy_files_tape_to_disk st fd n = some st1) : st1.tape = st.tape.drop n.toNat := by
  unfold copy_files_tape_to_disk at h
  by_cases hc : n.toNat ≤ st.tape.length
  · rw [if_pos hc] at h
    cases h
    rfl
  · rw [if_neg hc] at h
    cases h

theorem check_crc_tape (st : Globals) (fh : cpio_file_stat) :
    (check_crc st fh).tape = st.tape := by
  unfold check_crc
  split_ifs <;> rfl

theorem ite_report_tape (c : Prop) [Decidable c] (a : Globals) (evs : List Event) :
    (if c then report a evs else a).tape = a.tape := by
  split_ifs <;> rfl

theorem ite_report_archive_format (c : Prop) [Decidable c] (a : Globals) (evs : List Event) :
    (if c then report a evs else a).archive_format = a.archive_format := by
  split_ifs <;> rfl

theorem check_crc_archive_format (st : Globals) (fh : cpio_file_stat) :
    (check_crc st fh).archive_format = st.archive_format := by
  unfold check_crc
  split_ifs <;> rfl

theorem link_to_maj_min_ino_archive_format (ext : Extern) (st : Globals) (name : List Nat)
    (maj min ino : Nat) :
    (link_to_maj_min_ino ext st name maj min ino).2.archive_format = st.archive_format := rfl

theorem create_defered_links_loop_tape (ext : Extern) (hdr : cpio_file_stat) :
    ∀ (ds : List cpio_file_stat) (st : Globals),
      (create_defered_links_loop ext hdr ds st).2.tape = st.tape := by
  intro ds
  induction ds with
  | nil => intro st; rfl
  | cons d ds ih =>
    intro st
    unfold create_defered_links_loop
    by_cases hs : same_file d hdr
    · simp only [if_pos hs, ih]
      split_ifs <;> rfl
    · simp only [if_neg hs, ih]

theorem create_defered_links_tape (ext : Extern) (hdr : cpio_file_stat) (st : Globals) :
    (create_defered_links ext hdr st).tape = st.tape :=
  create_defered_links_loop_tape ext hdr st.deferments st

/-- What `copyin_regular_file_data` consumes: the payload and its padding. -/
theorem copyin_regular_file_data_tape {ext : Extern} {fh : cpio_file_stat} {fd : Int}
    {st st1 : Globals} (h : copyin_regular_file_data ext fh fd st = some st1) :
    st1.tape = st.tape.drop
      (fh.c_filesize.toNat + (padding st.archive_format fh.c_filesize).toNat) := by
  unfold copyin_regular_file_data at h
  simp only at h
  split at h
  · cases h
  · rename_i st2 hcopy
    have hf2 := copy_files_tape_to_disk_frame hcopy
    have ht2 : st2.tape = st.tape.drop fh.c_filesize.toNat := by
      rw [copy_files_tape_to_disk_tape hcopy]
      split_ifs <;> rfl
    have hfmt2 : st2.archive_format = st.archive_format := by
      rw [hf2.format]
      split_ifs <;> rfl
    by_cases ho : (report st2 [Event.disk_empty_output_buffer fd]).to_stdout_option = true
    · rw [if_pos ho] at h
      have hx := tape_skip_padding_tape h
      simp only [check_crc_tape, check_crc_archive_format, report_tape,
        report_archive_format] at hx
      rw [hx, hfmt2, ht2, List.drop_drop]
    · rw [if_neg ho] at h
      split at h
      · cases h
      · rename_i st3 hp
        have ht3 : st3.tape = st.tape.drop
            (fh.c_filesize.toNat + (padding st.archive_format fh.c_filesize).toNat) := by
          have hx := tape_skip_padding_tape hp
          simp only [check_crc_tape, check_crc_archive_format, ite_report_tape,
            ite_report_archive_format, report_tape, report_archive_format] at hx
          rw [hx, hfmt2, ht2, List.drop_drop]
        split_ifs at h <;> cases h
        · rw [create_defered_links_tape, ht3]
        · exact ht3

theorem copyin_regular_file_open_tape {ext : Extern} {fh : cpio_file_stat}
    {st st1 : Globals} (h : copyin_regular_file_open ext fh st = some st1) :
    st1.tape = st.tape.drop
      (fh.c_filesize.toNat + (padding st.archive_format fh.c_filesize).toNat) := by
  unfold copyin_regular_file_open at h
  simp only at h
  split_ifs at h
  · have hx := (toss_payload_effect _ _ _ h).2.2.2
    simp only [report_tape, report_archive_format] at hx
    exact hx
  · have hx := copyin_regular_file_data_tape h
    simp only [report_tape, report_archive_format] at hx
    exact hx
  · have hx := (toss_payload_effect _ _ _ h).2.2.2
    simp only [report_tape, report_archive_format] at hx
    exact hx
  · have hx := copyin_regular_file_data_tape h
    simp only [report_tape, report_archive_format] at hx
    exact hx

/-- What `copyin_regular_file` consumes when the archive is no tar archive: the payload
and its padding. -/
theorem copyin_regular_file_tape {ext : Extern} {fh : cpio_file_stat} {st st1 : Globals}
    (h : copyin_regular_file ext fh st = some st1)
    (hf : st.archive_format ≠ arf_tar ∧ st.archive_format ≠ arf_ustar) :
    st1.tape = st.tape.drop
      (fh.c_filesize.toNat + (padding st.archive_format fh.c_filesize).toNat) := by
  unfold copyin_regular_file at h
  by_cases ho : st.to_stdout_option = true
  · rw [if_pos ho] at h
    exact copyin_regular_file_data_tape h
  · rw [if_neg ho] at h
    by_cases hn : fh.c_nlink > 1 ∧
        (st.archive_format = arf_newascii ∨ st.archive_format = arf_crcascii)
    · rw [if_pos hn] at h
      by_cases h0 : fh.c_filesize = 0
      · rw [if_pos h0] at h
        exact (toss_payload_effect _ _ _ h).2.2.2
      · rw [if_neg h0] at h
        simp only at h
        split_ifs at h
        · have hx := (toss_payload_effect _ _ _ h).2.2.2
          simp only [link_to_maj_min_ino_tape, link_to_maj_min_ino_archive_format] at hx
          exact hx
        · have hx := copyin_regular_file_open_tape h
          simp only [link_to_maj_min_ino_tape, link_to_maj_min_ino_archive_format] at hx
          exact hx
    · rw [if_neg hn] at h
      by_cases hn2 : fh.c_nlink > 1 ∧ st.archive_format ≠ arf_tar ∧
          st.archive_format ≠ arf_ustar
      · rw [if_pos hn2] at h
        simp only at h
        split_ifs at h
        · have hx := (toss_payload_effect _ _ _ h).2.2.2
          simp only [link_to_maj_min_ino_tape, link_to_maj_min_ino_archive_format] at hx
          exact hx
        · have hx := copyin_regular_file_open_tape h
          simp only [link_to_maj_min_ino_tape, link_to_maj_min_ino_archive_format] at hx
          exact hx
      · rw [if_neg hn2] at h
        split at h
        · rename_i c linkname hlink
          have ht : ¬ ((st.archive_format = arf_tar ∨ st.archive_format = arf_ustar) ∧ c ≠ 0) := by
            rintro ⟨hx | hx, _⟩
            · exact hf.1 hx
            · exact hf.2 hx
          rw [if_neg ht] at h
          exact copyin_regular_file_open_tape h
        · exact copyin_regular_file_open_tape h

theorem padding_new_format_zero (st : Globals) (hf : new_format st) :
    padding st.archive_format 0 = 0 := by
  unfold new_format at hf
  unfold padding
  rw [if_pos (by rcases hf with h | h <;> simp [h])]
  decide

/-- C23: when the output is not the standard output, `copyin_regular_file` on a record of
a new-ascii or new-crc archive with `c_nlink > 1` and `c_filesize = 0` returns with the
header at the head of `deferments`, in front of the entries that were there, with
nothing added to the log (no file is opened, linked or written) and the archive where it
was; in every other case the list it leaves is made of entries of the list it found:
no entry is added. -/
theorem copyin_regular_file_defers (ext : Extern) (fh : cpio_file_stat) (st : Globals) :
    (st.to_stdout_option = false → fh.c_nlink > 1 → new_format st → fh.c_filesize = 0 →
      ∃ st1, copyin_regular_file ext fh st = some st1 ∧
        st1.deferments = fh :: st.deferments ∧ st1.log = st.log ∧ st1.tape = st.tape) ∧
    (∀ st1, copyin_regular_file ext fh st = some st1 →
      ¬ (st.to_stdout_option = false ∧ fh.c_nlink > 1 ∧ new_format st ∧ fh.c_filesize = 0) →
      st1.deferments.Sublist st.deferments) := by
  constructor
  · intro ho hn hf h0
    have hpad := padding_new_format_zero st hf
    have hres : copyin_regular_file ext fh st
        = some { defer_copyin st fh with
            crc := (if st.crc_i_flag ∧ st.only_verify_crc_flag then
              (st.crc + ((st.tape.take 0).sum)) % 2 ^ 32 else st.crc),
            tape := st.tape.drop 0 } := by
      unfold copyin_regular_file
      rw [if_neg (by simp [ho]), if_pos ⟨hn, hf⟩, if_pos h0]
      unfold toss_payload tape_toss_input
      rw [h0]
      simp only [Int.toNat_zero, Nat.zero_le, if_true]
      unfold tape_skip_padding
      simp only
      have hpad2 : padding (defer_copyin st fh).archive_format 0 = 0 := hpad
      rw [if_neg (by
        show ¬ padding (defer_copyin st fh).archive_format 0 ≠ 0
        rw [hpad2]; simp)]
      rfl
    exact ⟨_, hres, rfl, rfl, rfl⟩
  · intro st1 h hnd
    exact (copyin_regular_file_frame h hnd).sublist

/-- C23 on the record `link` (two links, no payload) in a new-ascii archive: it goes to
the head of `deferments`, nothing is reported and nothing is read. -/
theorem copyin_regular_file_defers_witness :
    ∃ st1,
      copyin_regular_file sample_extern sample_deferred sample_group_state = some st1 ∧
      st1.deferments = sample_deferred :: sample_deferments ∧ st1.log = [] ∧
      st1.tape = [97, 98, 99, 0, 1, 2] :=
  (copyin_regular_file_defers sample_extern sample_deferred sample_group_state).1
    rfl (by decide) (by decide) rfl


theorem remove_first_same_file_some (fh : cpio_file_stat) :
    ∀ (l : List cpio_file_stat) (d : cpio_file_stat) (rest : List cpio_file_stat),
      remove_first_same_file fh l = some (d, rest) →
      ∃ pre post, l = pre ++ d :: post ∧ rest = pre ++ post ∧ same_file d fh ∧
        ∀ x ∈ pre, ¬ same_file x fh := by
  intro l
  induction l with
  | nil => intro d rest h; simp [remove_first_same_file] at h
  | cons x xs ih =>
    intro d rest h
    unfold remove_first_same_file at h
    by_cases hs : same_file x fh
    · rw [if_pos hs] at h
      simp only [Option.some.injEq, Prod.mk.injEq] at h
      obtain ⟨rfl, rfl⟩ := h
      exact ⟨[], xs, rfl, rfl, hs, by simp⟩
    · rw [if_neg hs] at h
      split at h
      · cases h
      · rename_i e r hr
        simp only [Option.some.injEq, Prod.mk.injEq] at h
        obtain ⟨rfl, rfl⟩ := h
        obtain ⟨pre, post, h1, h2, h3, h4⟩ := ih e r hr
        refine ⟨x :: pre, post, by rw [h1]; rfl, by rw [h2]; rfl, h3, ?_⟩
        intro y hy
        rcases List.mem_cons.mp hy with rfl | hy
        · exact hs
        · exact h4 y hy

theorem remove_first_same_file_eq_none (fh : cpio_file_stat) (l : List cpio_file_stat) :
    remove_first_same_file fh l = none ↔ ∀ d ∈ l, ¬ same_file d fh := by
  constructor
  · intro h d hd hs
    induction l with
    | nil => cases hd
    | cons x xs ih =>
      unfold remove_first_same_file at h
      by_cases hx : same_file x fh
      · rw [if_pos hx] at h
        cases h
      · rw [if_neg hx] at h
        rcases List.mem_cons.mp hd with rfl | hd
        · exact hx hs
        · cases hr : remove_first_same_file fh xs with
          | none => exact ih hr hd
          | some p =>
            rw [hr] at h
            cases h
  · intro h
    exact remove_first_same_file_none fh l (fun ⟨d, hd, hs⟩ => h d hd hs)

/-- C24: `create_defered_links_to_skipped (hdr)` returns -1 with the header, the list
`deferments` and the archive as they were when `c_filesize` is 0 or no entry of the list
has the `(c_ino, c_dev_maj, c_dev_min)` of `hdr`.  Otherwise the first entry of the list
that has them leaves it, `hdr` takes the name of that entry, `copyin_regular_file` is
called on it, and the value is 0; in a new-ascii or new-crc archive that call consumes
the payload and its padding.  So the skip branch of the main loop, which discards
payload and padding itself after a -1, leaves the archive after the payload and its
padding in both cases. -/
theorem create_defered_links_to_skipped_once (ext : Extern) (fh : cpio_file_stat)
    (st : Globals) :
    (fh.c_filesize = 0 ∨ (∀ d ∈ st.deferments, ¬ same_file d fh) →
      create_defered_links_to_skipped ext fh st = some (-1, fh, st)) ∧
    (fh.c_filesize ≠ 0 → (∃ d ∈ st.deferments, same_file d fh) →
      ∃ pre d post, st.deferments = pre ++ d :: post ∧ same_file d fh ∧
        (∀ x ∈ pre, ¬ same_file x fh) ∧
        create_defered_links_to_skipped ext fh st
          = (copyin_regular_file ext (cpio_set_c_name fh d.c_name)
              { st with deferments := pre ++ post }).map
              (fun s => (0, cpio_set_c_name fh d.c_name, s)) ∧
        (new_format st → ∀ st1,
          copyin_regular_file ext (cpio_set_c_name fh d.c_name)
            { st with deferments := pre ++ post } = some st1 →
          st1.tape = st.tape.drop
            (fh.c_filesize.toNat + (padding st.archive_format fh.c_filesize).toNat))) ∧
    (∀ fh1 st1, process_skipped ext fh st = some (fh1, st1) →
      st1.tape = st.tape.drop
        (fh.c_filesize.toNat + (padding st.archive_format fh.c_filesize).toNat)) := by
  have hpart2 : fh.c_filesize ≠ 0 → ∀ d rest,
      remove_first_same_file fh st.deferments = some (d, rest) →
      create_defered_links_to_skipped ext fh st
        = (copyin_regular_file ext (cpio_set_c_name fh d.c_name)
            { st with deferments := rest }).map
            (fun s => (0, cpio_set_c_name fh d.c_name, s)) := by
    intro h0 d rest hr
    unfold create_defered_links_to_skipped
    rw [if_neg h0, hr]
    simp only
    generalize copyin_regular_file ext (cpio_set_c_name fh d.c_name)
      { st with deferments := rest } = o
    cases o <;> rfl
  have htape : new_format st → ∀ (d : cpio_file_stat) (rest : List cpio_file_stat) st1,
      copyin_regular_file ext (cpio_set_c_name fh d.c_name)
        { st with deferments := rest } = some st1 →
      st1.tape = st.tape.drop
        (fh.c_filesize.toNat + (padding st.archive_format fh.c_filesize).toNat) := by
    intro hf d rest st1 hc
    unfold new_format at hf
    have hne : st.archive_format ≠ arf_tar ∧ st.archive_format ≠ arf_ustar := by
      rcases hf with h | h <;> rw [h] <;> exact ⟨by decide, by decide⟩
    have hx := @copyin_regular_file_tape ext (cpio_set_c_name fh d.c_name)
      { st with deferments := rest } st1 hc hne
    simp only [cpio_set_c_name] at hx
    exact hx
  refine ⟨?_, ?_, ?_⟩
  · intro h
    unfold create_defered_links_to_skipped
    by_cases h0 : fh.c_filesize = 0
    · rw [if_pos h0]
    · rw [if_neg h0]
      rcases h with h | h
      · exact absurd h h0
      · rw [(remove_first_same_file_eq_none fh st.deferments).mpr h]
  · intro h0 hex
    cases hr : remove_first_same_file fh st.deferments with
    | none =>
      obtain ⟨d, hd, hs⟩ := hex
      exact absurd hs ((remove_first_same_file_eq_none fh st.deferments).mp hr d hd)
    | some p =>
      obtain ⟨d, rest⟩ := p
      obtain ⟨pre, post, h1, h2, h3, h4⟩ := remove_first_same_file_some fh _ _ _ hr
      refine ⟨pre, d, post, h1, h3, h4, ?_, ?_⟩
      · rw [← h2]
        exact hpart2 h0 d rest hr
      · intro hf st1 hc
        exact htape hf d (pre ++ post) st1 hc
  · intro fh1 st1 h
    unfold process_skipped at h
    by_cases hc : fh.c_nlink > 1 ∧
        (st.archive_format = arf_newascii ∨ st.archive_format = arf_crcascii)
    · rw [if_pos hc] at h
      by_cases h0 : fh.c_filesize = 0
      · have hx : create_defered_links_to_skipped ext fh st = some (-1, fh, st) := by
          unfold create_defered_links_to_skipped
          rw [if_pos h0]
        rw [hx] at h
        simp only [Int.reduceNeg, Left.neg_neg_iff, zero_lt_one, if_true] at h
        split at h
        · cases h
        · rename_i st2 ht
          simp only [Option.some.injEq, Prod.mk.injEq] at h
          rw [← h.2]
          exact (toss_payload_effect _ _ _ ht).2.2.2
      · cases hr : remove_first_same_file fh st.deferments with
        | none =>
          have hx : create_defered_links_to_skipped ext fh st = some (-1, fh, st) := by
            unfold create_defered_links_to_skipped
            rw [if_neg h0, hr]
          rw [hx] at h
          simp only [Int.reduceNeg, Left.neg_neg_iff, zero_lt_one, if_true] at h
          split at h
          · cases h
          · rename_i st2 ht
            simp only [Option.some.injEq, Prod.mk.injEq] at h
            rw [← h.2]
            exact (toss_payload_effect _ _ _ ht).2.2.2
        | some p =>
          obtain ⟨d, rest⟩ := p
          rw [hpart2 h0 d rest hr] at h
          cases hcr : copyin_regular_file ext (cpio_set_c_name fh d.c_name)
              { st with deferments := rest } with
          | none =>
            rw [hcr] at h
            simp at h
          | some s =>
            rw [hcr] at h
            simp only [Option.map_some', lt_self_iff_false, if_false, Option.some.injEq,
              Prod.mk.injEq] at h
            rw [← h.2]
            exact htape hc.2 d rest s hcr
    · rw [if_neg hc] at h
      split at h
      · cases h
      · rename_i st2 ht
        simp only [Option.some.injEq, Prod.mk.injEq] at h
        rw [← h.2]
        exact (toss_payload_effect _ _ _ ht).2.2.2

/-- C24 on the new-ascii state with the list `sample_deferments`: for the record `link`,
which has no payload, the value is -1 and nothing changes; for the record `z` of the same
inode with a payload of 3 bytes, the first matching entry leaves the list and the record
is extracted under its name; the skip branch then leaves the archive after the payload
and its padding byte. -/
theorem create_defered_links_to_skipped_once_witness :
    create_defered_links_to_skipped sample_extern sample_deferred sample_group_state
      = some (-1, sample_deferred, sample_group_state) ∧
    (∃ pre d post, sample_group_state.deferments = pre ++ d :: post ∧
      same_file d sample_group_data ∧
      (∀ x ∈ pre, ¬ same_file x sample_group_data) ∧
      create_defered_links_to_skipped sample_extern sample_group_data sample_group_state
        = (copyin_regular_file sample_extern (cpio_set_c_name sample_group_data d.c_name)
            { sample_group_state with deferments := pre ++ post }).map
            (fun s => (0, cpio_set_c_name sample_group_data d.c_name, s)) ∧
      (new_format sample_group_state → ∀ st1,
        copyin_regular_file sample_extern (cpio_set_c_name sample_group_data d.c_name)
          { sample_group_state with deferments := pre ++ post } = some st1 →
        st1.tape = sample_group_state.tape.drop
          (sample_group_data.c_filesize.toNat +
            (padding sample_group_state.archive_format
              sample_group_data.c_filesize).toNat))) ∧
    ∃ fh1 st1,
      process_skipped sample_extern sample_group_data sample_group_state
        = some (fh1, st1) ∧
      st1.tape = sample_group_state.tape.drop
        (sample_group_data.c_filesize.toNat +
          (padding sample_group_state.archive_format
            sample_group_data.c_filesize).toNat) := by
  refine ⟨(create_defered_links_to_skipped_once sample_extern sample_deferred
      sample_group_state).1 (Or.inl rfl),
    (create_defered_links_to_skipped_once sample_extern sample_group_data
      sample_group_state).2.1 (by decide) ⟨_, List.mem_cons_self _ _, by decide⟩, ?_⟩
  have hev : (process_skipped sample_extern sample_group_data
      sample_group_state).map (fun p => p.2.tape) = some [1, 2] := by decide
  cases hm : process_skipped sample_extern sample_group_data sample_group_state with
  | none => rw [hm] at hev; cases hev
  | some p =>
    exact ⟨p.1, p.2, rfl,
      (create_defered_links_to_skipped_once sample_extern sample_group_data
        sample_group_state).2.2 p.1 p.2 hm⟩


theorem lstat_calls_append (a b : List Event) :
    lstat_calls (a ++ b) = lstat_calls a ++ lstat_calls b := by
  induction a with
  | nil => rfl
  | cons e rest ih =>
    cases e with
    | call_stat c res =>
      cases c <;> simp [lstat_calls, ih]
    | _ => simp [lstat_calls, ih]

theorem report_log (st : Globals) (evs : List Event) :
    (report st evs).log = st.log ++ evs := rfl

theorem do_call_log (ext : Extern) (st : Globals) (c : Call) :
    (do_call ext st c).2.log = st.log ++ [Event.call c (do_call ext st c).1] := rfl

theorem do_call_lstat_calls (ext : Extern) (st : Globals) (c : Call) :
    lstat_calls (do_call ext st c).2.log = lstat_calls st.log := by
  rw [do_call_log, lstat_calls_append]
  simp only [lstat_calls, List.append_nil]

theorem report_lstat_calls (st : Globals) (evs : List Event) :
    lstat_calls (report st evs).log = lstat_calls st.log ++ lstat_calls evs := by
  rw [report_log, lstat_calls_append]

theorem chown_or_report_lstat_calls (ext : Extern) (st : Globals) (c : Call)
    (name : List Nat) (uid gid : Nat) :
    lstat_calls (chown_or_report ext st c name uid gid).log = lstat_calls st.log := by
  unfold chown_or_report
  simp only
  split_ifs
  · rw [report_lstat_calls, do_call_lstat_calls]
    simp only [lstat_calls, List.append_nil]
  · rw [do_call_lstat_calls]

theorem do_stat_lstat_calls (ext : Extern) (st : Globals) (name : List Nat) :
    lstat_calls (do_stat ext st (Call.lstat name)).2.log = lstat_calls st.log ++ [name] := by
  unfold do_stat
  simp only [report_log, lstat_calls_append]
  rfl

theorem ite_lstat_calls (p : Prop) [Decidable p] (a b : Globals) (l : List (List Nat))
    (ha : lstat_calls a.log = l) (hb : lstat_calls b.log = l) :
    lstat_calls (if p then a else b).log = l := by
  split_ifs
  · exact ha
  · exact hb

theorem ite_snd_lstat_calls (p : Prop) [Decidable p] (a b : Int × Globals)
    (l : List (List Nat))
    (ha : lstat_calls a.2.log = l) (hb : lstat_calls b.2.log = l) :
    lstat_calls (if p then a else b).2.log = l := by
  split_ifs
  · exact ha
  · exact hb

theorem replace_symlink_placeholder_lstat_calls (ext : Extern) (dl : delayed_link)
    (st : Globals) :
    lstat_calls (replace_symlink_placeholder ext dl st).log
      = lstat_calls st.log ++ [dl.target] := by
  have h0 := do_stat_lstat_calls ext st dl.target
  unfold replace_symlink_placeholder
  simp only
  split
  · exact h0
  · rename_i fs hfs
    refine ite_lstat_calls _ _ _ _ ?_ h0
    have h1 : lstat_calls (do_call ext (do_stat ext st (Call.lstat dl.target)).2
        (Call.unlink dl.target)).2.log = lstat_calls st.log ++ [dl.target] := by
      rw [do_call_lstat_calls]; exact h0
    refine ite_lstat_calls _ _ _ _ ?_ ?_
    · rw [report_lstat_calls, h1]
      simp only [lstat_calls, List.append_nil]
    have h2 : lstat_calls (if (do_call ext (do_call ext
          (do_stat ext st (Call.lstat dl.target)).2 (Call.unlink dl.target)).2
          (Call.symlink dl.source dl.target dl.mode)).1 < 0 ∧ st.create_dir_flag then
        do_call ext (report (do_call ext (do_call ext
          (do_stat ext st (Call.lstat dl.target)).2 (Call.unlink dl.target)).2
          (Call.symlink dl.source dl.target dl.mode)).2
            [Event.create_all_directories dl.target])
          (Call.symlink dl.source dl.target dl.mode)
        else do_call ext (do_call ext
          (do_stat ext st (Call.lstat dl.target)).2 (Call.unlink dl.target)).2
          (Call.symlink dl.source dl.target dl.mode)).2.log
          = lstat_calls st.log ++ [dl.target] := by
      refine ite_snd_lstat_calls _ _ _ _ ?_ ?_
      · rw [do_call_lstat_calls, report_lstat_calls, do_call_lstat_calls, h1]
        simp only [lstat_calls, List.append_nil]
      · rw [do_call_lstat_calls, h1]
    refine ite_lstat_calls _ _ _ _ ?_ ?_
    · rw [report_lstat_calls, h2]
      simp only [lstat_calls, List.append_nil]
    have h3 := ite_lstat_calls (¬ st.no_chown_flag = true) _ _ _
      ((chown_or_report_lstat_calls ext _
        (Call.lchown dl.target (owner_of st dl.uid) (group_of st dl.gid))
        dl.target (owner_of st dl.uid) (group_of st dl.gid)).trans h2) h2
    refine ite_lstat_calls _ _ _ _ ?_ h3
    rw [do_call_lstat_calls]
    exact h3

theorem replace_symlink_placeholders_loop_foldl (ext : Extern) :
    ∀ (tbl : List delayed_link) (st : Globals),
      replace_symlink_placeholders_loop ext tbl st
        = tbl.foldl (fun s dl => replace_symlink_placeholder ext dl s) st := by
  intro tbl
  induction tbl with
  | nil => intro st; rfl
  | cons dl rest ih =>
    intro st
    unfold replace_symlink_placeholders_loop
    rw [ih]
    rfl

theorem replace_symlink_placeholders_loop_lstat_calls (ext : Extern) :
    ∀ (tbl : List delayed_link) (st : Globals),
      lstat_calls (replace_symlink_placeholders_loop ext tbl st).log
        = lstat_calls st.log ++ tbl.map (fun dl => dl.target) := by
  intro tbl
  induction tbl with
  | nil => intro st; simp [replace_symlink_placeholders_loop]
  | cons dl rest ih =>
    intro st
    unfold replace_symlink_placeholders_loop
    rw [ih, replace_symlink_placeholder_lstat_calls]
    simp


theorem log_ext_trans {a b c : Globals} (h1 : ∃ evs, b.log = a.log ++ evs)
    (h2 : ∃ evs, c.log = b.log ++ evs) : ∃ evs, c.log = a.log ++ evs := by
  obtain ⟨e1, h1⟩ := h1
  obtain ⟨e2, h2⟩ := h2
  exact ⟨e1 ++ e2, by rw [h2, h1, List.append_assoc]⟩

theorem log_ext_ite {a : Globals} (p : Prop) [Decidable p] (b c : Globals)
    (hb : ∃ evs, b.log = a.log ++ evs) (hc : ∃ evs, c.log = a.log ++ evs) :
    ∃ evs, (if p then b else c).log = a.log ++ evs := by
  split_ifs
  · exact hb
  · exact hc

theorem log_ext_ite_snd {a : Globals} (p : Prop) [Decidable p] (b c : Int × Globals)
    (hb : ∃ evs, b.2.log = a.log ++ evs) (hc : ∃ evs, c.2.log = a.log ++ evs) :
    ∃ evs, (if p then b else c).2.log = a.log ++ evs := by
  split_ifs
  · exact hb
  · exact hc

theorem chown_or_report_log_ext (ext : Extern) (st : Globals) (c : Call)
    (name : List Nat) (uid gid : Nat) :
    ∃ evs, (chown_or_report ext st c name uid gid).log = st.log ++ evs := by
  unfold chown_or_report
  simp only
  split_ifs
  · exact ⟨_, by rw [report_log, do_call_log, List.append_assoc]⟩
  · exact ⟨_, do_call_log ext st c⟩

theorem replace_symlink_placeholder_no_match (ext : Extern) (dl : delayed_link)
    (s : Globals)
    (h : ∀ fs, ext.sys_stat s.log (Call.lstat dl.target) = some fs →
      ¬ (fs.st_dev = dl.dev ∧ fs.st_ino = dl.ino)) :
    replace_symlink_placeholder ext dl s
      = report s [Event.call_stat (Call.lstat dl.target)
          (ext.sys_stat s.log (Call.lstat dl.target))] := by
  unfold replace_symlink_placeholder
  simp only
  split
  · rfl
  · rename_i fs hfs
    rw [if_neg (h fs hfs)]
    rfl

theorem replace_symlink_placeholder_unlink_fails (ext : Extern) (dl : delayed_link)
    (s : Globals) (fs : file_stat)
    (hfs : ext.sys_stat s.log (Call.lstat dl.target) = some fs)
    (hm : fs.st_dev = dl.dev ∧ fs.st_ino = dl.ino)
    (hu : ext.sys_call (s.log ++ [Event.call_stat (Call.lstat dl.target) (some fs)])
      (Call.unlink dl.target) ≠ 0) :
    replace_symlink_placeholder ext dl s
      = report s [Event.call_stat (Call.lstat dl.target) (some fs),
          Event.call (Call.unlink dl.target)
            (ext.sys_call (s.log ++ [Event.call_stat (Call.lstat dl.target) (some fs)])
              (Call.unlink dl.target)),
          Event.unlink_error dl.target] := by
  have hs : (do_stat ext s (Call.lstat dl.target))
      = (some fs, report s [Event.call_stat (Call.lstat dl.target) (some fs)]) := by
    unfold do_stat
    simp only [hfs]
  unfold replace_symlink_placeholder
  simp only [hs]
  rw [if_pos hm]
  have hu2 : (do_call ext (report s [Event.call_stat (Call.lstat dl.target) (some fs)])
      (Call.unlink dl.target)).1 ≠ 0 := hu
  rw [if_pos hu2]
  simp only [do_call, report, List.append_assoc, List.singleton_append, List.cons_append,
    List.nil_append]

theorem replace_symlink_placeholder_replaces (ext : Extern) (dl : delayed_link)
    (s : Globals) (fs : file_stat)
    (hfs : ext.sys_stat s.log (Call.lstat dl.target) = some fs)
    (hm : fs.st_dev = dl.dev ∧ fs.st_ino = dl.ino)
    (hu : ext.sys_call (s.log ++ [Event.call_stat (Call.lstat dl.target) (some fs)])
      (Call.unlink dl.target) = 0) :
    ∃ evs, (replace_symlink_placeholder ext dl s).log
      = s.log ++ Event.call_stat (Call.lstat dl.target) (some fs) ::
          Event.call (Call.unlink dl.target) 0 ::
          Event.call (Call.symlink dl.source dl.target dl.mode)
            (ext.sys_call (s.log ++ [Event.call_stat (Call.lstat dl.target) (some fs),
              Event.call (Call.unlink dl.target) 0])
              (Call.symlink dl.source dl.target dl.mode)) :: evs := by
  have hs : (do_stat ext s (Call.lstat dl.target))
      = (some fs, report s [Event.call_stat (Call.lstat dl.target) (some fs)]) := by
    unfold do_stat
    simp only [hfs]
  have hu2 : (do_call ext (report s [Event.call_stat (Call.lstat dl.target) (some fs)])
      (Call.unlink dl.target))
      = (0, report s [Event.call_stat (Call.lstat dl.target) (some fs),
          Event.call (Call.unlink dl.target) 0]) := by
    simp only [do_call, report, hu, List.append_assoc, List.singleton_append]
  unfold replace_symlink_placeholder
  simp only [hs]
  rw [if_pos hm]
  simp only [hu2]
  rw [if_neg (by simp)]
  generalize hs2 : report s [Event.call_stat (Call.lstat dl.target) (some fs),
          Event.call (Call.unlink dl.target) 0] = s2
  have hlog : s2.log = s.log ++ [Event.call_stat (Call.lstat dl.target) (some fs),
      Event.call (Call.unlink dl.target) 0] := by rw [← hs2]; rfl
  rw [← hlog]
  have base : ∀ x : Globals,
      (∃ evs, x.log = (do_call ext s2 (Call.symlink dl.source dl.target dl.mode)).2.log
        ++ evs) →
      ∃ evs, x.log = s.log ++ Event.call_stat (Call.lstat dl.target) (some fs) ::
          Event.call (Call.unlink dl.target) 0 ::
          Event.call (Call.symlink dl.source dl.target dl.mode)
            (ext.sys_call s2.log (Call.symlink dl.source dl.target dl.mode)) :: evs := by
    intro x hx
    obtain ⟨evs, hx⟩ := hx
    refine ⟨evs, ?_⟩
    rw [hx, do_call_log, hlog]
    simp only [do_call, hlog, List.append_assoc, List.cons_append, List.nil_append]
  apply base
  have h2 : ∃ evs, (if (do_call ext s2 (Call.symlink dl.source dl.target dl.mode)).1 < 0
        ∧ s.create_dir_flag then
        do_call ext (report (do_call ext s2 (Call.symlink dl.source dl.target dl.mode)).2
            [Event.create_all_directories dl.target])
          (Call.symlink dl.source dl.target dl.mode)
        else do_call ext s2 (Call.symlink dl.source dl.target dl.mode)).2.log
          = (do_call ext s2 (Call.symlink dl.source dl.target dl.mode)).2.log ++ evs := by
    refine log_ext_ite_snd _ _ _ ?_ ⟨[], by rw [List.append_nil]⟩
    exact ⟨_, by rw [do_call_log, report_log, List.append_assoc]⟩
  refine log_ext_ite _ _ _ ?_ ?_
  · exact log_ext_trans h2 ⟨_, report_log _ _⟩
  have h3 := @log_ext_ite (do_call ext s2 (Call.symlink dl.source dl.target dl.mode)).2
    (¬ s.no_chown_flag = true) _ _ _
    (log_ext_trans h2 (chown_or_report_log_ext ext _
        (Call.lchown dl.target (owner_of s dl.uid) (group_of s dl.gid))
        dl.target (owner_of s dl.uid) (group_of s dl.gid))) h2
  refine log_ext_ite _ _ _ ?_ h3
  exact log_ext_trans h3 ⟨_, do_call_log _ _ _⟩

/-- C26: `replace_symlink_placeholders ()` runs the body of its loop once on every entry
of the table, which is empty afterwards: `lstat` is called once on the target of every
entry (the entries are taken in the order of the list that stands for the table).  For
an entry `dl`: when `lstat (dl.target)` fails or gives another `(st_dev, st_ino)` than
the entry has, that call of `lstat` is all that happens, no other call and no report;
when it gives the same, `unlink (dl.target)` follows, then `unlink_error` and nothing more
if `unlink` fails, and `UMASKED_SYMLINK (dl.source, dl.target, dl.mode)` if it gives
0. -/
theorem replace_symlink_placeholders_once (ext : Extern) (st : Globals) :
    (replace_symlink_placeholders ext st).delayed_link_table = [] ∧
    replace_symlink_placeholders ext st
      = { st.delayed_link_table.foldl (fun s dl => replace_symlink_placeholder ext dl s) st
          with delayed_link_table := [] } ∧
    lstat_calls (replace_symlink_placeholders ext st).log
      = lstat_calls st.log ++ st.delayed_link_table.map (fun dl => dl.target) ∧
    ∀ (dl : delayed_link) (s : Globals),
      ((∀ fs, ext.sys_stat s.log (Call.lstat dl.target) = some fs →
          ¬ (fs.st_dev = dl.dev ∧ fs.st_ino = dl.ino)) →
        replace_symlink_placeholder ext dl s
          = report s [Event.call_stat (Call.lstat dl.target)
              (ext.sys_stat s.log (Call.lstat dl.target))]) ∧
      (∀ fs, ext.sys_stat s.log (Call.lstat dl.target) = some fs →
        fs.st_dev = dl.dev ∧ fs.st_ino = dl.ino →
        (ext.sys_call (s.log ++ [Event.call_stat (Call.lstat dl.target) (some fs)])
            (Call.unlink dl.target) ≠ 0 →
          replace_symlink_placeholder ext dl s
            = report s [Event.call_stat (Call.lstat dl.target) (some fs),
                Event.call (Call.unlink dl.target)
                  (ext.sys_call
                    (s.log ++ [Event.call_stat (Call.lstat dl.target) (some fs)])
                    (Call.unlink dl.target)),
                Event.unlink_error dl.target]) ∧
        (ext.sys_call (s.log ++ [Event.call_stat (Call.lstat dl.target) (some fs)])
            (Call.unlink dl.target) = 0 →
          ∃ evs, (replace_symlink_placeholder ext dl s).log
            = s.log ++ Event.call_stat (Call.lstat dl.target) (some fs) ::
                Event.call (Call.unlink dl.target) 0 ::
                Event.call (Call.symlink dl.source dl.target dl.mode)
                  (ext.sys_call
                    (s.log ++ [Event.call_stat (Call.lstat dl.target) (some fs),
                      Event.call (Call.unlink dl.target) 0])
                    (Call.symlink dl.source dl.target dl.mode)) :: evs)) := by
  refine ⟨rfl, ?_, ?_, ?_⟩
  · unfold replace_symlink_placeholders
    rw [replace_symlink_placeholders_loop_foldl]
  · exact replace_symlink_placeholders_loop_lstat_calls ext st.delayed_link_table st
  · intro dl s
    refine ⟨replace_symlink_placeholder_no_match ext dl s, ?_⟩
    intro fs hfs hm
    exact ⟨replace_symlink_placeholder_unlink_fails ext dl s fs hfs hm,
      replace_symlink_placeholder_replaces ext dl s fs hfs hm⟩


/-- C26 on a table of two entries, the placeholder `m` that does not exist and the
placeholder `l` that is still there: `lstat` is called on `m` and on `l`; for `m` nothing
else happens; for `l` the calls `unlink` and `UMASKED_SYMLINK` follow. -/
theorem replace_symlink_placeholders_once_witness :
    lstat_calls
        (replace_symlink_placeholders sample_extern_placeholders
          sample_placeholder_state).log
      = lstat_calls sample_placeholder_state.log
        ++ sample_placeholder_state.delayed_link_table.map (fun dl => dl.target) ∧
    replace_symlink_placeholder sample_extern_placeholders sample_missing_link
        sample_placeholder_state
      = report sample_placeholder_state
          [Event.call_stat (Call.lstat sample_missing_link.target)
            (sample_extern_placeholders.sys_stat sample_placeholder_state.log
              (Call.lstat sample_missing_link.target))] ∧
    ∃ evs, (replace_symlink_placeholder sample_extern_placeholders sample_delayed_link
        sample_placeholder_state).log
      = sample_placeholder_state.log ++
          Event.call_stat (Call.lstat sample_delayed_link.target)
            (some { st_mode := 0o100000, st_mtime := 0, st_dev := 1, st_ino := 104 }) ::
          Event.call (Call.unlink sample_delayed_link.target) 0 ::
          Event.call (Call.symlink sample_delayed_link.source sample_delayed_link.target
              sample_delayed_link.mode)
            (sample_extern_placeholders.sys_call
              (sample_placeholder_state.log ++
                [Event.call_stat (Call.lstat sample_delayed_link.target)
                  (some { st_mode := 0o100000, st_mtime := 0, st_dev := 1, st_ino := 104 }),
                 Event.call (Call.unlink sample_delayed_link.target) 0])
              (Call.symlink sample_delayed_link.source sample_delayed_link.target
                sample_delayed_link.mode)) :: evs :=
  ⟨(replace_symlink_placeholders_once sample_extern_placeholders
      sample_placeholder_state).2.2.1,
   ((replace_symlink_placeholders_once sample_extern_placeholders
      sample_placeholder_state).2.2.2 sample_missing_link sample_placeholder_state).1
      (fun fs h => absurd h (by
        have hn : sample_extern_placeholders.sys_stat sample_placeholder_state.log
            (Call.lstat sample_missing_link.target) = none := by decide
        rw [hn]
        exact fun hx => Option.noConfusion hx)),
   (((replace_symlink_placeholders_once sample_extern_placeholders
      sample_placeholder_state).2.2.2 sample_delayed_link sample_placeholder_state).2
      { st_mode := 0o100000, st_mtime := 0, st_dev := 1, st_ino := 104 }
      (by decide) (by decide)).2 (by decide)⟩


theorem ds_resize_loop_append (ext : Extern) (len : Nat) :
    ∀ (fuel : Nat) (s : dynamic_string),
      ∃ extra, (ds_resize_loop ext fuel s len).ds_string = s.ds_string ++ extra := by
  intro fuel
  induction fuel with
  | zero => intro s; exact ⟨[], by rw [List.append_nil]; rfl⟩
  | succ n ih =>
    intro s
    unfold ds_resize_loop
    by_cases hc : len + s.ds_idx ≥ s.ds_size
    · rw [if_pos hc]
      obtain ⟨extra, he⟩ := ih (x2nrealloc ext s)
      rw [he]
      unfold x2nrealloc
      exact ⟨_, List.append_assoc _ _ _⟩
    · rw [if_neg hc]
      exact ⟨[], by rw [List.append_nil]⟩

theorem ds_resize_take (ext : Extern) (s : dynamic_string) (len n : Nat)
    (hn : n ≤ s.ds_string.length) :
    (ds_resize ext s len).ds_string.take n = s.ds_string.take n := by
  unfold ds_resize
  obtain ⟨extra, he⟩ := ds_resize_loop_append ext len (len + s.ds_idx + 1) s
  rw [he, List.take_append_of_le_length hn]

theorem take_succ_set (l : List Nat) (i c : Nat) (hi : i < l.length) :
    (l.set i c).take (i + 1) = l.take i ++ [c] := by
  induction l generalizing i with
  | nil => simp at hi
  | cons x xs ih =>
    cases i with
    | zero => simp
    | succ j =>
      simp only [List.length_cons, Nat.add_lt_add_iff_right] at hi
      simp [ih j hi]

theorem take_set_self (l : List Nat) (i c : Nat) :
    (l.set i c).take i = l.take i := by
  induction l generalizing i with
  | nil => simp
  | cons x xs ih =>
    cases i with
    | zero => simp
    | succ j => simp [ih j]

theorem ds_fgetstr_loop_spec (ext : Extern) (hgrow : ∀ n, n < ext.x2nrealloc_size n)
    (eos : Int) :
    ∀ (f : List Nat) (s : dynamic_string), s.ds_string.length = s.ds_size →
      s.ds_idx ≤ s.ds_size → (∀ c ∈ f, c < 256) →
      (ds_fgetstr_loop ext eos f s).1.ds_idx
        = s.ds_idx + (f.takeWhile (fun c : Nat => decide ((c : Int) ≠ eos))).length ∧
      (ds_fgetstr_loop ext eos f s).1.ds_string.take (ds_fgetstr_loop ext eos f s).1.ds_idx
        = s.ds_string.take s.ds_idx ++ f.takeWhile (fun c : Nat => decide ((c : Int) ≠ eos)) ∧
      (ds_fgetstr_loop ext eos f s).1.ds_idx ≤ (ds_fgetstr_loop ext eos f s).1.ds_size ∧
      (ds_fgetstr_loop ext eos f s).2.1
        = (f.dropWhile (fun c : Nat => decide ((c : Int) ≠ eos))).drop 1 ∧
      ((ds_fgetstr_loop ext eos f s).2.2 = true ↔ ∀ c ∈ f, (c : Int) ≠ eos) := by
  intro f
  induction f with
  | nil =>
    intro s hwf hidx _
    unfold ds_fgetstr_loop
    simp
    exact hidx
  | cons c rest ih =>
    intro s hwf hidx hb
    unfold ds_fgetstr_loop
    by_cases hc : (c : Int) = eos
    · rw [if_pos hc]
      simp [hc]
      exact hidx
    · rw [if_neg hc]
      obtain ⟨h1, h2, h3⟩ := ds_resize_spec ext hgrow s 0 hwf
      have hlt : s.ds_idx < (ds_resize ext s 0).ds_string.length := by
        rw [h3]; omega
      have key := ih { ds_store (ds_resize ext s 0) (ds_resize ext s 0).ds_idx c with
          ds_idx := (ds_resize ext s 0).ds_idx + 1 }
        (by simpa [ds_store] using h3)
        (by simp only [ds_store]; omega)
        (fun x hx => hb x (List.mem_cons_of_mem _ hx))
      simp only at key
      obtain ⟨k1, k2, k3, k4, k5⟩ := key
      have hcb : c % 256 = c := Nat.mod_eq_of_lt (hb c (List.mem_cons_self _ _))
      have hpre : (ds_store (ds_resize ext s 0) (ds_resize ext s 0).ds_idx c).ds_string.take
          ((ds_resize ext s 0).ds_idx + 1) = s.ds_string.take s.ds_idx ++ [c] := by
        simp only [ds_store, h1, hcb]
        rw [take_succ_set _ _ _ hlt, ds_resize_take ext s 0 s.ds_idx (by omega)]
      simp only
      refine ⟨?_, ?_, k3, ?_, ?_⟩
      · rw [k1, h1]
        simp [hc]
        omega
      · rw [k2, hpre]
        simp [hc]
      · rw [k4]
        simp [hc]
      · rw [k5]
        simp [hc]


/-- C21: `ds_fgetstr (f, s, eos)`, for a string whose storage has `ds_size` bytes and an
allocator that grows the storage: with `line` the bytes of `f` before the first byte
equal to `eos` (all of them if there is none), the string holds exactly `line` in its
first `ds_idx` bytes, whatever it held before, with a zero byte after them; the file is
left after the byte `eos` that ended `line`, or at its end; and the result is `NULL`
exactly when the file had no byte left at all.  So an empty record ended by `eos` gives
the empty string and a last record without `eos` is returned. -/
theorem ds_fgetstr_reads_record (ext : Extern) (f : List Nat) (s : dynamic_string)
    (eos : Int) (hgrow : ∀ n, n < ext.x2nrealloc_size n)
    (hwf : s.ds_string.length = s.ds_size) (hbytes : ∀ c ∈ f, c < 256) :
    (ds_fgetstr ext f s eos).2.1.ds_idx
      = (f.takeWhile (fun c : Nat => decide ((c : Int) ≠ eos))).length ∧
    (ds_fgetstr ext f s eos).2.1.ds_string.take
        (f.takeWhile (fun c : Nat => decide ((c : Int) ≠ eos))).length
      = f.takeWhile (fun c : Nat => decide ((c : Int) ≠ eos)) ∧
    ds_terminated (ds_fgetstr ext f s eos).2.1 ∧
    (ds_fgetstr ext f s eos).2.2
      = (f.dropWhile (fun c : Nat => decide ((c : Int) ≠ eos))).drop 1 ∧
    ((ds_fgetstr ext f s eos).1 = false ↔ f = []) := by
  obtain ⟨k1, k2, k3, k4, k5⟩ := ds_fgetstr_loop_spec ext hgrow eos f { s with ds_idx := 0 }
    hwf (Nat.zero_le _) hbytes
  have hwf1 := ds_fgetstr_loop_wf ext hgrow eos f { s with ds_idx := 0 } hwf
  simp only [Nat.zero_add, List.take_zero, List.nil_append] at k1 k2
  obtain ⟨h1, h2, h3⟩ := ds_resize_spec ext hgrow
    (ds_fgetstr_loop ext eos f { s with ds_idx := 0 }).1 0 hwf1
  have hterm := ds_resize_store_terminated ext hgrow
    (ds_fgetstr_loop ext eos f { s with ds_idx := 0 }).1 hwf1
  unfold ds_fgetstr
  simp only
  refine ⟨?_, ?_, hterm, k4, ?_⟩
  · simp only [ds_store]
    rw [h1, k1]
  · simp only [ds_store]
    rw [h1, ← k1, take_set_self, ds_resize_take ext _ 0 _ (by rw [hwf1]; exact k3), k2]
  · simp only [ds_store, Bool.not_eq_false', decide_eq_true_eq, h1, k1, k5]
    constructor
    · rintro ⟨hl, hall⟩
      cases f with
      | nil => rfl
      | cons c rest =>
        have hc := hall c (List.mem_cons_self _ _)
        simp [hc] at hl
    · intro hf
      rw [hf]
      simp


/-- C21 on the file `ab`, newline, `c` with `eos` a newline and a string that held `xyz`:
the string holds `ab` and a zero byte, `ds_idx` is 2, the file is left at `c`, and the
result is not `NULL`. -/
theorem ds_fgetstr_reads_record_witness :
    (ds_fgetstr sample_extern [97, 98, 10, 99] sample_string 10).2.1.ds_idx = 2 ∧
    (ds_fgetstr sample_extern [97, 98, 10, 99] sample_string 10).2.1.ds_string.take 2
      = [97, 98] ∧
    ds_terminated (ds_fgetstr sample_extern [97, 98, 10, 99] sample_string 10).2.1 ∧
    (ds_fgetstr sample_extern [97, 98, 10, 99] sample_string 10).2.2 = [99] ∧
    ((ds_fgetstr sample_extern [97, 98, 10, 99] sample_string 10).1 = false
      ↔ [97, 98, 10, 99] = ([] : List Nat)) :=
  ds_fgetstr_reads_record sample_extern [97, 98, 10, 99] sample_string 10
    (by intro n; show n < 2 * n + 1; omega) rfl (by decide)

end Cpio
